import Mathlib

/-!
# gpbackup: table of contents, statement extraction, transforms

A shallow embedding of `utils/toc.go` and the properties of its operations.

Conventions of the embedding.

* Go `string` values that are only compared, stored and handed on (schema, name, object type,
  reference object, section names, filter keys) are Lean `String`s.
* Statement texts and file contents are byte lists (`List UInt8`): they are cut out of a file
  by byte offsets.
* `uint64` values are natural numbers; the one subtraction of the source is taken modulo `2^64`
  and the one conversion to `int64` is written out.
* A call that ends in `gplog.FatalOnError` with an error, or in a Go run-time panic, yields
  `none`.
-/

namespace GpBackup

/-! ## Data model -/

/-- One DDL object of a metadata section (`MetadataEntry`, toc.go 27-34). -/
structure MetadataEntry where
  Schema : String
  Name : String
  ObjectType : String
  ReferenceObject : String
  StartByte : Nat
  EndByte : Nat
deriving DecidableEq, Repr

/-- Data of one user table (`MasterDataEntry`, toc.go 36-42). -/
structure MasterDataEntry where
  Schema : String
  Name : String
  Oid : Nat
  AttributeString : String
  RowsCopied : Int
deriving DecidableEq, Repr

/-- A statement cut out of a metadata file (`StatementWithType`, toc.go 85-91). -/
structure StatementWithType where
  Schema : String
  Name : String
  ObjectType : String
  ReferenceObject : String
  Statement : List UInt8
deriving DecidableEq, Repr

/-- The four exported entry lists of a `TOC`; a value of this type stands for the pointer
`&toc.GlobalEntries`, `&toc.PredataEntries`, ... stored in `metadataEntryMap`. -/
inductive EntriesField where
  | GlobalEntries
  | PredataEntries
  | PostdataEntries
  | StatisticsEntries
deriving DecidableEq, Repr

/-- The coordinator table of contents (`TOC`, toc.go 14-21). The Go map from section names to
pointers is an association list; the nil map of a TOC that was never initialised is `[]`. -/
structure TOC where
  metadataEntryMap : List (String × EntriesField)
  GlobalEntries : List MetadataEntry
  PredataEntries : List MetadataEntry
  PostdataEntries : List MetadataEntry
  StatisticsEntries : List MetadataEntry
  DataEntries : List MasterDataEntry
deriving DecidableEq, Repr

/-- Modelled from the spec: the `FileWithByteCount` type of package utils, of which toc.go reads
the field `ByteCount` only. It is a file opened for writing together with the number of bytes
written to it so far ("the current write-position of that file"). -/
structure FileWithByteCount where
  contents : List UInt8
  ByteCount : Nat
deriving DecidableEq, Repr

/-- Modelled from the spec: writing bytes to a `FileWithByteCount` appends them to the file and
advances the `uint64` byte count by their number. -/
def FileWithByteCount.write (file : FileWithByteCount) (bytes : List UInt8) : FileWithByteCount :=
  { contents := file.contents ++ bytes
    ByteCount := (file.ByteCount + bytes.length) % 2 ^ 64 }

/-- A section file that was just created: nothing written. -/
def FileWithByteCount.empty : FileWithByteCount :=
  { contents := [], ByteCount := 0 }

/-! ## Filter sets -/

/-- Modelled from the spec: the `FilterSet` type of package utils (spec 4.1), a tagged value
"include these literal keys" or "exclude these literal keys" with the observable flag
`IsExclude`. -/
structure FilterSet where
  keys : List String
  IsExclude : Bool
deriving DecidableEq, Repr

/-- Modelled from the spec: `newInclude(keys)` of spec 4.1. -/
def NewIncludeSet (keys : List String) : FilterSet :=
  { keys := keys, IsExclude := false }

/-- Modelled from the spec: `newExclude(keys)` of spec 4.1. -/
def NewExcludeSet (keys : List String) : FilterSet :=
  { keys := keys, IsExclude := true }

/-- Modelled from the spec: `matches(key)` of spec 4.1. "An include set matches iff key is in
the set; an exclude set matches iff key is not in the set." -/
def FilterSet.MatchesFilter (f : FilterSet) (key : String) : Bool :=
  if f.IsExclude then !(f.keys.contains key) else f.keys.contains key

/-- Filter construction (`constructFilterSets`, toc.go 108-126). -/
def constructFilterSets (includeObjectTypes excludeObjectTypes includeSchemas excludeSchemas
    includeRelations excludeRelations : List String) : FilterSet × FilterSet × FilterSet :=
  let objectSet :=
    if includeObjectTypes.length > 0 then NewIncludeSet includeObjectTypes
    else NewExcludeSet excludeObjectTypes
  let schemaSet :=
    if includeSchemas.length > 0 then NewIncludeSet includeSchemas
    else NewExcludeSet excludeSchemas
  let relationSet :=
    if includeRelations.length > 0 then NewIncludeSet includeRelations
    else NewExcludeSet excludeRelations
  (objectSet, schemaSet, relationSet)

/-- Inclusion test of one entry (`shouldIncludeStatement`, toc.go 128-137). `MakeFQN` is the
function of package utils that builds the fully-qualified name of a relation; it is defined
outside toc.go and is a parameter here. -/
def shouldIncludeStatement (MakeFQN : String → String → String) (entry : MetadataEntry)
    (objectSet schemaSet relationSet : FilterSet) : Bool :=
  let shouldIncludeObject := objectSet.MatchesFilter entry.ObjectType
  let shouldIncludeSchema := schemaSet.MatchesFilter entry.Schema
  let relationFQN := MakeFQN entry.Schema entry.Name
  let shouldIncludeRelation :=
    (relationSet.IsExclude && entry.ObjectType != "TABLE" && entry.ObjectType != "VIEW"
        && entry.ObjectType != "SEQUENCE" && entry.ReferenceObject == "") ||
      ((entry.ObjectType == "TABLE" || entry.ObjectType == "VIEW"
          || entry.ObjectType == "SEQUENCE")
        && relationSet.MatchesFilter relationFQN && entry.ReferenceObject == "") ||
      (entry.ReferenceObject != "" && relationSet.MatchesFilter entry.ReferenceObject)
  shouldIncludeObject && shouldIncludeSchema && shouldIncludeRelation

/-- The relation predicate as the decision chain of spec 4.3 step 4, written from the words of
the specification (not from the code). -/
def relationDecisionChain (MakeFQN : String → String → String) (entry : MetadataEntry)
    (relationSet : FilterSet) : Bool :=
  let isRelation :=
    entry.ObjectType == "TABLE" || entry.ObjectType == "VIEW" || entry.ObjectType == "SEQUENCE"
  if relationSet.IsExclude && !isRelation && entry.ReferenceObject == "" then true
  else if isRelation && entry.ReferenceObject == "" then
    relationSet.MatchesFilter (MakeFQN entry.Schema entry.Name)
  else if entry.ReferenceObject != "" then relationSet.MatchesFilter entry.ReferenceObject
  else false

/-! ## Reading statements -/

/-- Difference of two `uint64` values as Go computes it (wrapping). -/
def uint64Sub (a b : Nat) : Nat :=
  (a % 2 ^ 64 + 2 ^ 64 - b % 2 ^ 64) % 2 ^ 64

/-- Conversion `int64(x)` of a `uint64` value. -/
def toInt64 (x : Nat) : Int :=
  if x % 2 ^ 64 < 2 ^ 63 then ((x % 2 ^ 64 : Nat) : Int) else ((x % 2 ^ 64 : Nat) : Int) - 2 ^ 64

/-- Allocation `make([]byte, n)` for a `uint64` length: the run time panics when the length
does not fit a non-negative `int`; otherwise the buffer has `n` bytes. -/
def makeBytes (n : Nat) : Option Nat :=
  if n < 2 ^ 63 then some n else none

/-- Positional read `metadataFile.ReadAt(contents, off)` into a buffer of `len` bytes, on a
regular file (`os.File`): a negative offset is an error, an empty buffer reads nothing, and the
read succeeds exactly when the file holds `len` bytes from `off` on; `none` is a non-nil
error. -/
def ReadAt (metadataFile : List UInt8) (len : Nat) (off : Int) : Option (List UInt8) :=
  if off < 0 then none
  else if len = 0 then some []
  else if off.toNat + len ≤ metadataFile.length then
    some ((metadataFile.drop off.toNat).take len)
  else none

/-- Section lookup and dereference `*toc.metadataEntryMap[section]`: a missing key yields the
nil pointer, whose dereference panics. -/
def TOC.load (toc : TOC) (p : EntriesField) : List MetadataEntry :=
  match p with
  | .GlobalEntries => toc.GlobalEntries
  | .PredataEntries => toc.PredataEntries
  | .PostdataEntries => toc.PostdataEntries
  | .StatisticsEntries => toc.StatisticsEntries

/-- Assignment through one of the four pointers. -/
def TOC.store (toc : TOC) (p : EntriesField) (entries : List MetadataEntry) : TOC :=
  match p with
  | .GlobalEntries => { toc with GlobalEntries := entries }
  | .PredataEntries => { toc with PredataEntries := entries }
  | .PostdataEntries => { toc with PostdataEntries := entries }
  | .StatisticsEntries => { toc with StatisticsEntries := entries }

/-- Statement extraction with filters (`TOC.GetSQLStatementForObjectTypes`, toc.go 93-106). -/
def TOC.GetSQLStatementForObjectTypes (MakeFQN : String → String → String) (toc : TOC)
    (sectionName : String) (metadataFile : List UInt8)
    (includeObjectTypes excludeObjectTypes includeSchemas excludeSchemas
      includeRelations excludeRelations : List String) : Option (List StatementWithType) :=
  match toc.metadataEntryMap.lookup sectionName with
  | none => none
  | some p =>
    let entries := toc.load p
    let (objectSet, schemaSet, relationSet) :=
      constructFilterSets includeObjectTypes excludeObjectTypes includeSchemas excludeSchemas
        includeRelations excludeRelations
    entries.foldlM (fun statements entry =>
      if shouldIncludeStatement MakeFQN entry objectSet schemaSet relationSet then
        match makeBytes (uint64Sub entry.EndByte entry.StartByte) with
        | none => none
        | some len =>
          match ReadAt metadataFile len (toInt64 entry.StartByte) with
          | none => none
          | some contents =>
            some (statements ++ [{ Schema := entry.Schema, Name := entry.Name,
                                   ObjectType := entry.ObjectType,
                                   ReferenceObject := entry.ReferenceObject,
                                   Statement := contents }])
      else some statements) []

/-- Statement extraction without filters (`TOC.GetAllSQLStatements`, toc.go 139-149). -/
def TOC.GetAllSQLStatements (toc : TOC) (sectionName : String) (metadataFile : List UInt8) :
    Option (List StatementWithType) :=
  match toc.metadataEntryMap.lookup sectionName with
  | none => none
  | some p =>
    let entries := toc.load p
    entries.foldlM (fun statements entry =>
      match makeBytes (uint64Sub entry.EndByte entry.StartByte) with
      | none => none
      | some len =>
        match ReadAt metadataFile len (toInt64 entry.StartByte) with
        | none => none
        | some contents =>
          some (statements ++ [{ Schema := entry.Schema, Name := entry.Name,
                                 ObjectType := entry.ObjectType,
                                 ReferenceObject := entry.ReferenceObject,
                                 Statement := contents }])) []

/-- The statement that the bytes `[StartByte, EndByte)` of the file give for an entry: the
entry's four descriptive fields and the slice as text. -/
def sliceStatement (metadataFile : List UInt8) (entry : MetadataEntry) : StatementWithType :=
  { Schema := entry.Schema, Name := entry.Name, ObjectType := entry.ObjectType,
    ReferenceObject := entry.ReferenceObject,
    Statement := (metadataFile.drop entry.StartByte).take (entry.EndByte - entry.StartByte) }

/-! ## Append operations -/

/-- Map initialisation (`TOC.InitializeEntryMap`, toc.go 206-212). -/
def TOC.InitializeEntryMap (toc : TOC) : TOC :=
  { toc with metadataEntryMap :=
      [("global", .GlobalEntries), ("predata", .PredataEntries),
       ("postdata", .PostdataEntries), ("statistics", .StatisticsEntries)] }

/-- Append to a named section (`TOC.AddMetadataEntry`, toc.go 214-216). -/
def TOC.AddMetadataEntry (toc : TOC) (schema name objectType referenceObject : String)
    (start : Nat) (file : FileWithByteCount) (sectionName : String) : Option TOC :=
  match toc.metadataEntryMap.lookup sectionName with
  | none => none
  | some p =>
    some (toc.store p (toc.load p ++
      [{ Schema := schema, Name := name, ObjectType := objectType,
         ReferenceObject := referenceObject, StartByte := start, EndByte := file.ByteCount }]))

/-- Append to the global section (`TOC.AddGlobalEntry`, toc.go 218-220). -/
def TOC.AddGlobalEntry (toc : TOC) (schema name objectType : String) (start : Nat)
    (file : FileWithByteCount) : Option TOC :=
  toc.AddMetadataEntry schema name objectType "" start file "global"

/-- Append to the predata section (`TOC.AddPredataEntry`, toc.go 222-224). -/
def TOC.AddPredataEntry (toc : TOC) (schema name objectType referenceObject : String)
    (start : Nat) (file : FileWithByteCount) : Option TOC :=
  toc.AddMetadataEntry schema name objectType referenceObject start file "predata"

/-- Append to the postdata section (`TOC.AddPostdataEntry`, toc.go 226-228). -/
def TOC.AddPostdataEntry (toc : TOC) (schema name objectType referenceObject : String)
    (start : Nat) (file : FileWithByteCount) : Option TOC :=
  toc.AddMetadataEntry schema name objectType referenceObject start file "postdata"

/-- Append to the statistics section (`TOC.AddStatisticsEntry`, toc.go 230-232). -/
def TOC.AddStatisticsEntry (toc : TOC) (schema name objectType : String) (start : Nat)
    (file : FileWithByteCount) : Option TOC :=
  toc.AddMetadataEntry schema name objectType "" start file "statistics"

/-- Append a data entry (`TOC.AddMasterDataEntry`, toc.go 234-236). -/
def TOC.AddMasterDataEntry (toc : TOC) (schema name : String) (oid : Nat)
    (attributeString : String) (rowsCopied : Int) : TOC :=
  { toc with DataEntries := toc.DataEntries ++
      [{ Schema := schema, Name := name, Oid := oid, AttributeString := attributeString,
         RowsCopied := rowsCopied }] }

/-- The TOC at backup start: no entries, entry map initialised. -/
def TOC.empty : TOC :=
  TOC.InitializeEntryMap
    { metadataEntryMap := [], GlobalEntries := [], PredataEntries := [],
      PostdataEntries := [], StatisticsEntries := [], DataEntries := [] }

/-- A TOC on which `InitializeEntryMap` has been called (and which may have been appended to
since): its entry map is the one that call sets up. -/
def TOC.EntryMapInitialized (toc : TOC) : Prop :=
  toc.metadataEntryMap = toc.InitializeEntryMap.metadataEntryMap

/-- The section name under which `InitializeEntryMap` registers each entry list. -/
def EntriesField.sectionName : EntriesField → String
  | .GlobalEntries => "global"
  | .PredataEntries => "predata"
  | .PostdataEntries => "postdata"
  | .StatisticsEntries => "statistics"

/-- The append operation of a section: the wrapper of `AddMetadataEntry` that belongs to it
(the global and statistics wrappers take no reference object). -/
def TOC.appendToSection (toc : TOC) (p : EntriesField)
    (schema name objectType referenceObject : String) (start : Nat)
    (file : FileWithByteCount) : Option TOC :=
  match p with
  | .GlobalEntries => toc.AddGlobalEntry schema name objectType start file
  | .PredataEntries => toc.AddPredataEntry schema name objectType referenceObject start file
  | .PostdataEntries => toc.AddPostdataEntry schema name objectType referenceObject start file
  | .StatisticsEntries => toc.AddStatisticsEntry schema name objectType start file

/-- An object on its way into a section file: its descriptive attributes and its bytes. -/
structure WrittenObject where
  schema : String
  name : String
  objectType : String
  referenceObject : String
  text : List UInt8
deriving DecidableEq, Repr

/-- The writing discipline of a section: for each object in turn, note the byte count of the
section file, write the object, then call the append operation of the section with the noted
count as start. -/
def writeObjects (p : EntriesField) :
    List WrittenObject → TOC × FileWithByteCount → Option (TOC × FileWithByteCount)
  | [], state => some state
  | obj :: rest, (toc, file) =>
    let start := file.ByteCount
    let file1 := file.write obj.text
    match toc.appendToSection p obj.schema obj.name obj.objectType obj.referenceObject
        start file1 with
    | none => none
    | some toc1 => writeObjects p rest (toc1, file1)

/-- A call of one of the five append operations with its arguments: the append operation of a
metadata section (`AddGlobalEntry`, `AddPredataEntry`, `AddPostdataEntry`,
`AddStatisticsEntry`, by section) or `AddMasterDataEntry`. -/
inductive AppendOp where
  | metadata (p : EntriesField) (schema name objectType referenceObject : String)
      (start : Nat) (file : FileWithByteCount)
  | masterData (schema name : String) (oid : Nat) (attributeString : String) (rowsCopied : Int)
deriving DecidableEq, Repr

/-- Run one append call. -/
def TOC.applyOp (toc : TOC) : AppendOp → Option TOC
  | .metadata p schema name objectType referenceObject start file =>
    toc.appendToSection p schema name objectType referenceObject start file
  | .masterData schema name oid attributeString rowsCopied =>
    some (toc.AddMasterDataEntry schema name oid attributeString rowsCopied)

/-- Run a sequence of append calls, first to last. -/
def TOC.applyOps : List AppendOp → TOC → Option TOC
  | [], toc => some toc
  | op :: rest, toc =>
    match toc.applyOp op with
    | none => none
    | some toc1 => TOC.applyOps rest toc1

/-- The byte ranges of a section are contiguous: every entry after the first starts where the
entry before it ends. -/
def contiguous : List MetadataEntry → Bool
  | a :: b :: rest => (b.StartByte == a.EndByte) && contiguous (b :: rest)
  | _ => true

/-- The byte ranges of a section are contiguous, as a proposition. -/
abbrev Contiguous (entries : List MetadataEntry) : Prop :=
  contiguous entries = true

/-- The byte ranges of a section are in order and do not overlap: no entry starts after its
end, and every entry ends no later than each entry after it starts. -/
def nonOverlapping : List MetadataEntry → Bool
  | [] => true
  | a :: rest =>
    decide (a.StartByte ≤ a.EndByte) && rest.all (fun b => decide (a.EndByte ≤ b.StartByte))
      && nonOverlapping rest

/-- The calls of a sequence follow the write position of the section files. A metadata append
qualifies when its start is no more than the byte count of the file handed to it and, if an
earlier call of the sequence appended to the same section, equal to the byte count of the file
handed to the latest such call; `last` holds that byte count per section, `none` before the
first call to the section. Calls of `AddMasterDataEntry` always qualify. The condition reads
the arguments of the calls only, never the TOC. -/
def followWritePosition (last : EntriesField → Option Nat) : List AppendOp → Bool
  | [] => true
  | .masterData _ _ _ _ _ :: rest => followWritePosition last rest
  | .metadata p _ _ _ _ start file :: rest =>
    (match last p with
      | none => true
      | some count => start == count)
    && decide (start ≤ file.ByteCount)
    && followWritePosition (fun q => if q = p then some file.ByteCount else last q) rest

/-- The frame of a metadata append: `toc1` is `toc` with `entry` added at the end of the list
behind `p`; the other three lists, the data entries and the entry map are those of `toc`. -/
def TOC.AppendedTo (toc toc1 : TOC) (p : EntriesField) (entry : MetadataEntry) : Prop :=
  toc1.load p = toc.load p ++ [entry] ∧
  (∀ q, q ≠ p → toc1.load q = toc.load q) ∧
  toc1.DataEntries = toc.DataEntries ∧
  toc1.metadataEntryMap = toc.metadataEntryMap

/-! ## Transform stage: database redirection

`SubstituteRedirectDatabaseInStatements` builds a regular expression and a replacement
template and hands both to package `regexp` of the Go library. The part of that package the
function reaches is embedded here:

* `QuoteMeta`, as written in the library;
* `MustCompile`, for patterns that are literal text (plain characters and backslash-escaped
  punctuation) followed by one capture group of literal alternatives, which is the shape of
  every pattern the function builds;
* `ReplaceAllString` with leftmost-first matching, non-overlapping matches taken left to
  right, and the template expansion of `Regexp.Expand` (`$1`, `$name`, `${name}`, `$$`).

Old and new database name are Lean `String`s (valid UTF-8; `MustCompile` rejects a pattern
that is not). Patterns and templates are rune lists, statement texts are byte lists. The text
is read rune by rune with `utf8.DecodeRuneInString`, as the matching engines of the package
read it: a byte that starts no UTF-8 encoding is read as the rune U+FFFD of width 1, so a
U+FFFD of the pattern matches such a byte as well as its own three bytes; any other rune of
the pattern matches exactly its UTF-8 bytes. What a match or a group contributes to the
replacement is the bytes of the text it covers. Every pattern starts with the letter `D`, so a
match starts at a rune boundary of the text. -/

/-- UTF-8 bytes of a rune list. -/
def utf8 (s : List Char) : List UInt8 :=
  s.flatMap String.utf8EncodeChar

/-- The metacharacters of `regexp.QuoteMeta`: the bytes of the Go raw string that holds
backslash, dot, plus, star, question mark, both parentheses, bar, both brackets, both braces,
caret and dollar. -/
def specialBytes : List Char :=
  ['\\', '.', '+', '*', '?', '(', ')', '|', '[', ']', '\x7b', '\x7d', '^', '$']

/-- Test `special(b)` of package regexp. -/
def special (c : Char) : Bool :=
  decide (c ∈ specialBytes)

/-- Quoting `regexp.QuoteMeta`: a backslash is put before every metacharacter. -/
def QuoteMeta (s : List Char) : List Char :=
  s.flatMap (fun c => if special c then ['\\', c] else [c])

/-- Lexical items of the pattern fragment: a literal rune, the opening parenthesis of a
capture group, the bar between alternatives, the closing parenthesis. -/
inductive Token where
  | lit (c : Char)
  | openGroup
  | bar
  | closeGroup
deriving DecidableEq, Repr

/-- Lexer of the pattern fragment; the flag says that the rune before was a backslash. A
backslash escapes an ASCII rune that is not a letter or digit, which then stands for itself
(`parseEscape` of regexp/syntax); an unescaped parenthesis or bar is structure; any other
unescaped metacharacter, and any other escape, is outside the fragment (`none`), as is a
trailing backslash, which Go rejects. -/
def tokenize : Bool → List Char → Option (List Token)
  | false, [] => some []
  | true, [] => none
  | true, c :: rest =>
    if c.toNat < 128 && !c.isAlphanum then
      (tokenize false rest).map (fun ts => Token.lit c :: ts)
    else none
  | false, c :: rest =>
    if c = '\\' then tokenize true rest
    else if c = '(' then (tokenize false rest).map (fun ts => Token.openGroup :: ts)
    else if c = '|' then (tokenize false rest).map (fun ts => Token.bar :: ts)
    else if c = ')' then (tokenize false rest).map (fun ts => Token.closeGroup :: ts)
    else if special c then none
    else (tokenize false rest).map (fun ts => Token.lit c :: ts)

/-- A compiled pattern of the fragment: literal text, then capture group 1, which is the first
of the alternatives (in written order) that matches. -/
structure Pattern where
  literal : List Char
  alternatives : List (List Char)
deriving DecidableEq, Repr

/-- The literal text at the head of a token list, and the tokens after it. -/
def parseLiteral : List Token → List Char × List Token
  | Token.lit c :: rest => ((parseLiteral rest).1.cons c, (parseLiteral rest).2)
  | rest => ([], rest)

/-- The alternatives of a capture group, read from the token after the opening parenthesis up
to the closing one; also returns the tokens after the group. -/
def parseGroup (current : List Char) (done : List (List Char)) :
    List Token → Option (List (List Char) × List Token)
  | [] => none
  | Token.lit c :: rest => parseGroup (current ++ [c]) done rest
  | Token.bar :: rest => parseGroup [] (done ++ [current]) rest
  | Token.closeGroup :: rest => some (done ++ [current], rest)
  | Token.openGroup :: _ => none

/-- Compilation `regexp.MustCompile` on the fragment; `none` stands for a pattern outside it
(among them the patterns on which Go panics). -/
def MustCompile (pattern : List Char) : Option Pattern :=
  match tokenize false pattern with
  | none => none
  | some tokens =>
    match parseLiteral tokens with
    | (literal, Token.openGroup :: rest) =>
      match parseGroup [] [] rest with
      | some (alternatives, []) => some { literal := literal, alternatives := alternatives }
      | _ => none
    | _ => none

/-- The rune `utf8.RuneError`, U+FFFD. -/
def RuneError : Nat := 0xFFFD

/-- Decoding of the first rune of a text (`utf8.DecodeRuneInString`): the code point and the
width in bytes. The first byte fixes the size of the encoding and the range of the second
byte (the tables `first` and `acceptRanges` of package utf8); bytes that are no encoding give
`RuneError` with width 1, the empty text gives `RuneError` with width 0. -/
def DecodeRuneInString : List UInt8 → Nat × Nat
  | [] => (RuneError, 0)
  | s0 :: rest =>
    let b0 := s0.toNat
    if b0 < 0x80 then (b0, 1)
    else if b0 < 0xC2 || 0xF4 < b0 then (RuneError, 1)
    else
      let sz := if b0 < 0xE0 then 2 else if b0 < 0xF0 then 3 else 4
      let lo := if b0 == 0xE0 then 0xA0 else if b0 == 0xF0 then 0x90 else 0x80
      let hi := if b0 == 0xED then 0x9F else if b0 == 0xF4 then 0x8F else 0xBF
      if rest.length + 1 < sz then (RuneError, 1)
      else
        match rest with
        | [] => (RuneError, 1)
        | s1 :: rest1 =>
          let b1 := s1.toNat
          if b1 < lo || hi < b1 then (RuneError, 1)
          else if sz ≤ 2 then (b0 % 32 * 64 + b1 % 64, 2)
          else
            match rest1 with
            | [] => (RuneError, 1)
            | s2 :: rest2 =>
              let b2 := s2.toNat
              if b2 < 0x80 || 0xBF < b2 then (RuneError, 1)
              else if sz ≤ 3 then (b0 % 16 * 4096 + b1 % 64 * 64 + b2 % 64, 3)
              else
                match rest2 with
                | [] => (RuneError, 1)
                | s3 :: _ =>
                  let b3 := s3.toNat
                  if b3 < 0x80 || 0xBF < b3 then (RuneError, 1)
                  else (b0 % 8 * 262144 + b1 % 64 * 4096 + b2 % 64 * 64 + b3 % 64, 4)

/-- Match of literal runes at the head of a text, the text read rune by rune: the number of
bytes of the text that the runes cover, if they stand there. At the end of the text there is
no rune to read. -/
def matchRunes : List Char → List UInt8 → Option Nat
  | [], _ => some 0
  | c :: rest, text =>
    let decoded := DecodeRuneInString text
    if decoded.2 != 0 && decoded.1 == c.toNat then
      (matchRunes rest (text.drop decoded.2)).map (fun covered => decoded.2 + covered)
    else none

/-- First alternative, in written order, that stands at the head of the text: the number of
bytes it covers. -/
def firstAlternative (text : List UInt8) : List (List Char) → Option Nat
  | [] => none
  | a :: rest =>
    match matchRunes a text with
    | some covered => some covered
    | none => firstAlternative text rest

/-- Match of a pattern at the head of a text: the bytes of the whole match and the bytes of
capture group 1, if the pattern matches there. -/
def matchAt (pattern : Pattern) (text : List UInt8) : Option (List UInt8 × List UInt8) :=
  match matchRunes pattern.literal text with
  | none => none
  | some covered =>
    match firstAlternative (text.drop covered) pattern.alternatives with
    | none => none
    | some group => some (text.take (covered + group), (text.drop covered).take group)

/-- Runes of a group name in a template: letters, digits and the underscore. For ASCII the
test is written out; for other runes the tables of package unicode (`unicode.IsLetter`,
`unicode.IsDigit`) are the parameter `unicodeLetterOrDigit`. -/
def isWordRune (unicodeLetterOrDigit : Char → Bool) (c : Char) : Bool :=
  if c.toNat < 128 then c.isAlphanum || c == '_' else unicodeLetterOrDigit c

/-- Number of a group reference (`extract` of package regexp, second half): the decimal value
of the name, or `none` (Go: -1) when a rune is not an ASCII digit or the value passes 10^8. -/
def parseNumber (num : Nat) : List Char → Option Nat
  | [] => some num
  | c :: rest =>
    if c.toNat < 48 || 57 < c.toNat || num ≥ 100000000 then none
    else parseNumber (num * 10 + (c.toNat - 48)) rest

/-- Group reference at the head of a template, after the dollar sign (`extract` of package
regexp): the name, its number if it is one without leading zero, and how many runes the
reference takes; `none` when there is no well-formed reference. -/
def extract (unicodeLetterOrDigit : Char → Bool) (str : List Char) :
    Option (List Char × Option Nat × Nat) :=
  match str with
  | [] => none
  | c :: tail =>
    let brace := c == '\x7b'
    let str1 := if brace then tail else str
    let name := str1.takeWhile (isWordRune unicodeLetterOrDigit)
    let i := name.length
    if i == 0 then none
    else if brace && (str1.drop i).head? != some '\x7d' then none
    else
      let num := if name.head? == some '0' && name.length > 1 then none else parseNumber 0 name
      some (name, num, if brace then i + 2 else i)

/-- Template expansion (`Regexp.expand`) for a pattern with the one unnamed group 1: `$$` is a
dollar sign, reference 0 is the text of the whole match, reference 1 is the text of group 1,
any other well-formed reference is empty, and a dollar sign without well-formed reference is
kept; the other runes of the template are written as they are. The counter drops the runes of
a reference that has been read. -/
def expand (unicodeLetterOrDigit : Char → Bool) (wholeMatch group1 : List UInt8) :
    Nat → List Char → List UInt8
  | _, [] => []
  | skip + 1, _ :: rest => expand unicodeLetterOrDigit wholeMatch group1 skip rest
  | 0, c :: rest =>
    if c != '$' then utf8 [c] ++ expand unicodeLetterOrDigit wholeMatch group1 0 rest
    else if rest.head? == some '$' then
      utf8 ['$'] ++ expand unicodeLetterOrDigit wholeMatch group1 1 rest
    else
      match extract unicodeLetterOrDigit rest with
      | none => utf8 ['$'] ++ expand unicodeLetterOrDigit wholeMatch group1 0 rest
      | some (_, num, used) =>
        (match num with
          | some 0 => wholeMatch
          | some 1 => group1
          | _ => []) ++ expand unicodeLetterOrDigit wholeMatch group1 used rest

/-- Replacement `Regexp.ReplaceAllString`: the text is scanned left to right; where the
pattern matches, the expanded template is written and the scan goes on after the match
(the counter drops the bytes of the match); other bytes are copied. -/
def ReplaceAllString (unicodeLetterOrDigit : Char → Bool) (pattern : Pattern)
    (repl : List Char) : Nat → List UInt8 → List UInt8
  | _, [] => []
  | skip + 1, _ :: rest => ReplaceAllString unicodeLetterOrDigit pattern repl skip rest
  | 0, b :: rest =>
    match matchAt pattern (b :: rest) with
    | some (wholeMatch, group1) =>
      expand unicodeLetterOrDigit wholeMatch group1 0 repl
        ++ ReplaceAllString unicodeLetterOrDigit pattern repl (wholeMatch.length - 1) rest
    | none => b :: ReplaceAllString unicodeLetterOrDigit pattern repl 0 rest

/-- The map `shouldReplace` of toc.go 183, as the test of its keys. -/
def shouldReplace (objectType : String) : Bool :=
  objectType == "DATABASE GUC" || objectType == "DATABASE" || objectType == "DATABASE METADATA"

/-- Database redirection (`SubstituteRedirectDatabaseInStatements`, toc.go 182-193). -/
def SubstituteRedirectDatabaseInStatements (unicodeLetterOrDigit : Char → Bool)
    (statements : List StatementWithType) (oldName newName : String) :
    Option (List StatementWithType) :=
  let originalDatabase := QuoteMeta oldName.toList
  let newDatabase := newName.toList
  match MustCompile ("DATABASE ".toList ++ originalDatabase
      ++ "(;| OWNER| SET| TO| FROM| IS| TEMPLATE)".toList) with
  | none => none
  | some pattern =>
    let repl := "DATABASE ".toList ++ newDatabase ++ "$1".toList
    some (statements.map (fun st =>
      if shouldReplace st.ObjectType then
        { st with Statement := ReplaceAllString unicodeLetterOrDigit pattern repl 0 st.Statement }
      else st))

/-- The trailing alternatives of the pattern of toc.go 186. -/
def databaseAlternatives : List (List Char) :=
  [";".toList, " OWNER".toList, " SET".toList, " TO".toList, " FROM".toList, " IS".toList,
   " TEMPLATE".toList]

/-- A statement of the global section with the given object type and ASCII text. -/
def databaseStatement (objectType : String) (text : String) : StatementWithType :=
  { Schema := "", Name := "prod", ObjectType := objectType, ReferenceObject := "",
    Statement := utf8 text.toList }

/-- Removal of the role of the restoring session (`RemoveActiveRole`, toc.go 195-204). -/
def RemoveActiveRole (activeUser : String) (statements : List StatementWithType) :
    List StatementWithType :=
  statements.foldl (fun newStatements statement =>
    if statement.ObjectType == "ROLE" && statement.Name == activeUser then newStatements
    else newStatements ++ [statement]) []

/-! ## Data entries of a restore -/

/-- Selection of the data entries of a restore (`TOC.GetDataEntriesMatching`,
toc.go 151-180). A filter set that was not built is the nil pointer (`none`); a call of
`MatchesFilter` on it would panic. -/
def TOC.GetDataEntriesMatching (MakeFQN : String → String → String) (toc : TOC)
    (includeSchemas excludeSchemas includeTables excludeTables : List String) :
    Option (List MasterDataEntry) :=
  let restoreAllSchemas := includeSchemas.length == 0 && excludeSchemas.length == 0
  let schemaSet : Option FilterSet :=
    if !restoreAllSchemas then
      if includeSchemas.length > 0 then some (NewIncludeSet includeSchemas)
      else some (NewExcludeSet excludeSchemas)
    else none
  let restoreAllTables := includeTables.length == 0 && excludeTables.length == 0
  let tableSet : Option FilterSet :=
    if !restoreAllTables then
      if includeTables.length > 0 then some (NewIncludeSet includeTables)
      else some (NewExcludeSet excludeTables)
    else none
  toc.DataEntries.foldlM (fun matchingEntries entry =>
    let validSchema : Option Bool :=
      if restoreAllSchemas then some true
      else schemaSet.map (fun set => set.MatchesFilter entry.Schema)
    let tableFQN := MakeFQN entry.Schema entry.Name
    let validTable : Option Bool :=
      if restoreAllTables then some true
      else tableSet.map (fun set => set.MatchesFilter tableFQN)
    match validSchema, validTable with
    | some true, some true => some (matchingEntries ++ [entry])
    | some _, some _ => some matchingEntries
    | _, _ => none) []

/-- The filter of one dimension as the specification words it: the include set if the include
list is non-empty, otherwise the exclude set of the exclude list. -/
def filterOf (includeList excludeList : List String) : FilterSet :=
  if includeList.length > 0 then NewIncludeSet includeList else NewExcludeSet excludeList

/-! ## Data backup (`backup/data.go`)

The types `Relation`, `TableDefinition` and `ColumnDefinition` of package backup, the file-path
functions of `globalFPInfo`, the command-line flag `singleDataFile`,
`utils.GetCompressionParameters` and `Relation.ToString` are declared outside data.go. The
types carry the fields data.go reads; the others are the fields of `BackupEnv`. Go maps that
are only read are association lists, read with `List.lookup`. -/

/-- Modelled from the spec: a column definition, of which data.go reads the name. -/
structure ColumnDefinition where
  Name : String
deriving DecidableEq, Repr

/-- Modelled from the spec: a table definition, of which data.go reads the external flag and
the column definitions. -/
structure TableDefinition where
  IsExternal : Bool
  ColumnDefs : List ColumnDefinition
deriving DecidableEq, Repr

/-- Modelled from the spec: a relation of the backup set, of which data.go reads schema, name
and oid (`uint32`). -/
structure Relation where
  Schema : String
  Name : String
  Oid : Nat
deriving DecidableEq, Repr

/-- Read `tableDefs[oid]` of a Go map: the zero value for a key that is not in the map. -/
def tableDefAt (tableDefs : List (Nat × TableDefinition)) (oid : Nat) : TableDefinition :=
  (tableDefs.lookup oid).getD { IsExternal := false, ColumnDefs := [] }

/-- Column list of a table (`ConstructTableAttributesList`, data.go 22-31). -/
def ConstructTableAttributesList (columnDefs : List ColumnDefinition) : String :=
  let names := columnDefs.foldl (fun names col => names ++ [col.Name]) []
  if names.length > 0 then "(" ++ String.intercalate "," names ++ ")" else ""

/-- Inner loop of `AddTableDataEntriesToTOC` (data.go 36-42): the value of the first map, in
connection order, that has the oid as key; the zero value of `int64` if there is none. -/
def firstRowsCopied (oid : Nat) : List (List (Nat × Int)) → Int
  | [] => 0
  | rowsCopiedMap :: rest =>
    match rowsCopiedMap.lookup oid with
    | some val => val
    | none => firstRowsCopied oid rest

/-- Data entries of the tables backed up (`AddTableDataEntriesToTOC`, data.go 33-47); the
global `globalTOC` is passed in and returned. -/
def AddTableDataEntriesToTOC (globalTOC : TOC) (tables : List Relation)
    (tableDefs : List (Nat × TableDefinition)) (rowsCopiedMaps : List (List (Nat × Int))) :
    TOC :=
  tables.foldl (fun toc table =>
    if !(tableDefAt tableDefs table.Oid).IsExternal then
      let rowsCopied := firstRowsCopied table.Oid rowsCopiedMaps
      let attributes := ConstructTableAttributesList (tableDefAt tableDefs table.Oid).ColumnDefs
      toc.AddMasterDataEntry table.Schema table.Name table.Oid attributes rowsCopied
    else toc) globalTOC

/-- The first non-zero value stored for an oid among the maps in connection order, and 0 if
there is none: the merge rule as the specification words it. -/
def firstNonZeroRowsCopied (oid : Nat) : List (List (Nat × Int)) → Int
  | [] => 0
  | rowsCopiedMap :: rest =>
    match rowsCopiedMap.lookup oid with
    | some val => if val ≠ 0 then val else firstNonZeroRowsCopied oid rest
    | none => firstNonZeroRowsCopied oid rest

/-- The part of the global `backupReport` that data.go reads and writes. -/
structure BackupReport where
  MetadataOnly : Bool
deriving DecidableEq, Repr

/-- Switch to a metadata-only backup (`CheckTablesContainData`, data.go 170-180): returns the
report and the warnings logged. The loop returns at the first table that is not external. -/
def CheckTablesContainData (backupReport : BackupReport) (tables : List Relation)
    (tableDefs : List (Nat × TableDefinition)) : BackupReport × List String :=
  if !backupReport.MetadataOnly then
    if tables.any (fun table => !(tableDefAt tableDefs table.Oid).IsExternal) then
      (backupReport, [])
    else
      ({ backupReport with MetadataOnly := true },
        ["No tables in backup set contain data. Performing metadata-only backup instead."])
  else (backupReport, [])

/-- What data.go takes from outside when it builds a COPY command: the flag `singleDataFile`,
the two results of `utils.GetCompressionParameters` it uses, the two paths of `globalFPInfo`
and `Relation.ToString`. -/
structure BackupEnv where
  singleDataFile : Bool
  usingCompression : Bool
  CompressCommand : String
  SegmentPipePathForCopyCommand : String
  TableBackupFilePathForCopyCommand : Nat → String
  ToString : Relation → String

/-- The package variable `tableDelim` (data.go 18-20). -/
def tableDelim : String := ","

/-- The text of the COPY command that `CopyTableOut` builds (data.go 57-73, the variable
`query`). -/
def CopyTableOutQuery (env : BackupEnv) (table : Relation) (backupFile : String) : String :=
  let copyCommand :=
    if env.singleDataFile then
      let checkPipeExistsCommand :=
        "(test -p \x22" ++ backupFile ++ "\x22 || (echo \x22Pipe not found\x22>&2; exit 1))"
      "PROGRAM '" ++ checkPipeExistsCommand ++ " && cat - > " ++ backupFile ++ "'"
    else if env.usingCompression then
      "PROGRAM '" ++ env.CompressCommand ++ " > " ++ backupFile ++ "'"
    else "'" ++ backupFile ++ "'"
  "COPY " ++ env.ToString table ++ " TO " ++ copyCommand ++ " WITH CSV DELIMITER '"
    ++ tableDelim ++ "' ON SEGMENT IGNORE EXTERNAL PARTITIONS;"

/-- Execution of the COPY command (`CopyTableOut`, data.go 56-85): `Exec` is the connection
pool, which answers a command on a connection with the number of rows or with an error
(`none`), on which the run ends in `gplog.Fatal`. -/
def CopyTableOut (env : BackupEnv) (Exec : String → Nat → Option Int) (table : Relation)
    (backupFile : String) (connNum : Nat) : Option Int :=
  Exec (CopyTableOutQuery env table backupFile) connNum

/-- The file that `BackupSingleTableData` hands to `CopyTableOut` (data.go 100-105, the
variable `backupFile`): the pipe of the oid in single-file mode, the file of the table
otherwise. -/
def backupFileOf (env : BackupEnv) (table : Relation) : String :=
  if env.singleDataFile then
    env.SegmentPipePathForCopyCommand ++ "_" ++ toString table.Oid
  else env.TableBackupFilePathForCopyCommand table.Oid

/-! ## Segment TOC and the backup helper -/

/-- Byte range of one oid in the data file of a segment (`SegmentDataEntry`, toc.go 44-47). -/
structure SegmentDataEntry where
  StartByte : Nat
  EndByte : Nat
deriving DecidableEq, Repr

/-- The table of contents of a segment (`SegmentTOC`, toc.go 23-25). The Go map from oid to
entry is an association list with one binding per key, kept in the order the keys came in;
`none` is the nil map. -/
structure SegmentTOC where
  DataEntries : Option (List (Nat × SegmentDataEntry))
deriving DecidableEq, Repr

/-- Assignment `toc.DataEntries[oid] = SegmentDataEntry{startByte, endByte}`
(`SegmentTOC.AddSegmentDataEntry`, toc.go 238-241): a binding of the oid that is there is
replaced; the assignment to an entry of the nil map panics. -/
def SegmentTOC.AddSegmentDataEntry (toc : SegmentTOC) (oid startByte endByte : Nat) :
    Option SegmentTOC :=
  match toc.DataEntries with
  | none => none
  | some entries =>
    some { DataEntries := some (entries.filter (fun binding => binding.1 != oid)
      ++ [(oid, { StartByte := startByte, EndByte := endByte })]) }

/-- Read of the segment TOC at an oid. -/
def SegmentTOC.entryOf (toc : SegmentTOC) (oid : Nat) : Option SegmentDataEntry :=
  match toc.DataEntries with
  | none => none
  | some entries => entries.lookup oid

/-- Modelled from the spec: the state of the helper in backup mode (spec 4.6), that is the
segment TOC, the uncompressed stream written to the data file so far, and the count of its
bytes. The helper itself (gpbackup_helper) is a program of its own; its test is
integration/helper_test.go. -/
structure HelperState where
  toc : SegmentTOC
  dataFile : List UInt8
  bytesWritten : Nat
deriving DecidableEq, Repr

/-- Modelled from the spec: the helper at start, with an empty segment TOC and an empty data
file. -/
def HelperState.start : HelperState :=
  { toc := { DataEntries := some [] }, dataFile := [], bytesWritten := 0 }

/-- Modelled from the spec: backup mode of the helper for one oid (spec 4.6, steps 2 and 3):
the bytes that come through the pipe of the oid are streamed into the data file, "counting
bytes written", and the range from the count before to the count after is appended to the
segment TOC under the oid. Pipes and the compression filter are not part of the state: the
offsets are those of the uncompressed stream. -/
def HelperState.backupOid (state : HelperState) (oid : Nat) (payload : List UInt8) :
    Option HelperState :=
  let startByte := state.bytesWritten
  let endByte := state.bytesWritten + payload.length
  match state.toc.AddSegmentDataEntry oid startByte endByte with
  | none => none
  | some toc => some { toc := toc, dataFile := state.dataFile ++ payload, bytesWritten := endByte }

/-- Modelled from the spec: backup mode of the helper over the oid list, "for each oid in
order". -/
def HelperState.backupAll : List (Nat × List UInt8) → HelperState → Option HelperState
  | [], state => some state
  | (oid, payload) :: rest, state =>
    match state.backupOid oid payload with
    | none => none
    | some state1 => HelperState.backupAll rest state1

/-- The payload of the helper test: the 18 bytes of `here is some data` and a newline. -/
def helperTestPayload : List UInt8 :=
  utf8 "here is some data\n".toList

/-- The loop of the two extraction functions over the entries of a section (toc.go 97-104 and
142-147), after the section lookup: the entries that pass the test are read and their
statements appended. -/
def extractStatements (included : MetadataEntry → Bool) (metadataFile : List UInt8)
    (entries : List MetadataEntry) : Option (List StatementWithType) :=
  entries.foldlM (fun statements entry =>
    if included entry then
      match makeBytes (uint64Sub entry.EndByte entry.StartByte) with
      | none => none
      | some len =>
        match ReadAt metadataFile len (toInt64 entry.StartByte) with
        | none => none
        | some contents =>
          some (statements ++ [{ Schema := entry.Schema, Name := entry.Name,
                                 ObjectType := entry.ObjectType,
                                 ReferenceObject := entry.ReferenceObject,
                                 Statement := contents }])
    else some statements) []

/-! ## The worker pool of the data backup

`BackupDataForAllTables` starts one goroutine per connection; all of them receive from the one
channel `tasks`, into which the calling goroutine sends the tables before it closes the channel
and waits for the workers. The interleavings of these goroutines are the schedules of a
transition system: a state holds what the goroutines share (the tables not yet sent, the
channel, the flag `wasTerminated`, the counters, the row-count maps) and where each worker
stands in its loop; an event is one move of the caller, one move of one worker, or the
interrupt that sets the flag. The channel has room for all tables, so a send never blocks; a
table received from the channel is no longer in it (the channel semantics of Go). The body
`BackupSingleTableData` of a loop round is one move: it shares with the other workers only the
counter, which it changes under the mutex. A failed COPY ends the process in `gplog.Fatal`;
there is then no further move and no result. -/

/-- The two counters of `BackupProgressCounters` (data.go 49-54); the mutex and the progress
bar are not part of the state. -/
structure BackupProgressCounters where
  NumRegTables : Int
  TotalRegTables : Int
deriving DecidableEq, Repr

/-- Backup of one table on one connection (`BackupSingleTableData`, data.go 87-112): returns
the row-count map of the connection and the counters, `none` when the COPY fails. The map
assignment replaces a binding of the oid that is there. -/
def BackupSingleTableData (env : BackupEnv) (Exec : String → Nat → Option Int)
    (tableDef : TableDefinition) (table : Relation) (rowsCopiedMap : List (Nat × Int))
    (counters : BackupProgressCounters) (whichConn : Nat) :
    Option (List (Nat × Int) × BackupProgressCounters) :=
  if !tableDef.IsExternal then
    let counters1 : BackupProgressCounters :=
      { NumRegTables := counters.NumRegTables + 1, TotalRegTables := counters.TotalRegTables }
    let backupFile := backupFileOf env table
    match CopyTableOut env Exec table backupFile whichConn with
    | none => none
    | some rowsCopied =>
      some (rowsCopiedMap.filter (fun binding => binding.1 != table.Oid)
        ++ [(table.Oid, rowsCopied)], counters1)
  else some (rowsCopiedMap, counters)

/-- Where a worker goroutine stands (data.go 135-144): at the receive of `range tasks`; with a
table received, before the test of `wasTerminated`; with the test passed, before
`BackupSingleTableData`; returned. -/
inductive WorkerState where
  | waiting
  | received (table : Relation)
  | backingUp (table : Relation)
  | done
deriving DecidableEq, Repr

/-- One move of the run: the interrupt that sets `wasTerminated`, a move of the calling
goroutine, or a move of the worker of a connection. -/
inductive Event where
  | interrupt
  | main
  | worker (whichConn : Nat)
deriving DecidableEq, Repr

/-- What the goroutines of `BackupDataForAllTables` share, and where the workers stand. The
field `taken` is the history of the receives so far, each with the connection of the worker
and the table; no move reads it. -/
structure PoolState where
  toSend : List Relation
  tasks : List Relation
  closed : Bool
  workers : List WorkerState
  rowsCopiedMaps : List (List (Nat × Int))
  counters : BackupProgressCounters
  wasTerminated : Bool
  taken : List (Nat × Relation)
deriving DecidableEq, Repr

/-- One move of the worker of connection `whichConn` that stands at `worker` (data.go 137-143):
a receive (or the return when the channel is closed and empty; `none`, blocked, when it is
empty and open), the test of the flag with the `break`, or the backup of the table. -/
def PoolState.workerStep (env : BackupEnv) (Exec : String → Nat → Option Int)
    (tableDefs : List (Nat × TableDefinition)) (s : PoolState) (whichConn : Nat) :
    WorkerState → Option PoolState
  | .waiting =>
    match s.tasks with
    | table :: rest =>
      some { s with tasks := rest, workers := s.workers.set whichConn (.received table),
                    taken := s.taken ++ [(whichConn, table)] }
    | [] =>
      if s.closed then some { s with workers := s.workers.set whichConn .done } else none
  | .received table =>
    if s.wasTerminated then some { s with workers := s.workers.set whichConn .done }
    else some { s with workers := s.workers.set whichConn (.backingUp table) }
  | .backingUp table =>
    match s.rowsCopiedMaps[whichConn]? with
    | none => none
    | some rowsCopiedMap =>
      match BackupSingleTableData env Exec (tableDefAt tableDefs table.Oid) table rowsCopiedMap
          s.counters whichConn with
      | none => none
      | some (rowsCopiedMap1, counters1) =>
        some { s with rowsCopiedMaps := s.rowsCopiedMaps.set whichConn rowsCopiedMap1,
                      counters := counters1,
                      workers := s.workers.set whichConn .waiting }
  | .done => none

/-- One move of the run; `none` when the move is not possible in the state. The caller sends
the next table (data.go 146-148), then closes the channel (149), then waits. -/
def PoolState.step (env : BackupEnv) (Exec : String → Nat → Option Int)
    (tableDefs : List (Nat × TableDefinition)) (s : PoolState) : Event → Option PoolState
  | .interrupt => some { s with wasTerminated := true }
  | .main =>
    match s.toSend with
    | table :: rest => some { s with toSend := rest, tasks := s.tasks ++ [table] }
    | [] => if s.closed then none else some { s with closed := true }
  | .worker whichConn =>
    match s.workers[whichConn]? with
    | none => none
    | some worker => s.workerStep env Exec tableDefs whichConn worker

/-- A schedule, run move by move. -/
def PoolState.run (env : BackupEnv) (Exec : String → Nat → Option Int)
    (tableDefs : List (Nat × TableDefinition)) : List Event → PoolState → Option PoolState
  | [], s => some s
  | event :: rest, s =>
    match s.step env Exec tableDefs event with
    | none => none
    | some s1 => PoolState.run env Exec tableDefs rest s1

/-- The state after the workers are started (data.go 115-145): nothing sent, every worker at
its receive, every map made and empty. -/
def PoolState.start (NumConns : Nat) (tables : List Relation)
    (tableDefs : List (Nat × TableDefinition)) : PoolState :=
  let totalExtTables : Int :=
    (tables.filter (fun table => (tableDefAt tableDefs table.Oid).IsExternal)).length
  { toSend := tables, tasks := [], closed := false,
    workers := List.replicate NumConns .waiting,
    rowsCopiedMaps := List.replicate NumConns [],
    counters := { NumRegTables := 0, TotalRegTables := (tables.length : Int) - totalExtTables },
    wasTerminated := false, taken := [] }

/-- Data backup over the pool (`BackupDataForAllTables`, data.go 114-155) under a schedule of
its goroutines: the maps it returns when, at the end of the schedule, the channel is closed and
every worker has returned (`workerPool.Wait()` is over); `none` for a schedule that is not one
of a complete run. -/
def BackupDataForAllTables (env : BackupEnv) (Exec : String → Nat → Option Int)
    (NumConns : Nat) (tables : List Relation) (tableDefs : List (Nat × TableDefinition))
    (schedule : List Event) : Option (List (List (Nat × Int))) :=
  match PoolState.run env Exec tableDefs schedule
      (PoolState.start NumConns tables tableDefs) with
  | none => none
  | some s =>
    if s.closed && s.workers.all (fun worker => worker == .done) then some s.rowsCopiedMaps
    else none

/-- The oids that are keys of the maps, map after map. -/
def keysOf (rowsCopiedMaps : List (List (Nat × Int))) : List Nat :=
  rowsCopiedMaps.flatMap (fun rowsCopiedMap => rowsCopiedMap.map Prod.fst)

/-- The oid a worker holds: that of the table it has received and not yet backed up. -/
def WorkerState.held : WorkerState → List Nat
  | .received table => [table.Oid]
  | .backingUp table => [table.Oid]
  | _ => []

/-- The oids in the run: the keys of the maps, the oids held by workers, those in the channel
and those not yet sent. -/
def PoolState.pending (s : PoolState) : List Nat :=
  keysOf s.rowsCopiedMaps ++ s.workers.flatMap WorkerState.held
    ++ s.tasks.map (fun table => table.Oid) ++ s.toSend.map (fun table => table.Oid)

/-- Invariant of the run over a table list and `NumConns` connections: no oid is in the run
more often than in the table list; the keys of the maps are oids of tables that are not
external; as long as the flag is not set, every listed oid of a table that is not external is
in the run; the caller closes the channel only when all is sent; a worker returns, the flag
not set, only from the closed and empty channel; there are `NumConns` workers and maps. -/
def PoolState.Inv (NumConns : Nat) (tables : List Relation)
    (tableDefs : List (Nat × TableDefinition)) (s : PoolState) : Prop :=
  (∀ a, s.pending.count a ≤ (tables.map (fun table => table.Oid)).count a) ∧
  (∀ a ∈ keysOf s.rowsCopiedMaps, (tableDefAt tableDefs a).IsExternal = false) ∧
  (s.wasTerminated = false → ∀ a ∈ tables.map (fun table => table.Oid),
    (tableDefAt tableDefs a).IsExternal = false → 1 ≤ s.pending.count a) ∧
  (s.closed = true → s.toSend = []) ∧
  (s.wasTerminated = false → WorkerState.done ∈ s.workers →
    s.tasks = [] ∧ s.closed = true) ∧
  s.workers.length = NumConns ∧ s.rowsCopiedMaps.length = NumConns

/-- History invariant of the run over a table list: the tables taken, those in the channel and
those not yet sent are the listed tables, oid by oid; a key of the map of a connection is the
oid of a table taken by the worker of that connection; so is the oid a worker holds. -/
def PoolState.TakenInv (tables : List Relation) (s : PoolState) : Prop :=
  (∀ a, (s.taken.map (fun p => p.2.Oid)).count a
      + (s.tasks.map (fun table => table.Oid)).count a
      + (s.toSend.map (fun table => table.Oid)).count a
    = (tables.map (fun table => table.Oid)).count a) ∧
  (∀ j m a, s.rowsCopiedMaps[j]? = some m → a ∈ m.map Prod.fst →
    ∃ table, (j, table) ∈ s.taken ∧ table.Oid = a) ∧
  (∀ j table, s.workers[j]? = some (.received table) ∨
      s.workers[j]? = some (.backingUp table) → (j, table) ∈ s.taken)

/-- An environment for the examples: multi-file mode without compression. -/
def exampleEnv : BackupEnv :=
  { singleDataFile := false, usingCompression := false, CompressCommand := "",
    SegmentPipePathForCopyCommand := "/data/pipe",
    TableBackupFilePathForCopyCommand := fun oid => "/data/t_" ++ toString oid,
    ToString := fun table => table.Schema ++ "." ++ table.Name }

/-- A connection pool for the examples: every COPY succeeds, with ten rows and the number of
the connection. -/
def exampleExec : String → Nat → Option Int :=
  fun _ connNum => some (10 + (connNum : Int))

/-- A schedule of a complete run on two connections for three tables, the second external:
the caller sends and closes, the workers take turns, and both return. -/
def exampleSchedule : List Event :=
  [.main, .worker 0, .main, .main, .worker 1, .worker 0, .worker 1, .main, .worker 1,
   .worker 0, .worker 1, .worker 1, .worker 1, .worker 0, .worker 1]

/-! ## Statement extraction: the inclusion test -/

/-- C1: `shouldIncludeStatement` is true iff the object filter matches the object type, the
schema filter matches the schema, and the relation predicate, read as the decision chain of the
specification, holds. -/
theorem shouldIncludeStatement_iff_chain (MakeFQN : String → String → String)
    (entry : MetadataEntry) (objectSet schemaSet relationSet : FilterSet) :
    shouldIncludeStatement MakeFQN entry objectSet schemaSet relationSet = true ↔
      (objectSet.MatchesFilter entry.ObjectType = true ∧
       schemaSet.MatchesFilter entry.Schema = true ∧
       relationDecisionChain MakeFQN entry relationSet = true) := by
  unfold shouldIncludeStatement relationDecisionChain
  cases hx : relationSet.IsExclude <;>
    cases ht : (entry.ObjectType == "TABLE") <;>
    cases hv : (entry.ObjectType == "VIEW") <;>
    cases hs : (entry.ObjectType == "SEQUENCE") <;>
    cases hr : (entry.ReferenceObject == "") <;>
    simp_all [bne, and_assoc]

/-! ## Statement extraction: the loop -/

theorem two_pow_64_eq : (2 : Nat) ^ 64 = 18446744073709551616 := by norm_num

theorem two_pow_63_eq : (2 : Nat) ^ 63 = 9223372036854775808 := by norm_num

/-- Within a file shorter than `2^63` bytes the wrapped difference of a byte range is its
length and the allocation succeeds. -/
theorem makeBytes_range {s e n : Nat} (h1 : s ≤ e) (h2 : e ≤ n) (h3 : n < 2 ^ 63) :
    makeBytes (uint64Sub e s) = some (e - s) := by
  have h64 := two_pow_64_eq
  have h63 := two_pow_63_eq
  have hs : s % 2 ^ 64 = s := Nat.mod_eq_of_lt (by omega)
  have he : e % 2 ^ 64 = e := Nat.mod_eq_of_lt (by omega)
  have hsub : uint64Sub e s = e - s := by
    unfold uint64Sub
    rw [hs, he]
    have : e + 2 ^ 64 - s = (e - s) + 2 ^ 64 := by omega
    rw [this, Nat.add_mod_right]
    exact Nat.mod_eq_of_lt (by omega)
  rw [hsub]
  unfold makeBytes
  rw [if_pos (by omega)]

/-- Offsets below `2^63` convert to `int64` unchanged. -/
theorem toInt64_small {s : Nat} (h : s < 2 ^ 63) : toInt64 s = (s : Int) := by
  have h64 := two_pow_64_eq
  have h63 := two_pow_63_eq
  have hs : s % 2 ^ 64 = s := Nat.mod_eq_of_lt (by omega)
  unfold toInt64
  rw [hs, if_pos h]

/-- A read of a byte range that lies in the file returns the slice. -/
theorem ReadAt_range (file : List UInt8) {s e : Nat} (h1 : s ≤ e) (h2 : e ≤ file.length)
    (h3 : file.length < 2 ^ 63) :
    ReadAt file (e - s) (toInt64 s) = some ((file.drop s).take (e - s)) := by
  rw [toInt64_small (by omega)]
  unfold ReadAt
  rw [if_neg (by omega)]
  by_cases h0 : e - s = 0
  · rw [if_pos h0, h0]; rfl
  · rw [if_neg h0, Int.toNat_ofNat, if_pos (by omega)]

/-- The extraction loop, started from any accumulated list: when every included entry has its
byte range in the file, the loop ends without a fatal error and has appended the slices of the
included entries in order. -/
theorem foldlM_extract (inc : MetadataEntry → Bool) (file : List UInt8)
    (hfile : file.length < 2 ^ 63) (entries : List MetadataEntry) :
    ∀ (acc : List StatementWithType),
    (∀ e ∈ entries, inc e = true → e.StartByte ≤ e.EndByte ∧ e.EndByte ≤ file.length) →
    entries.foldlM (fun statements entry =>
      if inc entry then
        match makeBytes (uint64Sub entry.EndByte entry.StartByte) with
        | none => none
        | some len =>
          match ReadAt file len (toInt64 entry.StartByte) with
          | none => none
          | some contents =>
            some (statements ++ [{ Schema := entry.Schema, Name := entry.Name,
                                   ObjectType := entry.ObjectType,
                                   ReferenceObject := entry.ReferenceObject,
                                   Statement := contents }])
      else some statements) acc
      = some (acc ++ (entries.filter inc).map (sliceStatement file)) := by
  induction entries with
  | nil => intro acc _; simp
  | cons e es ih =>
    intro acc h
    have hes : ∀ x ∈ es, inc x = true → x.StartByte ≤ x.EndByte ∧ x.EndByte ≤ file.length :=
      fun x hx => h x (List.mem_cons_of_mem _ hx)
    rw [List.foldlM_cons]
    by_cases hi : inc e = true
    · obtain ⟨h1, h2⟩ := h e (List.mem_cons_self _ _) hi
      simp only [hi, if_true, makeBytes_range h1 h2 hfile, ReadAt_range file h1 h2 hfile,
        Option.bind_eq_bind, Option.some_bind]
      rw [ih _ hes]
      simp [List.filter_cons, hi, sliceStatement]
    · simp only [hi, Option.bind_eq_bind, Option.some_bind]
      rw [if_neg (by simp), Option.some_bind, ih _ hes]
      simp [List.filter_cons, hi]

/-- C2: when the section exists, the file is a regular file (shorter than `2^63` bytes) and every
included entry has `StartByte ≤ EndByte ≤` file length, `GetSQLStatementForObjectTypes` returns
one statement per included entry, in stored order, with the entry's descriptive fields and the
`EndByte - StartByte` bytes of the file from `StartByte` on as text. -/
theorem GetSQLStatementForObjectTypes_filter_slices (MakeFQN : String → String → String)
    (toc : TOC) (sectionName : String) (p : EntriesField) (metadataFile : List UInt8)
    (includeObjectTypes excludeObjectTypes includeSchemas excludeSchemas
      includeRelations excludeRelations : List String)
    (hsection : toc.metadataEntryMap.lookup sectionName = some p)
    (hfile : metadataFile.length < 2 ^ 63)
    (hrange : ∀ e ∈ toc.load p,
      shouldIncludeStatement MakeFQN e
        (constructFilterSets includeObjectTypes excludeObjectTypes includeSchemas
          excludeSchemas includeRelations excludeRelations).1
        (constructFilterSets includeObjectTypes excludeObjectTypes includeSchemas
          excludeSchemas includeRelations excludeRelations).2.1
        (constructFilterSets includeObjectTypes excludeObjectTypes includeSchemas
          excludeSchemas includeRelations excludeRelations).2.2 = true →
      e.StartByte ≤ e.EndByte ∧ e.EndByte ≤ metadataFile.length) :
    toc.GetSQLStatementForObjectTypes MakeFQN sectionName metadataFile includeObjectTypes
        excludeObjectTypes includeSchemas excludeSchemas includeRelations excludeRelations
      = some (((toc.load p).filter (fun e =>
          shouldIncludeStatement MakeFQN e
            (constructFilterSets includeObjectTypes excludeObjectTypes includeSchemas
              excludeSchemas includeRelations excludeRelations).1
            (constructFilterSets includeObjectTypes excludeObjectTypes includeSchemas
              excludeSchemas includeRelations excludeRelations).2.1
            (constructFilterSets includeObjectTypes excludeObjectTypes includeSchemas
              excludeSchemas includeRelations excludeRelations).2.2)).map
          (fun e =>
            { Schema := e.Schema, Name := e.Name, ObjectType := e.ObjectType,
              ReferenceObject := e.ReferenceObject,
              Statement := (metadataFile.drop e.StartByte).take (e.EndByte - e.StartByte) }))
      ∧ ∀ e ∈ toc.load p,
          shouldIncludeStatement MakeFQN e
            (constructFilterSets includeObjectTypes excludeObjectTypes includeSchemas
              excludeSchemas includeRelations excludeRelations).1
            (constructFilterSets includeObjectTypes excludeObjectTypes includeSchemas
              excludeSchemas includeRelations excludeRelations).2.1
            (constructFilterSets includeObjectTypes excludeObjectTypes includeSchemas
              excludeSchemas includeRelations excludeRelations).2.2 = true →
          ((metadataFile.drop e.StartByte).take (e.EndByte - e.StartByte)).length
            = e.EndByte - e.StartByte := by
  constructor
  · unfold TOC.GetSQLStatementForObjectTypes
    rw [hsection]
    have h := foldlM_extract (fun e =>
          shouldIncludeStatement MakeFQN e
            (constructFilterSets includeObjectTypes excludeObjectTypes includeSchemas
              excludeSchemas includeRelations excludeRelations).1
            (constructFilterSets includeObjectTypes excludeObjectTypes includeSchemas
              excludeSchemas includeRelations excludeRelations).2.1
            (constructFilterSets includeObjectTypes excludeObjectTypes includeSchemas
              excludeSchemas includeRelations excludeRelations).2.2)
      metadataFile hfile (toc.load p) [] hrange
    rw [List.nil_append] at h
    exact h
  · intro e he hinc
    obtain ⟨h1, h2⟩ := hrange e he hinc
    rw [List.length_take, List.length_drop]
    omega

/-- C2, at a concrete section: two entries over a five-byte file, the second filtered out by the
schema filter. -/
theorem GetSQLStatementForObjectTypes_filter_slices_witness :
    (({ TOC.empty with PredataEntries :=
          [{ Schema := "s", Name := "t", ObjectType := "TABLE", ReferenceObject := "",
             StartByte := 0, EndByte := 3 },
           { Schema := "x", Name := "f", ObjectType := "FUNCTION", ReferenceObject := "",
             StartByte := 3, EndByte := 9 }] } : TOC).GetSQLStatementForObjectTypes
        (fun schema name => schema ++ "." ++ name) "predata" [65, 66, 67, 68, 69]
        [] [] ["s"] [] [] []
      = some [{ Schema := "s", Name := "t", ObjectType := "TABLE", ReferenceObject := "",
                Statement := [65, 66, 67] }]) :=
  (GetSQLStatementForObjectTypes_filter_slices (fun schema name => schema ++ "." ++ name)
    { TOC.empty with PredataEntries :=
          [{ Schema := "s", Name := "t", ObjectType := "TABLE", ReferenceObject := "",
             StartByte := 0, EndByte := 3 },
           { Schema := "x", Name := "f", ObjectType := "FUNCTION", ReferenceObject := "",
             StartByte := 3, EndByte := 9 }] }
    "predata" .PredataEntries [65, 66, 67, 68, 69] [] [] ["s"] [] [] []
    (by decide) (by decide) (by decide)).1

/-! ## Byte ranges written and read back -/

/-- When every entry of the section has its byte range in the file, `GetAllSQLStatements`
returns the slice of every entry, in order. -/
theorem GetAllSQLStatements_slices (toc : TOC) (sectionName : String) (p : EntriesField)
    (metadataFile : List UInt8)
    (hsection : toc.metadataEntryMap.lookup sectionName = some p)
    (hfile : metadataFile.length < 2 ^ 63)
    (hrange : ∀ e ∈ toc.load p, e.StartByte ≤ e.EndByte ∧ e.EndByte ≤ metadataFile.length) :
    toc.GetAllSQLStatements sectionName metadataFile
      = some ((toc.load p).map (sliceStatement metadataFile)) := by
  unfold TOC.GetAllSQLStatements
  rw [hsection]
  have h := foldlM_extract (fun _ => true) metadataFile hfile (toc.load p) []
    (fun e he _ => hrange e he)
  simp only [if_true, List.nil_append, List.filter_true] at h
  exact h

/-- The entry map set up by `InitializeEntryMap` sends each section name to its own list. -/
theorem lookup_sectionName (toc : TOC) (hinit : toc.EntryMapInitialized) (p : EntriesField) :
    toc.metadataEntryMap.lookup p.sectionName = some p := by
  have h : toc.metadataEntryMap = TOC.empty.metadataEntryMap := hinit
  rw [h]
  cases p <;> decide

/-- Storing through a pointer leaves the entry map alone. -/
theorem store_metadataEntryMap (toc : TOC) (p : EntriesField) (entries : List MetadataEntry) :
    (toc.store p entries).metadataEntryMap = toc.metadataEntryMap := by
  cases p <;> rfl

/-- Loading through the pointer that was just stored through gives the stored list. -/
theorem load_store_same (toc : TOC) (p : EntriesField) (entries : List MetadataEntry) :
    (toc.store p entries).load p = entries := by
  cases p <;> rfl

/-- Storing through one pointer does not change the list behind another. -/
theorem load_store_other (toc : TOC) (p q : EntriesField) (entries : List MetadataEntry)
    (h : q ≠ p) : (toc.store p entries).load q = toc.load q := by
  cases p <;> cases q <;> first | rfl | exact absurd rfl h

/-- Storing through a pointer leaves the data entries alone. -/
theorem store_DataEntries (toc : TOC) (p : EntriesField) (entries : List MetadataEntry) :
    (toc.store p entries).DataEntries = toc.DataEntries := by
  cases p <;> rfl

/-- On an initialised TOC the append operation of a section succeeds and stores the list of the
section extended by one entry; the entry carries the given start and the byte count of the
file, and an empty reference object in the global and statistics sections. -/
theorem appendToSection_eq (toc : TOC) (hinit : toc.EntryMapInitialized) (p : EntriesField)
    (schema name objectType referenceObject : String) (start : Nat)
    (file : FileWithByteCount) :
    ∃ ref : String,
      toc.appendToSection p schema name objectType referenceObject start file
        = some (toc.store p (toc.load p ++
            [{ Schema := schema, Name := name, ObjectType := objectType,
               ReferenceObject := ref, StartByte := start, EndByte := file.ByteCount }])) := by
  have hg := lookup_sectionName toc hinit .GlobalEntries
  have hp := lookup_sectionName toc hinit .PredataEntries
  have hq := lookup_sectionName toc hinit .PostdataEntries
  have hs := lookup_sectionName toc hinit .StatisticsEntries
  simp only [EntriesField.sectionName] at hg hp hq hs
  cases p
  · exact ⟨"", by simp [TOC.appendToSection, TOC.AddGlobalEntry, TOC.AddMetadataEntry, hg]⟩
  · exact ⟨referenceObject,
      by simp [TOC.appendToSection, TOC.AddPredataEntry, TOC.AddMetadataEntry, hp]⟩
  · exact ⟨referenceObject,
      by simp [TOC.appendToSection, TOC.AddPostdataEntry, TOC.AddMetadataEntry, hq]⟩
  · exact ⟨"", by simp [TOC.appendToSection, TOC.AddStatisticsEntry, TOC.AddMetadataEntry, hs]⟩

/-- A byte range that lies in a file is not changed by appending to the file. -/
theorem slice_append (c b : List UInt8) {s e : Nat} (h1 : s ≤ e) (h2 : e ≤ c.length) :
    ((c ++ b).drop s).take (e - s) = (c.drop s).take (e - s) := by
  rw [List.drop_append_of_le_length (by omega),
    List.take_append_of_le_length (by rw [List.length_drop]; omega)]

/-- The byte range from the old end of the file to its new end is what was appended. -/
theorem slice_appended (c b : List UInt8) :
    ((c ++ b).drop c.length).take (c.length + b.length - c.length) = b := by
  rw [List.drop_left, Nat.add_sub_cancel_left, List.take_length]

/-- Invariant of the writing discipline: the entry map stays initialised, the byte count is
the length of the file, every range of the section lies in the file, and the slices of the
section, concatenated in entry order, are the file. -/
theorem writeObjects_tiles (p : EntriesField) (objs : List WrittenObject) :
    ∀ (toc : TOC) (file : FileWithByteCount),
    toc.EntryMapInitialized →
    file.ByteCount = file.contents.length →
    file.contents.length + (objs.map (fun o => o.text.length)).sum < 2 ^ 63 →
    (∀ e ∈ toc.load p, e.StartByte ≤ e.EndByte ∧ e.EndByte ≤ file.contents.length) →
    ((toc.load p).map (fun e => (sliceStatement file.contents e).Statement)).flatten
      = file.contents →
    ∃ toc1 file1, writeObjects p objs (toc, file) = some (toc1, file1) ∧
      toc1.EntryMapInitialized ∧ file1.contents.length < 2 ^ 63 ∧
      (∀ e ∈ toc1.load p, e.StartByte ≤ e.EndByte ∧ e.EndByte ≤ file1.contents.length) ∧
      ((toc1.load p).map (fun e => (sliceStatement file1.contents e).Statement)).flatten
        = file1.contents := by
  induction objs with
  | nil =>
    intro toc file hinit _ hlen hrange hcat
    exact ⟨toc, file, rfl, hinit, by simpa using hlen, hrange, hcat⟩
  | cons obj rest ih =>
    intro toc file hinit hcount hlen hrange hcat
    have h64 := two_pow_64_eq
    have h63 := two_pow_63_eq
    rw [List.map_cons, List.sum_cons] at hlen
    have hcount1 : (file.write obj.text).ByteCount = file.contents.length + obj.text.length := by
      show (file.ByteCount + obj.text.length) % 2 ^ 64 = _
      rw [hcount]
      exact Nat.mod_eq_of_lt (by omega)
    have hcontents1 : (file.write obj.text).contents = file.contents ++ obj.text := rfl
    obtain ⟨ref, happ⟩ := appendToSection_eq toc hinit p obj.schema obj.name obj.objectType
      obj.referenceObject file.ByteCount (file.write obj.text)
    rw [hcount1, hcount] at happ
    have hstep : writeObjects p (obj :: rest) (toc, file)
        = writeObjects p rest (toc.store p (toc.load p ++
            [{ Schema := obj.schema, Name := obj.name, ObjectType := obj.objectType,
               ReferenceObject := ref, StartByte := file.contents.length,
               EndByte := file.contents.length + obj.text.length }]), file.write obj.text) := by
      simp only [writeObjects]
      rw [hcount, happ]
    rw [hstep]
    apply ih
    · show (toc.store p _).metadataEntryMap = _
      rw [store_metadataEntryMap]
      exact hinit
    · rw [hcount1, hcontents1, List.length_append]
    · rw [hcontents1, List.length_append]; omega
    · intro e he
      rw [load_store_same, List.mem_append, List.mem_singleton] at he
      rw [hcontents1, List.length_append]
      rcases he with he | he
      · have := hrange e he
        omega
      · subst he
        exact ⟨Nat.le_add_right _ _, le_refl _⟩
    · rw [load_store_same, hcontents1, List.map_append, List.flatten_append]
      have hold : (toc.load p).map
            (fun e => (sliceStatement (file.contents ++ obj.text) e).Statement)
          = (toc.load p).map (fun e => (sliceStatement file.contents e).Statement) := by
        apply List.map_congr_left
        intro e he
        obtain ⟨h1, h2⟩ := hrange e he
        exact slice_append file.contents obj.text h1 h2
      rw [hold, hcat]
      simp only [List.map_cons, List.map_nil, List.flatten_cons, List.flatten_nil,
        List.append_nil, sliceStatement]
      rw [slice_appended]

/-- The section file holds the objects written to it, one after the other. -/
theorem writeObjects_contents (p : EntriesField) (objs : List WrittenObject) :
    ∀ (toc toc1 : TOC) (file file1 : FileWithByteCount),
    writeObjects p objs (toc, file) = some (toc1, file1) →
    file1.contents = file.contents ++ (objs.map (fun o => o.text)).flatten := by
  induction objs with
  | nil =>
    intro toc toc1 file file1 h
    simp only [writeObjects, Option.some.injEq, Prod.mk.injEq] at h
    simp [h.2]
  | cons obj rest ih =>
    intro toc toc1 file file1 h
    simp only [writeObjects] at h
    split at h
    · cases h
    · rename_i toc2 _
      rw [ih toc2 toc1 (file.write obj.text) file1 h]
      simp [FileWithByteCount.write]

/-- C3: a section built from the empty TOC and an empty section file by the writing discipline
(write an object, then append with the byte count before the write as start) reads back whole:
the run succeeds, the file holds the objects in the order written, `GetAllSQLStatements`
succeeds on it, and the statement texts, concatenated in entry order, are the contents of the
section file. The file is a regular file, hence shorter than `2^63` bytes. -/
theorem writeObjects_GetAllSQLStatements_concat (p : EntriesField) (objs : List WrittenObject)
    (hsize : (objs.map (fun o => o.text.length)).sum < 2 ^ 63) :
    ∃ toc file statements,
      writeObjects p objs (TOC.empty, FileWithByteCount.empty) = some (toc, file) ∧
      file.contents = (objs.map (fun o => o.text)).flatten ∧
      toc.GetAllSQLStatements p.sectionName file.contents = some statements ∧
      (statements.map (fun st => st.Statement)).flatten = file.contents := by
  obtain ⟨toc, file, hrun, hinit, hlen, hrange, hcat⟩ :=
    writeObjects_tiles p objs TOC.empty FileWithByteCount.empty rfl rfl
      (by simpa [FileWithByteCount.empty] using hsize)
      (by cases p <;> intro e he <;> cases he)
      (by cases p <;> rfl)
  refine ⟨toc, file, (toc.load p).map (sliceStatement file.contents), hrun, ?_, ?_, ?_⟩
  · simpa [FileWithByteCount.empty] using writeObjects_contents p objs _ _ _ _ hrun
  · exact GetAllSQLStatements_slices toc p.sectionName p file.contents
      (lookup_sectionName toc hinit p) hlen hrange
  · rw [List.map_map]
    exact hcat

/-- C3, at a concrete run: two objects written to the predata section. -/
theorem writeObjects_GetAllSQLStatements_concat_witness :
    ∃ toc file statements,
      writeObjects .PredataEntries
          [{ schema := "s", name := "t", objectType := "TABLE", referenceObject := "",
             text := [67, 84, 59, 10] },
           { schema := "s", name := "i", objectType := "INDEX", referenceObject := "s.t",
             text := [67, 73, 59] }]
          (TOC.empty, FileWithByteCount.empty) = some (toc, file) ∧
      file.contents = [67, 84, 59, 10, 67, 73, 59] ∧
      toc.GetAllSQLStatements EntriesField.PredataEntries.sectionName file.contents
        = some statements ∧
      (statements.map (fun st => st.Statement)).flatten = file.contents :=
  writeObjects_GetAllSQLStatements_concat .PredataEntries
    [{ schema := "s", name := "t", objectType := "TABLE", referenceObject := "",
       text := [67, 84, 59, 10] },
     { schema := "s", name := "i", objectType := "INDEX", referenceObject := "s.t",
       text := [67, 73, 59] }]
    (by decide)

/-! ## Contiguity of the byte ranges of a section -/

/-- Contiguity is the chain property of adjacent entries. -/
theorem Contiguous_iff_chain (entries : List MetadataEntry) :
    Contiguous entries ↔ List.Chain' (fun a b => b.StartByte = a.EndByte) entries := by
  induction entries with
  | nil => simp [Contiguous, contiguous]
  | cons a rest ih =>
    cases rest with
    | nil => simp [Contiguous, contiguous]
    | cons b rest =>
      rw [List.chain'_cons, ← ih]
      simp [Contiguous, contiguous]

/-- Appending an entry that starts at the end of the last entry keeps a section contiguous. -/
theorem Contiguous_append_one (entries : List MetadataEntry) (e : MetadataEntry)
    (hc : Contiguous entries) (hlast : ∀ x ∈ entries.getLast?, e.StartByte = x.EndByte) :
    Contiguous (entries ++ [e]) := by
  rw [Contiguous_iff_chain] at *
  rw [List.chain'_append]
  refine ⟨hc, List.chain'_singleton e, ?_⟩
  intro x hx y hy
  simp only [List.head?_cons, Option.mem_def, Option.some.injEq] at hy
  subst hy
  exact hlast x hx

/-- A section is in order and free of overlap exactly if no entry starts after its end and the
ends of earlier entries are no later than the starts of later ones. -/
theorem nonOverlapping_iff (entries : List MetadataEntry) :
    nonOverlapping entries = true ↔
      (∀ e ∈ entries, e.StartByte ≤ e.EndByte) ∧
        List.Pairwise (fun a b => a.EndByte ≤ b.StartByte) entries := by
  induction entries with
  | nil => simp [nonOverlapping]
  | cons a rest ih =>
    simp only [nonOverlapping, Bool.and_eq_true, decide_eq_true_eq, List.all_eq_true, ih,
      List.mem_cons, forall_eq_or_imp, List.pairwise_cons]
    tauto

/-- Invariant of a sequence of appends that follows the write position: the entry map stays
initialised, `last` is the end of the last entry of each section, every section is contiguous
and its entries are in order below `last`. -/
theorem applyOps_followWritePosition (ops : List AppendOp) :
    ∀ (toc : TOC) (last : EntriesField → Option Nat), toc.EntryMapInitialized →
      (∀ q, ((toc.load q).getLast?).map (fun e => e.EndByte) = last q) →
      (∀ q, Contiguous (toc.load q)) →
      (∀ q, ∀ e ∈ toc.load q, e.StartByte ≤ e.EndByte ∧ ∀ c, last q = some c → e.EndByte ≤ c) →
      (∀ q, List.Pairwise (fun a b => a.EndByte ≤ b.StartByte) (toc.load q)) →
      followWritePosition last ops = true →
      ∃ toc1, TOC.applyOps ops toc = some toc1 ∧
        ∀ q, Contiguous (toc1.load q) ∧ (∀ e ∈ toc1.load q, e.StartByte ≤ e.EndByte) ∧
          List.Pairwise (fun a b => a.EndByte ≤ b.StartByte) (toc1.load q) := by
  induction ops with
  | nil =>
    intro toc last _ _ hc hrange hpair _
    exact ⟨toc, rfl, fun q => ⟨hc q, fun e he => (hrange q e he).1, hpair q⟩⟩
  | cons op rest ih =>
    intro toc last hinit hlast hc hrange hpair hops
    cases op with
    | masterData schema name oid attributeString rowsCopied =>
      have hload : ∀ q, (toc.AddMasterDataEntry schema name oid attributeString rowsCopied).load q
          = toc.load q := by
        intro q; cases q <;> rfl
      obtain ⟨toc2, h2, hres⟩ :=
        ih (toc.AddMasterDataEntry schema name oid attributeString rowsCopied) last hinit
          (fun q => by rw [hload]; exact hlast q) (fun q => by rw [hload]; exact hc q)
          (fun q => by rw [hload]; exact hrange q) (fun q => by rw [hload]; exact hpair q) hops
      exact ⟨toc2, by simp only [TOC.applyOps, TOC.applyOp, h2], hres⟩
    | metadata p schema name objectType referenceObject start file =>
      simp only [followWritePosition, Bool.and_eq_true, decide_eq_true_eq] at hops
      obtain ⟨⟨hstart, hle⟩, hrest⟩ := hops
      obtain ⟨ref, happ⟩ :=
        appendToSection_eq toc hinit p schema name objectType referenceObject start file
      have hstart1 : ∀ c, last p = some c → start = c := by
        intro c hcl
        rw [hcl] at hstart
        exact beq_iff_eq.mp hstart
      obtain ⟨toc2, h2, hres⟩ :=
        ih (toc.store p (toc.load p ++
              [{ Schema := schema, Name := name, ObjectType := objectType,
                 ReferenceObject := ref, StartByte := start, EndByte := file.ByteCount }]))
          (fun q => if q = p then some file.ByteCount else last q)
          (by
            show (toc.store p _).metadataEntryMap = _
            rw [store_metadataEntryMap]
            exact hinit)
          (by
            intro q
            dsimp only
            by_cases hq : q = p
            · subst hq
              rw [load_store_same, if_pos rfl, List.getLast?_append]
              rfl
            · rw [load_store_other _ _ _ _ hq, if_neg hq]
              exact hlast q)
          (by
            intro q
            by_cases hq : q = p
            · subst hq
              rw [load_store_same]
              apply Contiguous_append_one _ _ (hc q)
              intro x hx
              apply hstart1
              rw [← hlast q, Option.mem_def.mp hx]
              rfl
            · rw [load_store_other _ _ _ _ hq]
              exact hc q)
          (by
            intro q e he
            dsimp only
            by_cases hq : q = p
            · subst hq
              rw [load_store_same, List.mem_append, List.mem_singleton] at he
              rw [if_pos rfl]
              rcases he with he | he
              · obtain ⟨h1, h2⟩ := hrange q e he
                refine ⟨h1, ?_⟩
                intro c hcount
                rw [← Option.some.inj hcount]
                cases hl : last q with
                | none =>
                  have hnil : toc.load q = [] := by
                    have := hlast q
                    rw [hl, Option.map_eq_none', List.getLast?_eq_none_iff] at this
                    exact this
                  rw [hnil] at he
                  cases he
                | some c0 =>
                  have := h2 c0 hl
                  have := hstart1 c0 hl
                  omega
              · subst he
                refine ⟨hle, ?_⟩
                intro c hcount
                rw [← Option.some.inj hcount]
            · rw [load_store_other _ _ _ _ hq] at he
              rw [if_neg hq]
              exact hrange q e he)
          (by
            intro q
            by_cases hq : q = p
            · subst hq
              rw [load_store_same, List.pairwise_append]
              refine ⟨hpair q, List.pairwise_singleton _ _, ?_⟩
              intro a ha b hb
              rw [List.mem_singleton] at hb
              subst hb
              show a.EndByte ≤ start
              cases hl : last q with
              | none =>
                have hnil : toc.load q = [] := by
                  have := hlast q
                  rw [hl, Option.map_eq_none', List.getLast?_eq_none_iff] at this
                  exact this
                rw [hnil] at ha
                cases ha
              | some c0 =>
                have := (hrange q a ha).2 c0 hl
                have := hstart1 c0 hl
                omega
            · rw [load_store_other _ _ _ _ hq]
              exact hpair q)
          hrest
      exact ⟨toc2, by simp only [TOC.applyOps, TOC.applyOp, happ, h2], hres⟩

/-- C4, as stated, fails: two calls of `AddGlobalEntry` on the empty TOC, the second with a
start (20) beyond the end of the first entry (10), leave a gap in the global section. -/
theorem applyOps_gap :
    ∃ toc, TOC.applyOps
        [.metadata .GlobalEntries "" "r1" "ROLE" "" 0 { contents := [], ByteCount := 10 },
         .metadata .GlobalEntries "" "r2" "ROLE" "" 20 { contents := [], ByteCount := 30 }]
        TOC.empty = some toc ∧
      ¬ Contiguous toc.GlobalEntries :=
  ⟨_, rfl, by decide⟩

/-- C4, amended: from the empty TOC, every sequence of the five append operations that follows
the write position of the section files (each metadata append is called with a start that is
no more than the byte count of the file handed to it and, after an earlier append to the same
section, equal to the byte count of the file handed to the latest such call) runs to the end
and leaves, in each of the four sections, every entry after the first starting where the entry
before it ends (no gaps), no entry starting after its own end, and every entry ending no later
than each later entry starts (no overlap). -/
theorem applyOps_empty_contiguous (ops : List AppendOp)
    (hops : followWritePosition (fun _ => none) ops = true) :
    ∃ toc, TOC.applyOps ops TOC.empty = some toc ∧
      ∀ p : EntriesField, Contiguous (toc.load p) ∧ nonOverlapping (toc.load p) = true ∧
        (∀ e ∈ toc.load p, e.StartByte ≤ e.EndByte) ∧
        List.Pairwise (fun a b => a.EndByte ≤ b.StartByte) (toc.load p) := by
  obtain ⟨toc, hrun, hres⟩ := applyOps_followWritePosition ops TOC.empty (fun _ => none) rfl
    (by intro q; cases q <;> rfl) (by intro q; cases q <;> rfl)
    (by intro q e he; cases q <;> cases he) (by intro q; cases q <;> exact List.Pairwise.nil)
    hops
  refine ⟨toc, hrun, fun p => ?_⟩
  obtain ⟨h1, h2, h3⟩ := hres p
  exact ⟨h1, (nonOverlapping_iff _).mpr ⟨h2, h3⟩, h2, h3⟩

/-- C4 amended, at a concrete run: two global entries, a predata entry and a data entry; the
second global append starts at byte 10, where the first ended. -/
theorem applyOps_empty_contiguous_witness :
    ∃ toc, TOC.applyOps
        [.metadata .GlobalEntries "" "r1" "ROLE" "" 0 { contents := [], ByteCount := 10 },
         .metadata .PredataEntries "s" "t" "TABLE" "" 0 { contents := [], ByteCount := 5 },
         .masterData "s" "t" 16384 "(a,b)" 7,
         .metadata .GlobalEntries "" "r2" "ROLE" "" 10 { contents := [], ByteCount := 30 }]
        TOC.empty = some toc ∧
      ∀ p : EntriesField, Contiguous (toc.load p) ∧ nonOverlapping (toc.load p) = true ∧
        (∀ e ∈ toc.load p, e.StartByte ≤ e.EndByte) ∧
        List.Pairwise (fun a b => a.EndByte ≤ b.StartByte) (toc.load p) :=
  applyOps_empty_contiguous
    [.metadata .GlobalEntries "" "r1" "ROLE" "" 0 { contents := [], ByteCount := 10 },
     .metadata .PredataEntries "s" "t" "TABLE" "" 0 { contents := [], ByteCount := 5 },
     .masterData "s" "t" 16384 "(a,b)" 7,
     .metadata .GlobalEntries "" "r2" "ROLE" "" 10 { contents := [], ByteCount := 30 }]
    (by decide)

/-! ## Effect and frame of the append operations -/

/-- Storing a list extended by one entry is an append in the sense of `AppendedTo`. -/
theorem store_AppendedTo (toc : TOC) (p : EntriesField) (entry : MetadataEntry) :
    toc.AppendedTo (toc.store p (toc.load p ++ [entry])) p entry :=
  ⟨load_store_same _ _ _, fun _ hq => load_store_other _ _ _ _ hq, store_DataEntries _ _ _,
    store_metadataEntryMap _ _ _⟩

/-- C5: on an entry-map-initialised TOC, `AddMetadataEntry` called with the name of one of the
four sections, and each of the four wrappers, succeeds and appends exactly one entry at the end
of that section, with the given schema, name, object type and reference object, `StartByte` the
given start and `EndByte` the `ByteCount` of the file; the entries stored before, the other
three sections, the data entries and the entry map are unchanged. `AddGlobalEntry` and
`AddStatisticsEntry` record the empty reference object. -/
theorem AddMetadataEntry_appends_one (toc : TOC) (hinit : toc.EntryMapInitialized)
    (schema name objectType referenceObject : String) (start : Nat)
    (file : FileWithByteCount) :
    (∀ p : EntriesField, ∃ toc1,
      toc.AddMetadataEntry schema name objectType referenceObject start file p.sectionName
        = some toc1 ∧
      toc.AppendedTo toc1 p
        { Schema := schema, Name := name, ObjectType := objectType,
          ReferenceObject := referenceObject, StartByte := start,
          EndByte := file.ByteCount }) ∧
    (∃ toc1, toc.AddGlobalEntry schema name objectType start file = some toc1 ∧
      toc.AppendedTo toc1 .GlobalEntries
        { Schema := schema, Name := name, ObjectType := objectType, ReferenceObject := "",
          StartByte := start, EndByte := file.ByteCount }) ∧
    (∃ toc1, toc.AddPredataEntry schema name objectType referenceObject start file
        = some toc1 ∧
      toc.AppendedTo toc1 .PredataEntries
        { Schema := schema, Name := name, ObjectType := objectType,
          ReferenceObject := referenceObject, StartByte := start,
          EndByte := file.ByteCount }) ∧
    (∃ toc1, toc.AddPostdataEntry schema name objectType referenceObject start file
        = some toc1 ∧
      toc.AppendedTo toc1 .PostdataEntries
        { Schema := schema, Name := name, ObjectType := objectType,
          ReferenceObject := referenceObject, StartByte := start,
          EndByte := file.ByteCount }) ∧
    (∃ toc1, toc.AddStatisticsEntry schema name objectType start file = some toc1 ∧
      toc.AppendedTo toc1 .StatisticsEntries
        { Schema := schema, Name := name, ObjectType := objectType, ReferenceObject := "",
          StartByte := start, EndByte := file.ByteCount }) := by
  have hall : ∀ (ref : String) (p : EntriesField), ∃ toc1,
      toc.AddMetadataEntry schema name objectType ref start file p.sectionName = some toc1 ∧
      toc.AppendedTo toc1 p
        { Schema := schema, Name := name, ObjectType := objectType, ReferenceObject := ref,
          StartByte := start, EndByte := file.ByteCount } := by
    intro ref p
    refine ⟨_, ?_, store_AppendedTo toc p _⟩
    unfold TOC.AddMetadataEntry
    rw [lookup_sectionName toc hinit p]
  exact ⟨hall referenceObject, hall "" .GlobalEntries, hall referenceObject .PredataEntries,
    hall referenceObject .PostdataEntries, hall "" .StatisticsEntries⟩

/-- C5, at a concrete call: an index entry appended to a predata section that holds a table. -/
theorem AddMetadataEntry_appends_one_witness :
    ∃ toc1,
      ({ TOC.empty with PredataEntries :=
          [{ Schema := "s", Name := "t", ObjectType := "TABLE", ReferenceObject := "",
             StartByte := 0, EndByte := 5 }] } : TOC).AddPredataEntry
        "s" "i" "INDEX" "s.t" 5 { contents := [], ByteCount := 9 } = some toc1 ∧
      ({ TOC.empty with PredataEntries :=
          [{ Schema := "s", Name := "t", ObjectType := "TABLE", ReferenceObject := "",
             StartByte := 0, EndByte := 5 }] } : TOC).AppendedTo toc1 .PredataEntries
        { Schema := "s", Name := "i", ObjectType := "INDEX", ReferenceObject := "s.t",
          StartByte := 5, EndByte := 9 } :=
  (AddMetadataEntry_appends_one
    { TOC.empty with PredataEntries :=
        [{ Schema := "s", Name := "t", ObjectType := "TABLE", ReferenceObject := "",
           StartByte := 0, EndByte := 5 }] }
    rfl "s" "i" "INDEX" "s.t" 5 { contents := [], ByteCount := 9 }).2.2.1

/-! ## Statement extraction without active filters -/

/-- The empty exclude set matches every key. -/
theorem NewExcludeSet_nil_matches (key : String) :
    (NewExcludeSet []).MatchesFilter key = true := by
  simp [NewExcludeSet, FilterSet.MatchesFilter]

/-- With the three empty exclude sets every entry is included. -/
theorem shouldIncludeStatement_no_filter (MakeFQN : String → String → String)
    (entry : MetadataEntry) :
    shouldIncludeStatement MakeFQN entry (NewExcludeSet []) (NewExcludeSet [])
      (NewExcludeSet []) = true := by
  unfold shouldIncludeStatement
  simp only [NewExcludeSet_nil_matches]
  cases ht : (entry.ObjectType == "TABLE") <;>
    cases hv : (entry.ObjectType == "VIEW") <;>
    cases hs : (entry.ObjectType == "SEQUENCE") <;>
    cases hr : (entry.ReferenceObject == "") <;>
    simp_all [bne, NewExcludeSet]

/-- C6: with all six include and exclude lists empty, `GetSQLStatementForObjectTypes` returns
what `GetAllSQLStatements` returns on the same section and file (the same list, or the same
failure). -/
theorem GetSQLStatementForObjectTypes_nil_eq_GetAllSQLStatements
    (MakeFQN : String → String → String) (toc : TOC) (sectionName : String)
    (metadataFile : List UInt8) :
    toc.GetSQLStatementForObjectTypes MakeFQN sectionName metadataFile [] [] [] [] [] []
      = toc.GetAllSQLStatements sectionName metadataFile := by
  unfold TOC.GetSQLStatementForObjectTypes TOC.GetAllSQLStatements
  cases toc.metadataEntryMap.lookup sectionName with
  | none => rfl
  | some p =>
    simp only [constructFilterSets, List.length_nil, gt_iff_lt, Nat.lt_irrefl, if_false,
      shouldIncludeStatement_no_filter, if_true]

/-! ## Statement extraction under a relation include filter -/

/-- C7: with `includeRelations = ["s.t"]` and the five other lists empty, over a section that
holds, in order, TABLE s.t, TABLE s.u, INDEX i with reference object "s.t" and INDEX j with
reference object "s.u", all with byte ranges in the file, `GetSQLStatementForObjectTypes`
returns the statements of TABLE s.t and INDEX i, in that order. The fully-qualified names of
the two tables are "s.t" and "s.u". -/
theorem GetSQLStatementForObjectTypes_include_relation (MakeFQN : String → String → String)
    (hst : MakeFQN "s" "t" = "s.t") (hsu : MakeFQN "s" "u" = "s.u")
    (toc : TOC) (sectionName : String) (p : EntriesField) (metadataFile : List UInt8)
    (schemaI schemaJ : String) (a1 b1 a2 b2 a3 b3 a4 b4 : Nat)
    (hsection : toc.metadataEntryMap.lookup sectionName = some p)
    (hentries : toc.load p =
      [{ Schema := "s", Name := "t", ObjectType := "TABLE", ReferenceObject := "",
         StartByte := a1, EndByte := b1 },
       { Schema := "s", Name := "u", ObjectType := "TABLE", ReferenceObject := "",
         StartByte := a2, EndByte := b2 },
       { Schema := schemaI, Name := "i", ObjectType := "INDEX", ReferenceObject := "s.t",
         StartByte := a3, EndByte := b3 },
       { Schema := schemaJ, Name := "j", ObjectType := "INDEX", ReferenceObject := "s.u",
         StartByte := a4, EndByte := b4 }])
    (hfile : metadataFile.length < 2 ^ 63)
    (h1 : a1 ≤ b1 ∧ b1 ≤ metadataFile.length) (h2 : a2 ≤ b2 ∧ b2 ≤ metadataFile.length)
    (h3 : a3 ≤ b3 ∧ b3 ≤ metadataFile.length) (h4 : a4 ≤ b4 ∧ b4 ≤ metadataFile.length) :
    toc.GetSQLStatementForObjectTypes MakeFQN sectionName metadataFile [] [] [] [] ["s.t"] []
      = some
        [{ Schema := "s", Name := "t", ObjectType := "TABLE", ReferenceObject := "",
           Statement := (metadataFile.drop a1).take (b1 - a1) },
         { Schema := schemaI, Name := "i", ObjectType := "INDEX", ReferenceObject := "s.t",
           Statement := (metadataFile.drop a3).take (b3 - a3) }] := by
  unfold TOC.GetSQLStatementForObjectTypes
  rw [hsection]
  have h := foldlM_extract (fun e =>
      shouldIncludeStatement MakeFQN e (NewExcludeSet []) (NewExcludeSet [])
        (NewIncludeSet ["s.t"]))
    metadataFile hfile (toc.load p) []
    (by
      rw [hentries]
      intro e he _
      simp only [List.mem_cons, List.mem_singleton, List.not_mem_nil, or_false] at he
      rcases he with rfl | rfl | rfl | rfl
      exacts [h1, h2, h3, h4])
  rw [List.nil_append] at h
  simp only [constructFilterSets, List.length_nil, gt_iff_lt, Nat.lt_irrefl, if_false,
    List.length_singleton, Nat.lt_one_iff, if_true]
  rw [h, hentries]
  simp [List.filter_cons, shouldIncludeStatement, NewExcludeSet, NewIncludeSet,
    FilterSet.MatchesFilter, hst, hsu, sliceStatement]

/-- C7, at a concrete file of 40 bytes in the predata section of the TOC, with the
fully-qualified name built as schema, dot, name. -/
theorem GetSQLStatementForObjectTypes_include_relation_witness :
    ({ TOC.empty with PredataEntries :=
        [{ Schema := "s", Name := "t", ObjectType := "TABLE", ReferenceObject := "",
           StartByte := 0, EndByte := 10 },
         { Schema := "s", Name := "u", ObjectType := "TABLE", ReferenceObject := "",
           StartByte := 10, EndByte := 20 },
         { Schema := "s", Name := "i", ObjectType := "INDEX", ReferenceObject := "s.t",
           StartByte := 20, EndByte := 30 },
         { Schema := "s", Name := "j", ObjectType := "INDEX", ReferenceObject := "s.u",
           StartByte := 30, EndByte := 40 }] } : TOC).GetSQLStatementForObjectTypes
      (fun schema name => schema ++ "." ++ name) "predata" (List.replicate 40 59)
      [] [] [] [] ["s.t"] []
    = some
      [{ Schema := "s", Name := "t", ObjectType := "TABLE", ReferenceObject := "",
         Statement := ((List.replicate 40 59).drop 0).take (10 - 0) },
       { Schema := "s", Name := "i", ObjectType := "INDEX", ReferenceObject := "s.t",
         Statement := ((List.replicate 40 59).drop 20).take (30 - 20) }] :=
  GetSQLStatementForObjectTypes_include_relation (fun schema name => schema ++ "." ++ name)
    (by decide) (by decide)
    { TOC.empty with PredataEntries :=
        [{ Schema := "s", Name := "t", ObjectType := "TABLE", ReferenceObject := "",
           StartByte := 0, EndByte := 10 },
         { Schema := "s", Name := "u", ObjectType := "TABLE", ReferenceObject := "",
           StartByte := 10, EndByte := 20 },
         { Schema := "s", Name := "i", ObjectType := "INDEX", ReferenceObject := "s.t",
           StartByte := 20, EndByte := 30 },
         { Schema := "s", Name := "j", ObjectType := "INDEX", ReferenceObject := "s.u",
           StartByte := 30, EndByte := 40 }] }
    "predata" .PredataEntries (List.replicate 40 59) "s" "s" 0 10 10 20 20 30 30 40
    (by decide) rfl (by decide) (by decide) (by decide) (by decide) (by decide)

/-! ## Precedence of include lists over exclude lists -/

/-- C8: in each of the three filter dimensions, a non-empty include list makes the result of
`GetSQLStatementForObjectTypes` independent of the exclude list of that dimension, and an empty
include list makes the filter the exclude set built from the exclude list. -/
theorem GetSQLStatementForObjectTypes_include_overrides_exclude
    (MakeFQN : String → String → String) (toc : TOC) (sectionName : String)
    (metadataFile : List UInt8)
    (includeObjectTypes excludeObjectTypes excludeObjectTypes2 includeSchemas excludeSchemas
      excludeSchemas2 includeRelations excludeRelations excludeRelations2 : List String) :
    (includeObjectTypes ≠ [] →
      toc.GetSQLStatementForObjectTypes MakeFQN sectionName metadataFile includeObjectTypes
          excludeObjectTypes includeSchemas excludeSchemas includeRelations excludeRelations
        = toc.GetSQLStatementForObjectTypes MakeFQN sectionName metadataFile
          includeObjectTypes excludeObjectTypes2 includeSchemas excludeSchemas
          includeRelations excludeRelations) ∧
    (includeSchemas ≠ [] →
      toc.GetSQLStatementForObjectTypes MakeFQN sectionName metadataFile includeObjectTypes
          excludeObjectTypes includeSchemas excludeSchemas includeRelations excludeRelations
        = toc.GetSQLStatementForObjectTypes MakeFQN sectionName metadataFile
          includeObjectTypes excludeObjectTypes includeSchemas excludeSchemas2
          includeRelations excludeRelations) ∧
    (includeRelations ≠ [] →
      toc.GetSQLStatementForObjectTypes MakeFQN sectionName metadataFile includeObjectTypes
          excludeObjectTypes includeSchemas excludeSchemas includeRelations excludeRelations
        = toc.GetSQLStatementForObjectTypes MakeFQN sectionName metadataFile
          includeObjectTypes excludeObjectTypes includeSchemas excludeSchemas
          includeRelations excludeRelations2) ∧
    (constructFilterSets [] excludeObjectTypes includeSchemas excludeSchemas
        includeRelations excludeRelations).1 = NewExcludeSet excludeObjectTypes ∧
    (constructFilterSets includeObjectTypes excludeObjectTypes [] excludeSchemas
        includeRelations excludeRelations).2.1 = NewExcludeSet excludeSchemas ∧
    (constructFilterSets includeObjectTypes excludeObjectTypes includeSchemas excludeSchemas
        [] excludeRelations).2.2 = NewExcludeSet excludeRelations := by
  refine ⟨?_, ?_, ?_, rfl, rfl, rfl⟩
  · intro h
    have hlen : includeObjectTypes.length > 0 := List.length_pos.mpr h
    simp only [TOC.GetSQLStatementForObjectTypes, constructFilterSets, hlen, if_true]
  · intro h
    have hlen : includeSchemas.length > 0 := List.length_pos.mpr h
    simp only [TOC.GetSQLStatementForObjectTypes, constructFilterSets, hlen, if_true]
  · intro h
    have hlen : includeRelations.length > 0 := List.length_pos.mpr h
    simp only [TOC.GetSQLStatementForObjectTypes, constructFilterSets, hlen, if_true]

/-- C8, at concrete lists: each include list is non-empty and the exclude list of its dimension
is changed from a list that names the included key to the empty list. -/
theorem GetSQLStatementForObjectTypes_include_overrides_exclude_witness :
    (TOC.empty.GetSQLStatementForObjectTypes (fun schema name => schema ++ "." ++ name)
        "predata" [59] ["TABLE"] ["TABLE"] ["s"] ["s"] ["s.t"] ["s.t"]
      = TOC.empty.GetSQLStatementForObjectTypes (fun schema name => schema ++ "." ++ name)
        "predata" [59] ["TABLE"] [] ["s"] ["s"] ["s.t"] ["s.t"]) ∧
    (TOC.empty.GetSQLStatementForObjectTypes (fun schema name => schema ++ "." ++ name)
        "predata" [59] ["TABLE"] ["TABLE"] ["s"] ["s"] ["s.t"] ["s.t"]
      = TOC.empty.GetSQLStatementForObjectTypes (fun schema name => schema ++ "." ++ name)
        "predata" [59] ["TABLE"] ["TABLE"] ["s"] [] ["s.t"] ["s.t"]) ∧
    (TOC.empty.GetSQLStatementForObjectTypes (fun schema name => schema ++ "." ++ name)
        "predata" [59] ["TABLE"] ["TABLE"] ["s"] ["s"] ["s.t"] ["s.t"]
      = TOC.empty.GetSQLStatementForObjectTypes (fun schema name => schema ++ "." ++ name)
        "predata" [59] ["TABLE"] ["TABLE"] ["s"] ["s"] ["s.t"] []) :=
  ⟨(GetSQLStatementForObjectTypes_include_overrides_exclude
      (fun schema name => schema ++ "." ++ name) TOC.empty "predata" [59]
      ["TABLE"] ["TABLE"] [] ["s"] ["s"] [] ["s.t"] ["s.t"] []).1 (by decide),
   (GetSQLStatementForObjectTypes_include_overrides_exclude
      (fun schema name => schema ++ "." ++ name) TOC.empty "predata" [59]
      ["TABLE"] ["TABLE"] [] ["s"] ["s"] [] ["s.t"] ["s.t"] []).2.1 (by decide),
   (GetSQLStatementForObjectTypes_include_overrides_exclude
      (fun schema name => schema ++ "." ++ name) TOC.empty "predata" [59]
      ["TABLE"] ["TABLE"] [] ["s"] ["s"] [] ["s.t"] ["s.t"] []).2.2.1 (by decide)⟩

/-! ## Database redirection -/

/-- Every metacharacter is an ASCII rune that is not a letter or digit, so its escape stands
for the rune itself. -/
theorem special_escapable (c : Char) (h : special c = true) :
    (c.toNat < 128 && !c.isAlphanum) = true := by
  simp only [special, specialBytes, List.mem_cons, List.mem_singleton,
    List.not_mem_nil, or_false, decide_eq_true_eq] at h
  rcases h with h | h | h | h | h | h | h | h | h | h | h | h | h | h <;> subst h <;> decide

/-- A rune that is not a metacharacter is read as a literal. -/
theorem tokenize_plain (c : Char) (h : special c = false) (rest : List Char) :
    tokenize false (c :: rest) = (tokenize false rest).map (fun ts => Token.lit c :: ts) := by
  have hs := h
  simp only [special, specialBytes, List.mem_cons, List.mem_singleton,
    List.not_mem_nil, or_false, decide_eq_false_iff_not, not_or] at h
  obtain ⟨h1, _, _, _, _, h6, h7, h8, _⟩ := h
  simp only [tokenize, h1, h6, h7, h8, hs, if_false, Bool.false_eq_true]

/-- A quoted text is read as the literal runes of the text. -/
theorem tokenize_QuoteMeta (s : List Char) (rest : List Char) :
    tokenize false (QuoteMeta s ++ rest)
      = (tokenize false rest).map (fun ts => s.map Token.lit ++ ts) := by
  induction s with
  | nil => simp [QuoteMeta]
  | cons c s ih =>
    have hq : QuoteMeta (c :: s) = (if special c then ['\\', c] else [c]) ++ QuoteMeta s := by
      simp [QuoteMeta]
    rw [hq]
    cases hc : special c
    · simp only [Bool.false_eq_true, if_false, List.cons_append, List.nil_append]
      rw [tokenize_plain c hc, ih, Option.map_map]
      rfl
    · simp only [if_true, List.cons_append, List.nil_append]
      have he := special_escapable c hc
      simp only [tokenize, if_true, he]
      rw [ih, Option.map_map]
      rfl

/-- Literal tokens before a group are the literal text of the pattern. -/
theorem parseLiteral_lits (l : List Char) (rest : List Token) :
    parseLiteral (l.map Token.lit ++ Token.openGroup :: rest)
      = (l, Token.openGroup :: rest) := by
  induction l with
  | nil => rfl
  | cons c l ih => simp [parseLiteral, ih]

/-- The pattern of toc.go 186 compiles for every old name, to the literal text `DATABASE `
followed by the old name as it is written, and the seven trailing alternatives. -/
theorem MustCompile_databasePattern (oldName : List Char) :
    MustCompile ("DATABASE ".toList ++ QuoteMeta oldName
        ++ "(;| OWNER| SET| TO| FROM| IS| TEMPLATE)".toList)
      = some { literal := "DATABASE ".toList ++ oldName,
               alternatives := databaseAlternatives } := by
  have hhead : ∀ rest, tokenize false ("DATABASE ".toList ++ rest)
      = (tokenize false rest).map (fun ts => "DATABASE ".toList.map Token.lit ++ ts) := by
    intro rest
    have : "DATABASE ".toList = ['D', 'A', 'T', 'A', 'B', 'A', 'S', 'E', ' '] := rfl
    rw [this]
    simp only [List.cons_append, List.nil_append]
    rw [tokenize_plain _ (by decide), tokenize_plain _ (by decide), tokenize_plain _ (by decide),
      tokenize_plain _ (by decide), tokenize_plain _ (by decide), tokenize_plain _ (by decide),
      tokenize_plain _ (by decide), tokenize_plain _ (by decide), tokenize_plain _ (by decide)]
    simp [Option.map_map, Function.comp_def]
  have htail : ∃ group, tokenize false "(;| OWNER| SET| TO| FROM| IS| TEMPLATE)".toList
      = some (Token.openGroup :: group) ∧
      parseGroup [] [] group = some (databaseAlternatives, []) := by
    refine ⟨_, rfl, ?_⟩
    decide
  obtain ⟨group, ht, hg⟩ := htail
  unfold MustCompile
  rw [List.append_assoc, hhead, tokenize_QuoteMeta, ht]
  simp only [Option.map_some']
  rw [← List.append_assoc, ← List.map_append, parseLiteral_lits]
  simp only [hg]

/-- The redirection never fails: it maps the statements, replacing in the text of those with a
database object type. -/
theorem SubstituteRedirectDatabaseInStatements_eq (unicodeLetterOrDigit : Char → Bool)
    (statements : List StatementWithType) (oldName newName : String) :
    SubstituteRedirectDatabaseInStatements unicodeLetterOrDigit statements oldName newName
      = some (statements.map (fun st =>
          if shouldReplace st.ObjectType then
            StatementWithType.mk st.Schema st.Name st.ObjectType st.ReferenceObject
              (ReplaceAllString unicodeLetterOrDigit
                { literal := "DATABASE ".toList ++ oldName.toList,
                  alternatives := databaseAlternatives }
                ("DATABASE ".toList ++ newName.toList ++ "$1".toList) 0 st.Statement)
          else st)) := by
  unfold SubstituteRedirectDatabaseInStatements
  simp only [MustCompile_databasePattern]

/-- C9 fails on the code for a new name that holds a dollar sign: with old name `prod` and new
name `my$db`, the statement `CREATE DATABASE prod OWNER r;` of object type DATABASE becomes
`CREATE DATABASE my OWNER r;` and not `CREATE DATABASE my$db OWNER r;`, because `$db` in the
replacement template is read as a reference to a group named `db`. -/
theorem SubstituteRedirectDatabaseInStatements_dollar_newName
    (unicodeLetterOrDigit : Char → Bool) :
    SubstituteRedirectDatabaseInStatements unicodeLetterOrDigit
        [databaseStatement "DATABASE" "CREATE DATABASE prod OWNER r;"] "prod" "my$db"
      = some [databaseStatement "DATABASE" "CREATE DATABASE my OWNER r;"] ∧
    databaseStatement "DATABASE" "CREATE DATABASE my OWNER r;"
      ≠ databaseStatement "DATABASE" "CREATE DATABASE my$db OWNER r;" :=
  ⟨rfl, by decide⟩

/-- C10, as stated, fails: with old name `prod` the statement text
`CREATE DATABASE "prod" OWNER r;` (name in double quotes) is not turned into
`CREATE DATABASE stage OWNER r;`. -/
theorem SubstituteRedirectDatabaseInStatements_quoted_name :
    SubstituteRedirectDatabaseInStatements (fun _ => false)
        [databaseStatement "DATABASE" "CREATE DATABASE \x22prod\x22 OWNER r;"] "prod" "stage"
      ≠ some [databaseStatement "DATABASE" "CREATE DATABASE stage OWNER r;"] := by
  decide

/-- C10, amended: with old name `prod` and new name `stage`, a DATABASE statement with text
`CREATE DATABASE "prod" OWNER r;` is left unchanged, as the quoted name is no occurrence of
`DATABASE prod`; the text `CREATE DATABASE prod OWNER r;` becomes
`CREATE DATABASE stage OWNER r;`, and so does the quoted text when the old name is given with
its quotes; a statement of object type TABLE is left unchanged whatever its text. -/
theorem SubstituteRedirectDatabaseInStatements_example (unicodeLetterOrDigit : Char → Bool)
    (text : List UInt8) :
    SubstituteRedirectDatabaseInStatements unicodeLetterOrDigit
        [databaseStatement "DATABASE" "CREATE DATABASE \x22prod\x22 OWNER r;"] "prod" "stage"
      = some [databaseStatement "DATABASE" "CREATE DATABASE \x22prod\x22 OWNER r;"] ∧
    SubstituteRedirectDatabaseInStatements unicodeLetterOrDigit
        [databaseStatement "DATABASE" "CREATE DATABASE prod OWNER r;"] "prod" "stage"
      = some [databaseStatement "DATABASE" "CREATE DATABASE stage OWNER r;"] ∧
    SubstituteRedirectDatabaseInStatements unicodeLetterOrDigit
        [databaseStatement "DATABASE" "CREATE DATABASE \x22prod\x22 OWNER r;"]
        "\x22prod\x22" "stage"
      = some [databaseStatement "DATABASE" "CREATE DATABASE stage OWNER r;"] ∧
    SubstituteRedirectDatabaseInStatements unicodeLetterOrDigit
        [{ Schema := "public", Name := "prod", ObjectType := "TABLE", ReferenceObject := "",
           Statement := text }] "prod" "stage"
      = some [{ Schema := "public", Name := "prod", ObjectType := "TABLE",
                ReferenceObject := "", Statement := text }] :=
  ⟨rfl, rfl, rfl, rfl⟩

/-! ## Frame of the database redirection -/

/-- C11: `SubstituteRedirectDatabaseInStatements` returns a list that corresponds to the input
position by position (hence of the same length and order): schema, name, object type and
reference object of every statement are those of the input statement, and a statement whose
object type is none of DATABASE, DATABASE GUC, DATABASE METADATA is the input statement. -/
theorem SubstituteRedirectDatabaseInStatements_frame (unicodeLetterOrDigit : Char → Bool)
    (statements : List StatementWithType) (oldName newName : String) :
    ∃ result,
      SubstituteRedirectDatabaseInStatements unicodeLetterOrDigit statements oldName newName
        = some result ∧
      result.length = statements.length ∧
      List.Forall₂ (fun input output =>
          output.Schema = input.Schema ∧ output.Name = input.Name ∧
          output.ObjectType = input.ObjectType ∧
          output.ReferenceObject = input.ReferenceObject ∧
          (input.ObjectType ≠ "DATABASE" → input.ObjectType ≠ "DATABASE GUC" →
            input.ObjectType ≠ "DATABASE METADATA" → output = input))
        statements result := by
  refine ⟨_, SubstituteRedirectDatabaseInStatements_eq _ _ _ _, by simp, ?_⟩
  rw [List.forall₂_map_right_iff]
  apply List.forall₂_same.mpr
  intro st _
  by_cases h : shouldReplace st.ObjectType = true
  · rw [if_pos h]
    refine ⟨rfl, rfl, rfl, rfl, ?_⟩
    intro h1 h2 h3
    simp [shouldReplace, h1, h2, h3] at h
  · rw [if_neg h]
    exact ⟨rfl, rfl, rfl, rfl, fun _ _ _ => rfl⟩

/-! ## Removal of the active role -/

/-- The removal loop, started from any accumulated list. -/
theorem RemoveActiveRole_foldl (activeUser : String) (statements : List StatementWithType) :
    ∀ acc : List StatementWithType,
    statements.foldl (fun newStatements statement =>
        if statement.ObjectType == "ROLE" && statement.Name == activeUser then newStatements
        else newStatements ++ [statement]) acc
      = acc ++ statements.filter
          (fun st => !(st.ObjectType == "ROLE" && st.Name == activeUser)) := by
  induction statements with
  | nil => intro acc; simp
  | cons st rest ih =>
    intro acc
    rw [List.foldl_cons, ih, List.filter_cons]
    cases h : (st.ObjectType == "ROLE" && st.Name == activeUser)
    · simp only [Bool.false_eq_true, if_false, Bool.not_false, if_true, List.append_assoc,
        List.singleton_append]
    · simp only [if_true, Bool.not_true, Bool.false_eq_true, if_false]

/-- C12: `RemoveActiveRole` returns the input list without the entries whose object type is
ROLE and whose name is the active user; all other entries are kept as they are, in their
order. -/
theorem RemoveActiveRole_eq_filter (activeUser : String)
    (statements : List StatementWithType) :
    RemoveActiveRole activeUser statements
      = statements.filter (fun st => !(st.ObjectType == "ROLE" && st.Name == activeUser)) := by
  unfold RemoveActiveRole
  rw [RemoveActiveRole_foldl, List.nil_append]

/-! ## Data entries of a restore -/

/-- The selection loop with both validity tests defined, started from any accumulated list. -/
theorem foldlM_select (validSchema validTable : MasterDataEntry → Bool)
    (entries : List MasterDataEntry) :
    ∀ acc : List MasterDataEntry,
    entries.foldlM (fun matchingEntries entry =>
        match some (validSchema entry), some (validTable entry) with
        | some true, some true => some (matchingEntries ++ [entry])
        | some _, some _ => some matchingEntries
        | _, _ => none) acc
      = some (acc ++ entries.filter (fun e => validSchema e && validTable e)) := by
  induction entries with
  | nil => intro acc; simp
  | cons e rest ih =>
    intro acc
    rw [List.foldlM_cons, List.filter_cons]
    cases hs : validSchema e <;> cases ht : validTable e <;>
      simp only [Option.bind_eq_bind, Option.some_bind, ih, Bool.and_self, Bool.and_true,
        Bool.and_false, Bool.false_eq_true, if_false, if_true, List.append_assoc,
        List.singleton_append]

/-- The validity test of one dimension is the test of the filter of that dimension: with both
lists empty nothing is built and the test is true, as is the test of the empty exclude set. -/
theorem valid_eq_filterOf (includeList excludeList : List String) (key : String) :
    (if (includeList.length == 0 && excludeList.length == 0) = true then some true
      else (if (!(includeList.length == 0 && excludeList.length == 0)) = true then
              if includeList.length > 0 then some (NewIncludeSet includeList)
              else some (NewExcludeSet excludeList)
            else none).map (fun set => set.MatchesFilter key))
      = some ((filterOf includeList excludeList).MatchesFilter key) := by
  cases includeList with
  | nil =>
    cases excludeList with
    | nil => simp [filterOf, NewExcludeSet_nil_matches]
    | cons b bs => simp [filterOf]
  | cons a as => simp [filterOf]

/-- C20: `GetDataEntriesMatching` returns, in stored order, the data entries whose schema
passes the schema filter and whose fully-qualified name passes the table filter, each filter
being the include set of a non-empty include list and otherwise the exclude set of the exclude
list; with all four lists empty it returns every data entry. -/
theorem GetDataEntriesMatching_eq_filter (MakeFQN : String → String → String) (toc : TOC)
    (includeSchemas excludeSchemas includeTables excludeTables : List String) :
    toc.GetDataEntriesMatching MakeFQN includeSchemas excludeSchemas includeTables
        excludeTables
      = some (toc.DataEntries.filter (fun entry =>
          (filterOf includeSchemas excludeSchemas).MatchesFilter entry.Schema &&
          (filterOf includeTables excludeTables).MatchesFilter
            (MakeFQN entry.Schema entry.Name))) ∧
    toc.GetDataEntriesMatching MakeFQN [] [] [] [] = some toc.DataEntries := by
  have hgen : ∀ (is es it et : List String),
      toc.GetDataEntriesMatching MakeFQN is es it et
        = some (toc.DataEntries.filter (fun entry =>
            (filterOf is es).MatchesFilter entry.Schema &&
            (filterOf it et).MatchesFilter (MakeFQN entry.Schema entry.Name))) := by
    intro is es it et
    unfold TOC.GetDataEntriesMatching
    simp only [valid_eq_filterOf]
    have h := foldlM_select (fun e => (filterOf is es).MatchesFilter e.Schema)
      (fun e => (filterOf it et).MatchesFilter (MakeFQN e.Schema e.Name)) toc.DataEntries []
    rw [List.nil_append] at h
    exact h
  refine ⟨hgen _ _ _ _, ?_⟩
  rw [hgen]
  simp [filterOf, NewExcludeSet_nil_matches]

/-! ## Data entries of the tables backed up -/

/-- The loop of `AddTableDataEntriesToTOC`, from any TOC: the data entries grow by one entry
per table that is not external, in table order, and nothing else changes. -/
theorem AddTableDataEntriesToTOC_eq (tableDefs : List (Nat × TableDefinition))
    (rowsCopiedMaps : List (List (Nat × Int))) (tables : List Relation) :
    ∀ globalTOC : TOC,
    AddTableDataEntriesToTOC globalTOC tables tableDefs rowsCopiedMaps
      = TOC.mk globalTOC.metadataEntryMap globalTOC.GlobalEntries globalTOC.PredataEntries
          globalTOC.PostdataEntries globalTOC.StatisticsEntries
          (globalTOC.DataEntries ++
            (tables.filter (fun table => !(tableDefAt tableDefs table.Oid).IsExternal)).map
              (fun table =>
                MasterDataEntry.mk table.Schema table.Name table.Oid
                  (ConstructTableAttributesList (tableDefAt tableDefs table.Oid).ColumnDefs)
                  (firstRowsCopied table.Oid rowsCopiedMaps))) := by
  induction tables with
  | nil => intro globalTOC; simp [AddTableDataEntriesToTOC]
  | cons table rest ih =>
    intro globalTOC
    unfold AddTableDataEntriesToTOC at ih ⊢
    rw [List.foldl_cons, ih, List.filter_cons]
    cases h : (tableDefAt tableDefs table.Oid).IsExternal <;>
      simp [TOC.AddMasterDataEntry]

/-- C13, as stated, fails: with the maps `{7: 0}` and `{7: 5}` of two connections, the entry of
table 7 records 0 rows, while the first non-zero value stored for the oid is 5. -/
theorem AddTableDataEntriesToTOC_first_key_wins :
    (AddTableDataEntriesToTOC TOC.empty [{ Schema := "s", Name := "t", Oid := 7 }] []
        [[(7, 0)], [(7, 5)]]).DataEntries
      = [{ Schema := "s", Name := "t", Oid := 7, AttributeString := "", RowsCopied := 0 }] ∧
    firstNonZeroRowsCopied 7 [[(7, 0)], [(7, 5)]] = 5 := by
  decide

/-- C13, amended: the rows value that `AddTableDataEntriesToTOC` records for a table that is
not external is the value stored under the oid of the table in the first map, in connection
order, that has the oid as key (zero or not), and 0 when no map has the oid as key. -/
theorem AddTableDataEntriesToTOC_rowsCopied (globalTOC : TOC) (tables : List Relation)
    (tableDefs : List (Nat × TableDefinition)) (rowsCopiedMaps : List (List (Nat × Int))) :
    ∃ appended,
      (AddTableDataEntriesToTOC globalTOC tables tableDefs rowsCopiedMaps).DataEntries
        = globalTOC.DataEntries ++ appended ∧
      List.Forall₂ (fun table entry =>
          entry.Oid = table.Oid ∧
          (∀ before rowsCopiedMap after val,
            rowsCopiedMaps = before ++ rowsCopiedMap :: after →
            (∀ m ∈ before, m.lookup table.Oid = none) →
            rowsCopiedMap.lookup table.Oid = some val → entry.RowsCopied = val) ∧
          ((∀ m ∈ rowsCopiedMaps, m.lookup table.Oid = none) → entry.RowsCopied = 0))
        (tables.filter (fun table => !(tableDefAt tableDefs table.Oid).IsExternal))
        appended := by
  have hfound : ∀ (oid : Nat) (before : List (List (Nat × Int))) (rest : List (List (Nat × Int))),
      (∀ m ∈ before, m.lookup oid = none) →
      firstRowsCopied oid (before ++ rest) = firstRowsCopied oid rest := by
    intro oid before rest
    induction before with
    | nil => intro _; rfl
    | cons m ms ih =>
      intro h
      rw [List.cons_append]
      simp only [firstRowsCopied, h m (List.mem_cons_self _ _)]
      exact ih (fun m' hm' => h m' (List.mem_cons_of_mem _ hm'))
  refine ⟨_, by rw [AddTableDataEntriesToTOC_eq], ?_⟩
  rw [List.forall₂_map_right_iff]
  apply List.forall₂_same.mpr
  intro table _
  refine ⟨rfl, ?_, ?_⟩
  · intro before rowsCopiedMap after val hsplit hbefore hval
    show firstRowsCopied table.Oid rowsCopiedMaps = val
    rw [hsplit, hfound _ _ _ hbefore]
    simp only [firstRowsCopied, hval]
  · intro hnone
    show firstRowsCopied table.Oid rowsCopiedMaps = 0
    have h := hfound table.Oid rowsCopiedMaps [] hnone
    rw [List.append_nil] at h
    rw [h]
    rfl

/-- C15: `AddTableDataEntriesToTOC` appends to the data entries one entry per listed table that
is not flagged external, in the order of the table list, with schema, name and oid of the
table and the attribute string of its column definitions; the entries present before and the
four metadata sections (and the entry map) are unchanged. -/
theorem AddTableDataEntriesToTOC_appends (globalTOC : TOC) (tables : List Relation)
    (tableDefs : List (Nat × TableDefinition)) (rowsCopiedMaps : List (List (Nat × Int))) :
    ∃ appended,
      (AddTableDataEntriesToTOC globalTOC tables tableDefs rowsCopiedMaps).DataEntries
        = globalTOC.DataEntries ++ appended ∧
      List.Forall₂ (fun table entry =>
          entry.Schema = table.Schema ∧ entry.Name = table.Name ∧ entry.Oid = table.Oid ∧
          entry.AttributeString
            = ConstructTableAttributesList (tableDefAt tableDefs table.Oid).ColumnDefs)
        (tables.filter (fun table => (tableDefAt tableDefs table.Oid).IsExternal = false))
        appended ∧
      (∀ q, (AddTableDataEntriesToTOC globalTOC tables tableDefs rowsCopiedMaps).load q
        = globalTOC.load q) ∧
      (AddTableDataEntriesToTOC globalTOC tables tableDefs rowsCopiedMaps).metadataEntryMap
        = globalTOC.metadataEntryMap := by
  refine ⟨_, by rw [AddTableDataEntriesToTOC_eq], ?_, ?_, ?_⟩
  · have hfilter : tables.filter
          (fun table => decide ((tableDefAt tableDefs table.Oid).IsExternal = false))
        = tables.filter (fun table => !(tableDefAt tableDefs table.Oid).IsExternal) := by
      apply List.filter_congr
      intro table _
      cases (tableDefAt tableDefs table.Oid).IsExternal <;> rfl
    rw [hfilter, List.forall₂_map_right_iff]
    apply List.forall₂_same.mpr
    intro table _
    exact ⟨rfl, rfl, rfl, rfl⟩
  · intro q
    rw [AddTableDataEntriesToTOC_eq]
    cases q <;> rfl
  · rw [AddTableDataEntriesToTOC_eq]

/-! ## Row-count accounting -/

/-- The value the inner loop finds is the first binding of the oid in the maps laid end to
end. -/
theorem firstRowsCopied_eq_lookup (oid : Nat) (rowsCopiedMaps : List (List (Nat × Int))) :
    firstRowsCopied oid rowsCopiedMaps = (rowsCopiedMaps.flatten.lookup oid).getD 0 := by
  induction rowsCopiedMaps with
  | nil => rfl
  | cons m rest ih =>
    rw [List.flatten_cons, List.lookup_append]
    cases h : m.lookup oid with
    | none => simp only [firstRowsCopied, h, Option.none_or, ih]
    | some val =>
      simp only [firstRowsCopied, h]
      rfl

/-- Two functions that agree on a duplicate-free list except at one key of it have sums over
the list that differ by their difference at that key. -/
theorem sum_map_update (f g : Nat → Int) (k0 : Nat) (ks : List Nat) (hks : ks.Nodup)
    (hmem : k0 ∈ ks) (hfg : ∀ k ∈ ks, k ≠ k0 → f k = g k) :
    (ks.map f).sum = f k0 - g k0 + (ks.map g).sum := by
  induction ks with
  | nil => cases hmem
  | cons k rest ih =>
    rw [List.nodup_cons] at hks
    rw [List.map_cons, List.map_cons, List.sum_cons, List.sum_cons]
    by_cases hk : k = k0
    · subst hk
      have hsame : rest.map f = rest.map g := by
        apply List.map_congr_left
        intro x hx
        exact hfg x (List.mem_cons_of_mem _ hx) (fun h => hks.1 (h ▸ hx))
      rw [hsame]
      omega
    · have hmem' : k0 ∈ rest := by
        rcases List.mem_cons.mp hmem with h | h
        · exact absurd h.symm hk
        · exact h
      rw [ih hks.2 hmem' (fun x hx hne => hfg x (List.mem_cons_of_mem _ hx) hne),
        hfg k (List.mem_cons_self _ _) hk]
      omega

/-- Over a duplicate-free key list that holds every key of a duplicate-free association list,
the looked-up values add up to the values of the association list. -/
theorem sum_lookup_eq_sum (l : List (Nat × Int)) (ks : List Nat) (hks : ks.Nodup) :
    (l.map Prod.fst).Nodup → (∀ kv ∈ l, kv.1 ∈ ks) →
    (ks.map (fun k => (l.lookup k).getD 0)).sum = (l.map Prod.snd).sum := by
  induction l with
  | nil =>
    intro _ _
    simp
  | cons kv rest ih =>
    obtain ⟨k0, v0⟩ := kv
    intro hl hsub
    rw [List.map_cons, List.nodup_cons] at hl
    have hnone : rest.lookup k0 = none := by
      rw [List.lookup_eq_none_iff]
      intro p hp
      simp only [bne_iff_ne, ne_eq]
      intro h
      exact hl.1 (List.mem_map.mpr ⟨p, hp, h.symm⟩)
    have hstep := sum_map_update (fun k => (((k0, v0) :: rest).lookup k).getD 0)
      (fun k => (rest.lookup k).getD 0) k0 ks hks (hsub (k0, v0) (List.mem_cons_self _ _))
      (by
        intro k _ hne
        simp only [List.lookup_cons]
        have : (k == k0) = false := by simpa using hne
        rw [this])
    rw [hstep, ih hl.2 (fun kv hkv => hsub kv (List.mem_cons_of_mem _ hkv))]
    simp only [List.lookup_cons, beq_self_eq_true, Option.getD_some, hnone, Option.getD_none,
      List.map_cons, List.sum_cons]
    omega

/-- C14: when the listed tables have pairwise distinct oids, each oid is a key of at most one
per-connection map, and every key is the oid of a listed table that is not external, the rows
values of the data entries that `AddTableDataEntriesToTOC` appends add up to the sum of all
values stored in the per-connection maps. -/
theorem AddTableDataEntriesToTOC_rows_sum (globalTOC : TOC) (tables : List Relation)
    (tableDefs : List (Nat × TableDefinition)) (rowsCopiedMaps : List (List (Nat × Int)))
    (hoids : (tables.map (fun table => table.Oid)).Nodup)
    (hkeys : (rowsCopiedMaps.flatten.map Prod.fst).Nodup)
    (hlisted : ∀ m ∈ rowsCopiedMaps, ∀ kv ∈ m, ∃ table ∈ tables,
      table.Oid = kv.1 ∧ (tableDefAt tableDefs table.Oid).IsExternal = false) :
    ((((AddTableDataEntriesToTOC globalTOC tables tableDefs rowsCopiedMaps).DataEntries).drop
        globalTOC.DataEntries.length).map (fun entry => entry.RowsCopied)).sum
      = ((rowsCopiedMaps.flatten).map Prod.snd).sum := by
  rw [AddTableDataEntriesToTOC_eq]
  simp only [List.drop_left, List.map_map]
  have hnodup : ((tables.filter
      (fun table => !(tableDefAt tableDefs table.Oid).IsExternal)).map
        (fun table => table.Oid)).Nodup :=
    List.Nodup.sublist (List.Sublist.map _ (List.filter_sublist _)) hoids
  have hsum := sum_lookup_eq_sum rowsCopiedMaps.flatten _ hnodup hkeys (by
    intro kv hkv
    obtain ⟨m, hm, hkvm⟩ := List.mem_flatten.mp hkv
    obtain ⟨table, ht, hoid, hext⟩ := hlisted m hm kv hkvm
    exact List.mem_map.mpr ⟨table, List.mem_filter.mpr ⟨ht, by simp [hext]⟩, hoid⟩)
  rw [← hsum, List.map_map]
  apply congrArg
  apply List.map_congr_left
  intro table _
  exact firstRowsCopied_eq_lookup _ _

/-- C14, at a concrete run: three tables, one of them external, and the maps of two
connections. -/
theorem AddTableDataEntriesToTOC_rows_sum_witness :
    ((((AddTableDataEntriesToTOC TOC.empty
          [{ Schema := "s", Name := "a", Oid := 1 }, { Schema := "s", Name := "x", Oid := 2 },
           { Schema := "s", Name := "b", Oid := 3 }]
          [(2, { IsExternal := true, ColumnDefs := [] })]
          [[(3, 40)], [(1, 2)]]).DataEntries).drop
        TOC.empty.DataEntries.length).map (fun entry => entry.RowsCopied)).sum
      = (([[(3, 40)], [(1, 2)]] : List (List (Nat × Int))).flatten.map Prod.snd).sum :=
  AddTableDataEntriesToTOC_rows_sum TOC.empty
    [{ Schema := "s", Name := "a", Oid := 1 }, { Schema := "s", Name := "x", Oid := 2 },
     { Schema := "s", Name := "b", Oid := 3 }]
    [(2, { IsExternal := true, ColumnDefs := [] })]
    [[(3, 40)], [(1, 2)]]
    (by decide) (by decide) (by decide)

/-! ## Metadata-only switch -/

/-- C16: after `CheckTablesContainData` the flag `MetadataOnly` is true iff it was true before
or every listed table is flagged external (as is the case for the empty list); if some listed
table is not external the report is unchanged; a flag that was true stays true. -/
theorem CheckTablesContainData_MetadataOnly (backupReport : BackupReport)
    (tables : List Relation) (tableDefs : List (Nat × TableDefinition)) :
    ((CheckTablesContainData backupReport tables tableDefs).1.MetadataOnly = true ↔
      (backupReport.MetadataOnly = true ∨
        ∀ table ∈ tables, (tableDefAt tableDefs table.Oid).IsExternal = true)) ∧
    ((∃ table ∈ tables, (tableDefAt tableDefs table.Oid).IsExternal = false) →
      (CheckTablesContainData backupReport tables tableDefs).1 = backupReport) ∧
    (backupReport.MetadataOnly = true →
      (CheckTablesContainData backupReport tables tableDefs).1.MetadataOnly = true) := by
  have hany : tables.any (fun table => !(tableDefAt tableDefs table.Oid).IsExternal) = true ↔
      ∃ table ∈ tables, (tableDefAt tableDefs table.Oid).IsExternal = false := by
    simp [List.any_eq_true]
  unfold CheckTablesContainData
  cases hflag : backupReport.MetadataOnly
  · by_cases hsome : tables.any
        (fun table => !(tableDefAt tableDefs table.Oid).IsExternal) = true
    · obtain ⟨table, ht, hext⟩ := hany.mp hsome
      simp only [Bool.not_false, if_true, hsome, hflag, Bool.false_eq_true, false_or,
        false_implies, and_true, implies_true]
      refine ⟨False.elim, ?_⟩
      intro hall
      rw [hall table ht] at hext
      cases hext
    · have hall : ∀ table ∈ tables, (tableDefAt tableDefs table.Oid).IsExternal = true := by
        intro table ht
        cases hext : (tableDefAt tableDefs table.Oid).IsExternal
        · exact absurd (hany.mpr ⟨table, ht, hext⟩) hsome
        · rfl
      simp only [Bool.not_false, if_true, hsome, if_false, Bool.false_eq_true, false_or,
        false_implies, and_true, true_iff]
      refine ⟨hall, ?_⟩
      intro hex
      exact absurd (hany.mpr hex) hsome
  · simp only [Bool.not_true, Bool.false_eq_true, if_false, hflag, true_or, implies_true,
      and_self]

/-! ## Text of the COPY command -/

/-- The command text in multi-file mode without compression. -/
theorem CopyTableOutQuery_plain (env : BackupEnv) (table : Relation) (backupFile : String)
    (hsingle : env.singleDataFile = false) (hcompress : env.usingCompression = false) :
    CopyTableOutQuery env table backupFile
      = "COPY " ++ env.ToString table ++ " TO '" ++ backupFile
          ++ "' WITH CSV DELIMITER ',' ON SEGMENT IGNORE EXTERNAL PARTITIONS;" := by
  unfold CopyTableOutQuery
  simp only [hsingle, hcompress, Bool.false_eq_true, if_false, tableDelim,
    String.append_assoc]
  rfl

/-- The command text in single-file mode, for any pipe. -/
theorem CopyTableOutQuery_pipe (env : BackupEnv) (table : Relation) (backupFile : String)
    (hsingle : env.singleDataFile = true) :
    CopyTableOutQuery env table backupFile
      = "COPY " ++ env.ToString table ++ " TO PROGRAM '(test -p \x22" ++ backupFile
          ++ "\x22 || (echo \x22Pipe not found\x22>&2; exit 1)) && cat - > " ++ backupFile
          ++ "' WITH CSV DELIMITER ',' ON SEGMENT IGNORE EXTERNAL PARTITIONS;" := by
  unfold CopyTableOutQuery
  simp only [hsingle, if_true, tableDelim, String.append_assoc]
  rfl

/-- C17: in multi-file mode without compression `CopyTableOut` issues, for every table, path,
connection and connection pool, exactly one command on the given connection, with the text
`COPY <fqn> TO '<file>' WITH CSV DELIMITER ',' ON SEGMENT IGNORE EXTERNAL PARTITIONS;` where
`<fqn>` is the result of `table.ToString()` and `<file>` the given path: whatever the pool
`Exec` answers to commands, the result of `CopyTableOut` is the answer of the pool to this text
on this connection (the row count, or the fatal error). The text is the variable `query` of the
function, `BackupSingleTableData` takes the path from the table file path of the oid, and the
delimiter is the comma. -/
theorem CopyTableOut_multi_file (env : BackupEnv) (Exec : String → Nat → Option Int)
    (table : Relation) (backupFile : String) (connNum : Nat)
    (hsingle : env.singleDataFile = false) (hcompress : env.usingCompression = false) :
    CopyTableOut env Exec table backupFile connNum
      = Exec ("COPY " ++ env.ToString table ++ " TO '" ++ backupFile
          ++ "' WITH CSV DELIMITER ',' ON SEGMENT IGNORE EXTERNAL PARTITIONS;") connNum ∧
    CopyTableOutQuery env table backupFile
      = "COPY " ++ env.ToString table ++ " TO '" ++ backupFile
          ++ "' WITH CSV DELIMITER ',' ON SEGMENT IGNORE EXTERNAL PARTITIONS;" ∧
    backupFileOf env table = env.TableBackupFilePathForCopyCommand table.Oid ∧
    tableDelim = "," := by
  refine ⟨?_, CopyTableOutQuery_plain env table backupFile hsingle hcompress, ?_, rfl⟩
  · unfold CopyTableOut
    rw [CopyTableOutQuery_plain env table backupFile hsingle hcompress]
  · unfold backupFileOf
    rw [hsingle]
    rfl

/-- C17, at a concrete table and path, on connection 2 of a pool that answers 7 rows to the
command of the claim on that connection and an error to every other command: `CopyTableOut`
returns the 7 rows. -/
theorem CopyTableOut_multi_file_witness :
    CopyTableOut
        { singleDataFile := false, usingCompression := false, CompressCommand := "gzip -c -1",
          SegmentPipePathForCopyCommand := "<SEG_DATA_DIR>/gpbackup_<SEGID>_pipe",
          TableBackupFilePathForCopyCommand := fun oid => "/data/t_" ++ toString oid,
          ToString := fun table => table.Schema ++ "." ++ table.Name }
        (fun query connNum =>
          if query = "COPY public.foo TO '/data/t_16384' WITH CSV DELIMITER ',' ON SEGMENT IGNORE EXTERNAL PARTITIONS;"
              ∧ connNum = 2 then some 7
          else none)
        { Schema := "public", Name := "foo", Oid := 16384 } "/data/t_16384" 2
      = some 7 :=
  (CopyTableOut_multi_file
    { singleDataFile := false, usingCompression := false, CompressCommand := "gzip -c -1",
      SegmentPipePathForCopyCommand := "<SEG_DATA_DIR>/gpbackup_<SEGID>_pipe",
      TableBackupFilePathForCopyCommand := fun oid => "/data/t_" ++ toString oid,
      ToString := fun table => table.Schema ++ "." ++ table.Name }
    (fun query connNum =>
      if query = "COPY public.foo TO '/data/t_16384' WITH CSV DELIMITER ',' ON SEGMENT IGNORE EXTERNAL PARTITIONS;"
          ∧ connNum = 2 then some 7
      else none)
    { Schema := "public", Name := "foo", Oid := 16384 } "/data/t_16384" 2 rfl rfl).1.trans
    (by decide)

set_option maxRecDepth 4096 in
/-- C18, as stated, fails: in single-file mode the command text is not the text of the claim;
the code puts the pipe test in parentheses and writes no blank before `>&2`. A pool that
answers to the text of the claim only is not answered by `CopyTableOut`: the command it issues
is another one, and the pool reports an error. -/
theorem CopyTableOutQuery_single_file_text :
    CopyTableOutQuery
        { singleDataFile := true, usingCompression := false, CompressCommand := "gzip -c -1",
          SegmentPipePathForCopyCommand := "/data/pipe",
          TableBackupFilePathForCopyCommand := fun oid => "/data/t_" ++ toString oid,
          ToString := fun table => table.Schema ++ "." ++ table.Name }
        { Schema := "public", Name := "foo", Oid := 16384 }
        (backupFileOf
          { singleDataFile := true, usingCompression := false, CompressCommand := "gzip -c -1",
            SegmentPipePathForCopyCommand := "/data/pipe",
            TableBackupFilePathForCopyCommand := fun oid => "/data/t_" ++ toString oid,
            ToString := fun table => table.Schema ++ "." ++ table.Name }
          { Schema := "public", Name := "foo", Oid := 16384 })
      ≠ "COPY public.foo TO PROGRAM 'test -p \x22/data/pipe_16384\x22 || (echo \x22Pipe not found\x22 >&2; exit 1) && cat - > /data/pipe_16384' WITH CSV DELIMITER ',' ON SEGMENT IGNORE EXTERNAL PARTITIONS;" ∧
    CopyTableOut
        { singleDataFile := true, usingCompression := false, CompressCommand := "gzip -c -1",
          SegmentPipePathForCopyCommand := "/data/pipe",
          TableBackupFilePathForCopyCommand := fun oid => "/data/t_" ++ toString oid,
          ToString := fun table => table.Schema ++ "." ++ table.Name }
        (fun query _ =>
          if query = "COPY public.foo TO PROGRAM 'test -p \x22/data/pipe_16384\x22 || (echo \x22Pipe not found\x22 >&2; exit 1) && cat - > /data/pipe_16384' WITH CSV DELIMITER ',' ON SEGMENT IGNORE EXTERNAL PARTITIONS;"
          then some 7
          else none)
        { Schema := "public", Name := "foo", Oid := 16384 }
        (backupFileOf
          { singleDataFile := true, usingCompression := false, CompressCommand := "gzip -c -1",
            SegmentPipePathForCopyCommand := "/data/pipe",
            TableBackupFilePathForCopyCommand := fun oid => "/data/t_" ++ toString oid,
            ToString := fun table => table.Schema ++ "." ++ table.Name }
          { Schema := "public", Name := "foo", Oid := 16384 })
        0
      = none := by
  constructor <;> decide

/-- C18, amended: in single-file mode, with or without compression, the command issued for a
table has the text
`COPY <fqn> TO PROGRAM '(test -p "<pipe>" || (echo "Pipe not found">&2; exit 1)) && cat - > <pipe>' WITH CSV DELIMITER ',' ON SEGMENT IGNORE EXTERNAL PARTITIONS;`
where `<pipe>` is the segment pipe path, an underscore and the oid of the table in decimal.
Whatever the pool `Exec` answers to commands: the file that `BackupSingleTableData` hands on
is this pipe; the result of `CopyTableOut` on it is the answer of the pool to this text on the
given connection; and `BackupSingleTableData` issues nothing for an external table and
otherwise fails if the pool fails on this text and records the rows the pool answers to it. -/
theorem CopyTableOut_single_file (env : BackupEnv) (Exec : String → Nat → Option Int)
    (tableDef : TableDefinition) (table : Relation) (rowsCopiedMap : List (Nat × Int))
    (counters : BackupProgressCounters) (whichConn : Nat)
    (hsingle : env.singleDataFile = true) :
    backupFileOf env table
      = env.SegmentPipePathForCopyCommand ++ "_" ++ toString table.Oid ∧
    CopyTableOut env Exec table (backupFileOf env table) whichConn
      = Exec ("COPY " ++ env.ToString table ++ " TO PROGRAM '(test -p \x22"
          ++ (env.SegmentPipePathForCopyCommand ++ "_" ++ toString table.Oid)
          ++ "\x22 || (echo \x22Pipe not found\x22>&2; exit 1)) && cat - > "
          ++ (env.SegmentPipePathForCopyCommand ++ "_" ++ toString table.Oid)
          ++ "' WITH CSV DELIMITER ',' ON SEGMENT IGNORE EXTERNAL PARTITIONS;") whichConn ∧
    BackupSingleTableData env Exec tableDef table rowsCopiedMap counters whichConn
      = (if tableDef.IsExternal then some (rowsCopiedMap, counters)
         else
          (Exec ("COPY " ++ env.ToString table ++ " TO PROGRAM '(test -p \x22"
            ++ (env.SegmentPipePathForCopyCommand ++ "_" ++ toString table.Oid)
            ++ "\x22 || (echo \x22Pipe not found\x22>&2; exit 1)) && cat - > "
            ++ (env.SegmentPipePathForCopyCommand ++ "_" ++ toString table.Oid)
            ++ "' WITH CSV DELIMITER ',' ON SEGMENT IGNORE EXTERNAL PARTITIONS;") whichConn).map
            (fun rowsCopied =>
              (rowsCopiedMap.filter (fun binding => binding.1 != table.Oid)
                  ++ [(table.Oid, rowsCopied)],
                { NumRegTables := counters.NumRegTables + 1,
                  TotalRegTables := counters.TotalRegTables }))) ∧
    CopyTableOutQuery env table (backupFileOf env table)
      = "COPY " ++ env.ToString table ++ " TO PROGRAM '(test -p \x22"
          ++ (env.SegmentPipePathForCopyCommand ++ "_" ++ toString table.Oid)
          ++ "\x22 || (echo \x22Pipe not found\x22>&2; exit 1)) && cat - > "
          ++ (env.SegmentPipePathForCopyCommand ++ "_" ++ toString table.Oid)
          ++ "' WITH CSV DELIMITER ',' ON SEGMENT IGNORE EXTERNAL PARTITIONS;" := by
  have hfile : backupFileOf env table
      = env.SegmentPipePathForCopyCommand ++ "_" ++ toString table.Oid := by
    unfold backupFileOf
    rw [hsingle]
    rfl
  have hquery := CopyTableOutQuery_pipe env table (backupFileOf env table) hsingle
  rw [hfile] at hquery
  have hcopy : CopyTableOut env Exec table (backupFileOf env table) whichConn
      = Exec ("COPY " ++ env.ToString table ++ " TO PROGRAM '(test -p \x22"
          ++ (env.SegmentPipePathForCopyCommand ++ "_" ++ toString table.Oid)
          ++ "\x22 || (echo \x22Pipe not found\x22>&2; exit 1)) && cat - > "
          ++ (env.SegmentPipePathForCopyCommand ++ "_" ++ toString table.Oid)
          ++ "' WITH CSV DELIMITER ',' ON SEGMENT IGNORE EXTERNAL PARTITIONS;") whichConn := by
    unfold CopyTableOut
    rw [hfile, hquery]
  refine ⟨hfile, hcopy, ?_, by rw [hfile]; exact hquery⟩
  unfold BackupSingleTableData
  cases hext : tableDef.IsExternal
  · simp only [Bool.not_false, if_true, Bool.false_eq_true, if_false, hcopy]
    cases Exec ("COPY " ++ env.ToString table ++ " TO PROGRAM '(test -p \x22"
          ++ (env.SegmentPipePathForCopyCommand ++ "_" ++ toString table.Oid)
          ++ "\x22 || (echo \x22Pipe not found\x22>&2; exit 1)) && cat - > "
          ++ (env.SegmentPipePathForCopyCommand ++ "_" ++ toString table.Oid)
          ++ "' WITH CSV DELIMITER ',' ON SEGMENT IGNORE EXTERNAL PARTITIONS;") whichConn <;> rfl
  · simp only [Bool.not_true, Bool.false_eq_true, if_false, if_true]

set_option maxRecDepth 4096 in
/-- C18 amended, at a concrete table that is not external, with compression configured, on
connection 1 of a pool that answers 7 rows to the command of the amended claim on that
connection and an error to every other command: `BackupSingleTableData` records the 7 rows
under the oid. -/
theorem CopyTableOut_single_file_witness :
    BackupSingleTableData
        { singleDataFile := true, usingCompression := true, CompressCommand := "gzip -c -1",
          SegmentPipePathForCopyCommand := "/data/pipe",
          TableBackupFilePathForCopyCommand := fun oid => "/data/t_" ++ toString oid,
          ToString := fun table => table.Schema ++ "." ++ table.Name }
        (fun query connNum =>
          if query = "COPY public.foo TO PROGRAM '(test -p \x22/data/pipe_16384\x22 || (echo \x22Pipe not found\x22>&2; exit 1)) && cat - > /data/pipe_16384' WITH CSV DELIMITER ',' ON SEGMENT IGNORE EXTERNAL PARTITIONS;"
              ∧ connNum = 1 then some 7
          else none)
        (tableDefAt [] 16384) { Schema := "public", Name := "foo", Oid := 16384 } []
        { NumRegTables := 0, TotalRegTables := 1 } 1
      = some ([(16384, 7)], { NumRegTables := 1, TotalRegTables := 1 }) :=
  (CopyTableOut_single_file
    { singleDataFile := true, usingCompression := true, CompressCommand := "gzip -c -1",
      SegmentPipePathForCopyCommand := "/data/pipe",
      TableBackupFilePathForCopyCommand := fun oid => "/data/t_" ++ toString oid,
      ToString := fun table => table.Schema ++ "." ++ table.Name }
    (fun query connNum =>
      if query = "COPY public.foo TO PROGRAM '(test -p \x22/data/pipe_16384\x22 || (echo \x22Pipe not found\x22>&2; exit 1)) && cat - > /data/pipe_16384' WITH CSV DELIMITER ',' ON SEGMENT IGNORE EXTERNAL PARTITIONS;"
          ∧ connNum = 1 then some 7
      else none)
    (tableDefAt [] 16384) { Schema := "public", Name := "foo", Oid := 16384 } []
    { NumRegTables := 0, TotalRegTables := 1 } 1 rfl).2.2.1.trans
    (by decide)

/-! ## Byte ranges of the segment TOC -/

/-- Dropping the bindings of another key does not change what a key is bound to. -/
theorem lookup_filter_ne (entries : List (Nat × SegmentDataEntry)) (oid k : Nat)
    (hk : k ≠ oid) :
    (entries.filter (fun binding => binding.1 != oid)).lookup k = entries.lookup k := by
  induction entries with
  | nil => rfl
  | cons b rest ih =>
    obtain ⟨key, entry⟩ := b
    rw [List.filter_cons]
    by_cases hkey : key = oid
    · subst hkey
      have hne : (k == key) = false := by simpa using hk
      simp only [bne_self_eq_false, Bool.false_eq_true, if_false, List.lookup_cons, hne, ih]
    · have hb : (key != oid) = true := by simpa using hkey
      simp only [hb, if_true, List.lookup_cons, ih]

/-- After `AddSegmentDataEntry` the oid is bound to the new range and every other key to what
it was bound to before. -/
theorem entryOf_AddSegmentDataEntry (toc toc1 : SegmentTOC) (oid startByte endByte : Nat)
    (h : toc.AddSegmentDataEntry oid startByte endByte = some toc1) :
    toc1.entryOf oid = some { StartByte := startByte, EndByte := endByte } ∧
    ∀ k, k ≠ oid → toc1.entryOf k = toc.entryOf k := by
  unfold SegmentTOC.AddSegmentDataEntry at h
  cases hentries : toc.DataEntries with
  | none => rw [hentries] at h; cases h
  | some entries =>
    rw [hentries] at h
    simp only [Option.some.injEq] at h
    subst h
    constructor
    · show List.lookup oid _ = _
      rw [List.lookup_append]
      have hnone : (entries.filter (fun binding => binding.1 != oid)).lookup oid = none := by
        rw [List.lookup_eq_none_iff]
        intro b hb
        have hne := (List.mem_filter.mp hb).2
        rw [bne_iff_ne] at hne ⊢
        exact fun h => hne h.symm
      rw [hnone]
      simp [List.lookup_cons]
    · intro k hk
      show List.lookup k _ = SegmentTOC.entryOf toc k
      have hne : (k == oid) = false := by simpa using hk
      rw [List.lookup_append, lookup_filter_ne _ _ _ hk]
      simp only [SegmentTOC.entryOf, hentries, List.lookup_cons, hne, List.lookup_nil,
        Option.or_none]

/-- Backup mode from any state whose segment TOC is not the nil map: the run ends, the
payloads are appended to the data file in order, the count stays the length of the stream, the
keys outside the oid list keep their entries, and each oid of a duplicate-free list is bound to
the range that its payload takes in the stream. -/
theorem backupAll_ranges (jobs : List (Nat × List UInt8)) :
    ∀ state : HelperState, state.toc.DataEntries ≠ none →
    (jobs.map Prod.fst).Nodup →
    ∃ final, HelperState.backupAll jobs state = some final ∧
      final.dataFile = state.dataFile ++ (jobs.map Prod.snd).flatten ∧
      (∀ k, k ∉ jobs.map Prod.fst → final.toc.entryOf k = state.toc.entryOf k) ∧
      ∀ before oid payload after, jobs = before ++ (oid, payload) :: after →
        final.toc.entryOf oid = some
          { StartByte := state.bytesWritten + (before.map (fun job => job.2.length)).sum,
            EndByte := state.bytesWritten + (before.map (fun job => job.2.length)).sum
              + payload.length } := by
  induction jobs with
  | nil =>
    intro state _ _
    refine ⟨state, rfl, by simp, fun _ _ => rfl, ?_⟩
    intro before oid payload after h
    cases before <;> cases h
  | cons job rest ih =>
    obtain ⟨oid0, payload0⟩ := job
    intro state hmap hnodup
    rw [List.map_cons, List.nodup_cons] at hnodup
    obtain ⟨entries, hentries⟩ := Option.ne_none_iff_exists'.mp hmap
    have hadd : ∃ toc1, state.toc.AddSegmentDataEntry oid0 state.bytesWritten
        (state.bytesWritten + payload0.length) = some toc1 := by
      unfold SegmentTOC.AddSegmentDataEntry
      rw [hentries]
      exact ⟨_, rfl⟩
    obtain ⟨toc1, htoc1⟩ := hadd
    obtain ⟨hnew, hold⟩ := entryOf_AddSegmentDataEntry _ _ _ _ _ htoc1
    have hsome1 : toc1.DataEntries ≠ none := by
      unfold SegmentTOC.AddSegmentDataEntry at htoc1
      rw [hentries] at htoc1
      simp only [Option.some.injEq] at htoc1
      subst htoc1
      simp
    obtain ⟨final, hrun, hfile, hkeep, hrange⟩ :=
      ih { toc := toc1, dataFile := state.dataFile ++ payload0,
           bytesWritten := state.bytesWritten + payload0.length } hsome1 hnodup.2
    refine ⟨final, ?_, ?_, ?_, ?_⟩
    · simp only [HelperState.backupAll, HelperState.backupOid, htoc1]
      exact hrun
    · rw [hfile]
      simp
    · intro k hk
      rw [List.map_cons, List.mem_cons, not_or] at hk
      rw [hkeep k hk.2]
      exact hold k hk.1
    · intro before oid payload after hsplit
      cases before with
      | nil =>
        simp only [List.nil_append, List.cons.injEq, Prod.mk.injEq] at hsplit
        obtain ⟨⟨hoid, hpayload⟩, _⟩ := hsplit
        subst hoid
        subst hpayload
        rw [hkeep oid0 hnodup.1]
        simpa using hnew
      | cons b bs =>
        simp only [List.cons_append, List.cons.injEq] at hsplit
        obtain ⟨hb, hrest⟩ := hsplit
        subst hb
        rw [hrange bs oid payload after hrest]
        simp only [List.map_cons, List.sum_cons, SegmentDataEntry.mk.injEq, Option.some.injEq]
        omega

/-- C19: in backup mode over a list of distinct oids, the helper ends with a data file that is
the payloads concatenated in list order and a segment TOC that binds each oid to the half-open
range from the summed lengths of the payloads before it to that sum plus its own length (so the
first range starts at 0 and each range starts where the one before ends). For the oids 1, 2, 3
with the 18-byte payload of the helper test the TOC is 1: [0,18), 2: [18,36), 3: [36,54) and
the data file has 54 bytes. -/
theorem backupAll_segment_ranges (jobs : List (Nat × List UInt8))
    (hoids : (jobs.map Prod.fst).Nodup) :
    (∃ final, HelperState.backupAll jobs HelperState.start = some final ∧
      final.dataFile = (jobs.map Prod.snd).flatten ∧
      ∀ before oid payload after, jobs = before ++ (oid, payload) :: after →
        final.toc.entryOf oid = some
          { StartByte := (before.map (fun job => job.2.length)).sum,
            EndByte := (before.map (fun job => job.2.length)).sum + payload.length }) ∧
    (HelperState.backupAll
        [(1, helperTestPayload), (2, helperTestPayload), (3, helperTestPayload)]
        HelperState.start
      = some (HelperState.mk
          (SegmentTOC.mk (some
            [(1, { StartByte := 0, EndByte := 18 }), (2, { StartByte := 18, EndByte := 36 }),
             (3, { StartByte := 36, EndByte := 54 })]))
          (helperTestPayload ++ helperTestPayload ++ helperTestPayload) 54) ∧
      (helperTestPayload ++ helperTestPayload ++ helperTestPayload).length = 54) := by
  constructor
  · obtain ⟨final, hrun, hfile, _, hrange⟩ :=
      backupAll_ranges jobs HelperState.start (by simp [HelperState.start]) hoids
    refine ⟨final, hrun, by simpa [HelperState.start] using hfile, ?_⟩
    intro before oid payload after hsplit
    simpa [HelperState.start] using hrange before oid payload after hsplit
  · decide

/-- C19, at the oid list of the helper test. -/
theorem backupAll_segment_ranges_witness :
    ∃ final, HelperState.backupAll
        [(1, helperTestPayload), (2, helperTestPayload), (3, helperTestPayload)]
        HelperState.start = some final ∧
      final.dataFile
        = ([(1, helperTestPayload), (2, helperTestPayload),
            (3, helperTestPayload)].map Prod.snd).flatten ∧
      ∀ before oid payload after,
        [(1, helperTestPayload), (2, helperTestPayload), (3, helperTestPayload)]
          = before ++ (oid, payload) :: after →
        final.toc.entryOf oid = some
          { StartByte := (before.map (fun job => job.2.length)).sum,
            EndByte := (before.map (fun job => job.2.length)).sum + payload.length } :=
  (backupAll_segment_ranges
    [(1, helperTestPayload), (2, helperTestPayload), (3, helperTestPayload)]
    (by decide)).1

/-! ## Column list of a table -/

/-- The name-collecting loop of `ConstructTableAttributesList`, from any accumulated list. -/
theorem names_foldl (columnDefs : List ColumnDefinition) :
    ∀ acc : List String,
    columnDefs.foldl (fun names col => names ++ [col.Name]) acc
      = acc ++ columnDefs.map (fun col => col.Name) := by
  induction columnDefs with
  | nil => intro acc; simp
  | cons col rest ih => intro acc; rw [List.foldl_cons, ih]; simp

/-- Concatenation from an accumulator is the accumulator followed by the concatenation. -/
theorem foldl_append_eq_join (l : List String) :
    ∀ acc : String, l.foldl (fun r s => r ++ s) acc = acc ++ String.join l := by
  induction l with
  | nil => intro acc; simp [String.join]
  | cons a rest ih =>
    intro acc
    have hjoin : String.join (a :: rest) = List.foldl (fun r s => r ++ s) ("" ++ a) rest := rfl
    rw [List.foldl_cons, ih, hjoin, ih ("" ++ a)]
    simp [String.append_assoc]

/-- Concatenation of a list with a first element. -/
theorem join_cons (a : String) (l : List String) :
    String.join (a :: l) = a ++ String.join l := by
  have hjoin : String.join (a :: l) = List.foldl (fun r s => r ++ s) ("" ++ a) l := rfl
  rw [hjoin, foldl_append_eq_join]
  simp

/-- Joining with a separator, from an accumulator: every further element is written after one
separator. -/
theorem intercalate_go_eq (sep : String) (l : List String) :
    ∀ acc : String,
    String.intercalate.go acc sep l = acc ++ String.join (l.map (fun s => sep ++ s)) := by
  induction l with
  | nil => intro acc; simp [String.intercalate.go, String.join]
  | cons a rest ih =>
    intro acc
    rw [String.intercalate.go, ih, List.map_cons, join_cons]
    simp [String.append_assoc]

/-- C23: `ConstructTableAttributesList` returns the empty string for the empty list; for a
non-empty list it returns `(`, the column names in list order joined by `,`, and `)`, that is
the first name followed by each further name after one comma, with nothing else added; the
result is non-empty iff the list is non-empty. -/
theorem ConstructTableAttributesList_eq (columnDefs : List ColumnDefinition) :
    ConstructTableAttributesList [] = "" ∧
    (∀ col rest, ConstructTableAttributesList (col :: rest)
      = "(" ++ String.intercalate "," ((col :: rest).map (fun c => c.Name)) ++ ")" ∧
      ConstructTableAttributesList (col :: rest)
      = "(" ++ col.Name ++ String.join (rest.map (fun c => "," ++ c.Name)) ++ ")") ∧
    (ConstructTableAttributesList columnDefs ≠ "" ↔ columnDefs ≠ []) := by
  have hcons : ∀ (col : ColumnDefinition) (rest : List ColumnDefinition),
      ConstructTableAttributesList (col :: rest)
        = "(" ++ String.intercalate "," ((col :: rest).map (fun c => c.Name)) ++ ")" := by
    intro col rest
    unfold ConstructTableAttributesList
    simp only [names_foldl, List.nil_append, List.map_cons, List.length_cons, gt_iff_lt,
      Nat.zero_lt_succ, if_true]
  refine ⟨rfl, ?_, ?_⟩
  · intro col rest
    refine ⟨hcons col rest, ?_⟩
    rw [hcons, List.map_cons, String.intercalate, intercalate_go_eq, List.map_map]
    simp only [String.append_assoc, Function.comp_def]
  · cases columnDefs with
    | nil => simp [ConstructTableAttributesList]
    | cons col rest =>
      rw [hcons]
      constructor
      · intro _; simp
      · intro _ h
        have hlen := congrArg String.length h
        simp only [String.length_append] at hlen
        have h1 : "(".length = 1 := rfl
        have h2 : "".length = 0 := rfl
        omega

/-! ## Section lookup -/

/-- A section name other than the four registered ones is not a key of the initialised map. -/
theorem lookup_other_name (toc : TOC) (hinit : toc.EntryMapInitialized) (sectionName : String)
    (h1 : sectionName ≠ "global") (h2 : sectionName ≠ "predata")
    (h3 : sectionName ≠ "postdata") (h4 : sectionName ≠ "statistics") :
    toc.metadataEntryMap.lookup sectionName = none := by
  have h : toc.metadataEntryMap = TOC.empty.metadataEntryMap := hinit
  rw [h]
  have e1 : (sectionName == "global") = false := by simpa using h1
  have e2 : (sectionName == "predata") = false := by simpa using h2
  have e3 : (sectionName == "postdata") = false := by simpa using h3
  have e4 : (sectionName == "statistics") = false := by simpa using h4
  simp only [TOC.empty, TOC.InitializeEntryMap, List.lookup, e1, e2, e3, e4]

/-- C24: on a TOC whose entry map is initialised, each of the four section names is a key of
the map and leads to the entry list of the same name, so that the four append wrappers succeed
and the two extraction functions run their loop over that list; any other section name is not
a key, and on a TOC whose map was never initialised no name is a key: the append and both
extraction functions then fail. -/
theorem section_lookup (MakeFQN : String → String → String) (toc : TOC)
    (hinit : toc.EntryMapInitialized) :
    (toc.metadataEntryMap.lookup "global" = some .GlobalEntries ∧
      toc.metadataEntryMap.lookup "predata" = some .PredataEntries ∧
      toc.metadataEntryMap.lookup "postdata" = some .PostdataEntries ∧
      toc.metadataEntryMap.lookup "statistics" = some .StatisticsEntries) ∧
    (toc.load .GlobalEntries = toc.GlobalEntries ∧
      toc.load .PredataEntries = toc.PredataEntries ∧
      toc.load .PostdataEntries = toc.PostdataEntries ∧
      toc.load .StatisticsEntries = toc.StatisticsEntries) ∧
    (∀ (schema name objectType referenceObject : String) (start : Nat)
        (file : FileWithByteCount),
      (toc.AddGlobalEntry schema name objectType start file).isSome = true ∧
      (toc.AddPredataEntry schema name objectType referenceObject start file).isSome = true ∧
      (toc.AddPostdataEntry schema name objectType referenceObject start file).isSome = true ∧
      (toc.AddStatisticsEntry schema name objectType start file).isSome = true) ∧
    (∀ (p : EntriesField) (metadataFile : List UInt8)
        (includeObjectTypes excludeObjectTypes includeSchemas excludeSchemas
          includeRelations excludeRelations : List String),
      toc.GetAllSQLStatements p.sectionName metadataFile
        = extractStatements (fun _ => true) metadataFile (toc.load p) ∧
      toc.GetSQLStatementForObjectTypes MakeFQN p.sectionName metadataFile
          includeObjectTypes excludeObjectTypes includeSchemas excludeSchemas
          includeRelations excludeRelations
        = extractStatements (fun entry => shouldIncludeStatement MakeFQN entry
            (constructFilterSets includeObjectTypes excludeObjectTypes includeSchemas
              excludeSchemas includeRelations excludeRelations).1
            (constructFilterSets includeObjectTypes excludeObjectTypes includeSchemas
              excludeSchemas includeRelations excludeRelations).2.1
            (constructFilterSets includeObjectTypes excludeObjectTypes includeSchemas
              excludeSchemas includeRelations excludeRelations).2.2)
          metadataFile (toc.load p)) ∧
    (∀ (toc0 : TOC) (sectionName : String),
      (toc0 = toc ∧ sectionName ≠ "global" ∧ sectionName ≠ "predata" ∧
          sectionName ≠ "postdata" ∧ sectionName ≠ "statistics") ∨
        toc0.metadataEntryMap = [] →
      toc0.metadataEntryMap.lookup sectionName = none ∧
      (∀ (schema name objectType referenceObject : String) (start : Nat)
          (file : FileWithByteCount),
        toc0.AddMetadataEntry schema name objectType referenceObject start file sectionName
          = none) ∧
      (∀ (metadataFile : List UInt8)
          (includeObjectTypes excludeObjectTypes includeSchemas excludeSchemas
            includeRelations excludeRelations : List String),
        toc0.GetAllSQLStatements sectionName metadataFile = none ∧
        toc0.GetSQLStatementForObjectTypes MakeFQN sectionName metadataFile
          includeObjectTypes excludeObjectTypes includeSchemas excludeSchemas
          includeRelations excludeRelations = none)) := by
  have hg := lookup_sectionName toc hinit .GlobalEntries
  have hp := lookup_sectionName toc hinit .PredataEntries
  have hq := lookup_sectionName toc hinit .PostdataEntries
  have hs := lookup_sectionName toc hinit .StatisticsEntries
  simp only [EntriesField.sectionName] at hg hp hq hs
  refine ⟨⟨hg, hp, hq, hs⟩, ⟨rfl, rfl, rfl, rfl⟩, ?_, ?_, ?_⟩
  · intro schema name objectType referenceObject start file
    simp [TOC.AddGlobalEntry, TOC.AddPredataEntry, TOC.AddPostdataEntry,
      TOC.AddStatisticsEntry, TOC.AddMetadataEntry, hg, hp, hq, hs]
  · intro p metadataFile io eo is es ir er
    constructor
    · unfold TOC.GetAllSQLStatements extractStatements
      rw [lookup_sectionName toc hinit p]
      simp only [if_true]
    · unfold TOC.GetSQLStatementForObjectTypes extractStatements
      rw [lookup_sectionName toc hinit p]
  · intro toc0 sectionName h
    have hnone : toc0.metadataEntryMap.lookup sectionName = none := by
      rcases h with ⟨htoc, h1, h2, h3, h4⟩ | hnil
      · rw [htoc]
        exact lookup_other_name toc hinit sectionName h1 h2 h3 h4
      · rw [hnil]
        rfl
    refine ⟨hnone, ?_, ?_⟩
    · intro schema name objectType referenceObject start file
      unfold TOC.AddMetadataEntry
      rw [hnone]
    · intro metadataFile io eo is es ir er
      unfold TOC.GetAllSQLStatements TOC.GetSQLStatementForObjectTypes
      rw [hnone]
      exact ⟨rfl, rfl⟩

/-- C24, at the empty initialised TOC. -/
theorem section_lookup_witness :
    TOC.empty.metadataEntryMap.lookup "global" = some .GlobalEntries ∧
    TOC.empty.metadataEntryMap.lookup "predata" = some .PredataEntries ∧
    TOC.empty.metadataEntryMap.lookup "postdata" = some .PostdataEntries ∧
    TOC.empty.metadataEntryMap.lookup "statistics" = some .StatisticsEntries :=
  (section_lookup (fun schema name => schema ++ "." ++ name) TOC.empty rfl).1

/-! ## Statements returned under a relation include filter -/

/-- Whatever the extraction loop returns comes from the accumulated list or carries the
descriptive fields of an entry that passed the inclusion test. -/
theorem foldlM_extract_mem (inc : MetadataEntry → Bool) (file : List UInt8)
    (entries : List MetadataEntry) :
    ∀ (acc result : List StatementWithType),
    entries.foldlM (fun statements entry =>
      if inc entry then
        match makeBytes (uint64Sub entry.EndByte entry.StartByte) with
        | none => none
        | some len =>
          match ReadAt file len (toInt64 entry.StartByte) with
          | none => none
          | some contents =>
            some (statements ++ [{ Schema := entry.Schema, Name := entry.Name,
                                   ObjectType := entry.ObjectType,
                                   ReferenceObject := entry.ReferenceObject,
                                   Statement := contents }])
      else some statements) acc = some result →
    ∀ st ∈ result, st ∈ acc ∨ ∃ e ∈ entries, inc e = true ∧ st.Schema = e.Schema ∧
      st.Name = e.Name ∧ st.ObjectType = e.ObjectType ∧
      st.ReferenceObject = e.ReferenceObject := by
  induction entries with
  | nil =>
    intro acc result h st hst
    simp only [List.foldlM_nil, pure, Option.some.injEq] at h
    subst h
    exact Or.inl hst
  | cons e es ih =>
    intro acc result h st hst
    rw [List.foldlM_cons] at h
    by_cases hi : inc e = true
    · simp only [hi, if_true, Option.bind_eq_bind] at h
      cases hm : makeBytes (uint64Sub e.EndByte e.StartByte) with
      | none => simp only [hm, Option.none_bind] at h; cases h
      | some len =>
        cases hr : ReadAt file len (toInt64 e.StartByte) with
        | none => simp only [hm, hr, Option.none_bind] at h; cases h
        | some contents =>
          simp only [hm, hr, Option.some_bind] at h
          rcases ih _ _ h st hst with hacc | ⟨x, hx, hrest⟩
          · rcases List.mem_append.mp hacc with hacc | hnew
            · exact Or.inl hacc
            · rw [List.mem_singleton] at hnew
              subst hnew
              exact Or.inr ⟨e, List.mem_cons_self _ _, hi, rfl, rfl, rfl, rfl⟩
          · exact Or.inr ⟨x, List.mem_cons_of_mem _ hx, hrest⟩
    · rw [if_neg hi] at h
      simp only [Option.bind_eq_bind, Option.some_bind] at h
      rcases ih _ _ h st hst with hacc | ⟨x, hx, hrest⟩
      · exact Or.inl hacc
      · exact Or.inr ⟨x, List.mem_cons_of_mem _ hx, hrest⟩

/-- C21: when `includeRelations` is non-empty, every statement that
`GetSQLStatementForObjectTypes` returns is a TABLE, VIEW or SEQUENCE with empty reference
object whose fully-qualified name is in `includeRelations`, or has a non-empty reference
object that is in `includeRelations`; so no statement that is neither TABLE, VIEW nor SEQUENCE
and has an empty reference object is returned. Under an exclude relation filter, empty or not,
such an entry satisfies the relation predicate: its inclusion is decided by the object filter
and the schema filter alone. -/
theorem GetSQLStatementForObjectTypes_include_relations_only
    (MakeFQN : String → String → String) (toc : TOC) (sectionName : String)
    (metadataFile : List UInt8)
    (includeObjectTypes excludeObjectTypes includeSchemas excludeSchemas
      includeRelations excludeRelations : List String) (result : List StatementWithType)
    (hinclude : includeRelations ≠ [])
    (hresult : toc.GetSQLStatementForObjectTypes MakeFQN sectionName metadataFile
      includeObjectTypes excludeObjectTypes includeSchemas excludeSchemas includeRelations
      excludeRelations = some result) :
    (∀ st ∈ result,
      ((st.ObjectType = "TABLE" ∨ st.ObjectType = "VIEW" ∨ st.ObjectType = "SEQUENCE") ∧
          st.ReferenceObject = "" ∧ MakeFQN st.Schema st.Name ∈ includeRelations) ∨
        (st.ReferenceObject ≠ "" ∧ st.ReferenceObject ∈ includeRelations)) ∧
    (∀ st ∈ result,
      ¬ (st.ObjectType ≠ "TABLE" ∧ st.ObjectType ≠ "VIEW" ∧ st.ObjectType ≠ "SEQUENCE" ∧
          st.ReferenceObject = "")) ∧
    (∀ (entry : MetadataEntry) (objectSet schemaSet : FilterSet) (excluded : List String),
      entry.ObjectType ≠ "TABLE" → entry.ObjectType ≠ "VIEW" →
      entry.ObjectType ≠ "SEQUENCE" → entry.ReferenceObject = "" →
      shouldIncludeStatement MakeFQN entry objectSet schemaSet (NewExcludeSet excluded)
        = (objectSet.MatchesFilter entry.ObjectType
            && schemaSet.MatchesFilter entry.Schema)) := by
  have hlen : includeRelations.length > 0 := List.length_pos.mpr hinclude
  have hmain : ∀ st ∈ result,
      ((st.ObjectType = "TABLE" ∨ st.ObjectType = "VIEW" ∨ st.ObjectType = "SEQUENCE") ∧
          st.ReferenceObject = "" ∧ MakeFQN st.Schema st.Name ∈ includeRelations) ∨
        (st.ReferenceObject ≠ "" ∧ st.ReferenceObject ∈ includeRelations) := by
    intro st hst
    unfold TOC.GetSQLStatementForObjectTypes at hresult
    cases hl : toc.metadataEntryMap.lookup sectionName with
    | none => rw [hl] at hresult; cases hresult
    | some p =>
      rw [hl] at hresult
      simp only [constructFilterSets, hlen, if_true] at hresult
      rcases foldlM_extract_mem _ metadataFile (toc.load p) [] result hresult st hst with
        hnil | ⟨e, _, hinc, h1, h2, h3, h4⟩
      · cases hnil
      · rw [h1, h2, h3, h4]
        unfold shouldIncludeStatement at hinc
        simp only [NewIncludeSet, FilterSet.MatchesFilter, Bool.false_eq_true, if_false,
          Bool.false_and, Bool.false_or, Bool.and_eq_true, Bool.or_eq_true, beq_iff_eq,
          bne_iff_ne, ne_eq, decide_eq_true_eq, List.elem_eq_mem, List.contains,
          or_assoc] at hinc
        rcases hinc.2 with ⟨⟨htype, hfqn⟩, href⟩ | ⟨href, hmem⟩
        · exact Or.inl ⟨htype, href, hfqn⟩
        · exact Or.inr ⟨href, hmem⟩
  refine ⟨hmain, ?_, ?_⟩
  · intro st hst hnot
    obtain ⟨h1, h2, h3, h4⟩ := hnot
    rcases hmain st hst with ⟨htype, _, _⟩ | ⟨href, _⟩
    · rcases htype with h | h | h
      · exact h1 h
      · exact h2 h
      · exact h3 h
    · exact href h4
  · intro entry objectSet schemaSet excluded h1 h2 h3 h4
    unfold shouldIncludeStatement
    simp [NewExcludeSet, h1, h2, h3, h4]

/-- C21, at a concrete section: a table, a function without reference object and an index of
the table, with the table as the one included relation; the function is not returned, and the
index that is returned has its reference object among the included relations. -/
theorem GetSQLStatementForObjectTypes_include_relations_only_witness :
    (("INDEX" = "TABLE" ∨ "INDEX" = "VIEW" ∨ "INDEX" = "SEQUENCE") ∧
        "s.t" = "" ∧ "s" ++ "." ++ "i" ∈ ["s.t"]) ∨
      ("s.t" ≠ "" ∧ "s.t" ∈ ["s.t"]) :=
  (GetSQLStatementForObjectTypes_include_relations_only
    (fun schema name => schema ++ "." ++ name)
    { TOC.empty with PredataEntries :=
        [{ Schema := "s", Name := "t", ObjectType := "TABLE", ReferenceObject := "",
           StartByte := 0, EndByte := 2 },
         { Schema := "s", Name := "f", ObjectType := "FUNCTION", ReferenceObject := "",
           StartByte := 2, EndByte := 4 },
         { Schema := "s", Name := "i", ObjectType := "INDEX", ReferenceObject := "s.t",
           StartByte := 4, EndByte := 5 }] }
    "predata" [65, 66, 67, 68, 69] [] [] [] [] ["s.t"] []
    [{ Schema := "s", Name := "t", ObjectType := "TABLE", ReferenceObject := "",
       Statement := [65, 66] },
     { Schema := "s", Name := "i", ObjectType := "INDEX", ReferenceObject := "s.t",
       Statement := [69] }]
    (by decide) (by decide)).1
    { Schema := "s", Name := "i", ObjectType := "INDEX", ReferenceObject := "s.t",
      Statement := [69] }
    (by decide)

/-! ## The worker pool: counting oids -/

/-- Replacing one element of a list changes the count over the flattened images by the counts
of the two images. -/
theorem count_flatMap_set {α : Type} (f : α → List Nat) (a : Nat) :
    ∀ (l : List α) (k : Nat) (x y : α), l[k]? = some x →
    ((l.set k y).flatMap f).count a + (f x).count a
      = (l.flatMap f).count a + (f y).count a := by
  intro l
  induction l with
  | nil => intro k x y h; simp at h
  | cons b rest ih =>
    intro k x y h
    cases k with
    | zero =>
      simp only [List.getElem?_cons_zero, Option.some.injEq] at h
      subst h
      simp only [List.set_cons_zero, List.flatMap_cons, List.count_append]
      omega
    | succ k =>
      simp only [List.getElem?_cons_succ] at h
      have := ih k x y h
      simp only [List.set_cons_succ, List.flatMap_cons, List.count_append]
      omega

/-- The count in the image of one element is at most the count over the flattened images. -/
theorem count_le_flatMap {α : Type} (f : α → List Nat) (a : Nat) :
    ∀ (l : List α) (k : Nat) (x : α), l[k]? = some x →
    (f x).count a ≤ (l.flatMap f).count a := by
  intro l
  induction l with
  | nil => intro k x h; simp at h
  | cons b rest ih =>
    intro k x h
    cases k with
    | zero =>
      simp only [List.getElem?_cons_zero, Option.some.injEq] at h
      subst h
      simp only [List.flatMap_cons, List.count_append]
      omega
    | succ k =>
      simp only [List.getElem?_cons_succ] at h
      have := ih k x h
      simp only [List.flatMap_cons, List.count_append]
      omega

/-- Keys of a map after the bindings of an oid are dropped. -/
theorem count_keys_filter (oid a : Nat) (m : List (Nat × Int)) :
    ((m.filter (fun binding => binding.1 != oid)).map Prod.fst).count a
      = if a = oid then 0 else (m.map Prod.fst).count a := by
  induction m with
  | nil => simp
  | cons b rest ih =>
    obtain ⟨key, val⟩ := b
    rw [List.filter_cons]
    by_cases hkey : key = oid
    · subst hkey
      simp only [bne_self_eq_false, Bool.false_eq_true, if_false, ih, List.map_cons,
        List.count_cons]
      by_cases ha : a = key
      · simp [ha]
      · have : (key == a) = false := by
          rw [beq_eq_false_iff_ne]
          exact fun h => ha h.symm
        simp [ha, this]
    · have hb : (key != oid) = true := by simpa using hkey
      simp only [hb, if_true, List.map_cons, List.count_cons, ih]
      by_cases ha : a = oid
      · subst ha
        have : (key == a) = false := by simpa using hkey
        simp [this]
      · simp [ha]

/-- The count of an oid in the run, by its four parts. -/
theorem count_pending (s : PoolState) (a : Nat) :
    s.pending.count a
      = (keysOf s.rowsCopiedMaps).count a + (s.workers.flatMap WorkerState.held).count a
        + (s.tasks.map (fun table => table.Oid)).count a
        + (s.toSend.map (fun table => table.Oid)).count a := by
  simp only [PoolState.pending, List.count_append]

/-! ## The worker pool: the invariant -/

/-- The invariant holds when the workers are started. -/
theorem Inv_start (NumConns : Nat) (tables : List Relation)
    (tableDefs : List (Nat × TableDefinition)) :
    (PoolState.start NumConns tables tableDefs).Inv NumConns tables tableDefs := by
  have hkeys : keysOf (List.replicate NumConns ([] : List (Nat × Int))) = [] := by
    induction NumConns with
    | zero => rfl
    | succ n ih => simp [keysOf, List.replicate_succ] at ih ⊢
  have hheld : (List.replicate NumConns WorkerState.waiting).flatMap WorkerState.held = [] := by
    induction NumConns with
    | zero => rfl
    | succ n ih => simp [List.replicate_succ, WorkerState.held] at ih ⊢
  have hpending : (PoolState.start NumConns tables tableDefs).pending
      = tables.map (fun table => table.Oid) := by
    simp [PoolState.pending, PoolState.start, hkeys, hheld]
  refine ⟨?_, ?_, ?_, ?_, ?_, ?_, ?_⟩
  · intro a
    rw [hpending]
  · intro a ha
    simp only [PoolState.start, hkeys] at ha
    cases ha
  · intro _ a ha _
    rw [hpending]
    exact List.count_pos_iff.mpr ha
  · intro h
    simp [PoolState.start] at h
  · intro _ hdone
    simp [PoolState.start, List.mem_replicate] at hdone
  · simp [PoolState.start]
  · simp [PoolState.start]

/-- The interrupt keeps the invariant. -/
theorem Inv_interrupt (NumConns : Nat) (tables : List Relation)
    (tableDefs : List (Nat × TableDefinition)) (s : PoolState)
    (hinv : s.Inv NumConns tables tableDefs) :
    PoolState.Inv NumConns tables tableDefs { s with wasTerminated := true } := by
  obtain ⟨h1, h2, _, h4, _, h6, h7⟩ := hinv
  refine ⟨h1, h2, ?_, h4, ?_, h6, h7⟩
  · intro h; cases h
  · intro h; cases h

/-- A move of the caller keeps the invariant. -/
theorem Inv_main (env : BackupEnv) (Exec : String → Nat → Option Int) (NumConns : Nat)
    (tables : List Relation) (tableDefs : List (Nat × TableDefinition)) (s s1 : PoolState)
    (hinv : s.Inv NumConns tables tableDefs)
    (hstep : s.step env Exec tableDefs .main = some s1) :
    s1.Inv NumConns tables tableDefs := by
  obtain ⟨h1, h2, h3, h4, h5, h6, h7⟩ := hinv
  simp only [PoolState.step] at hstep
  cases hsend : s.toSend with
  | nil =>
    rw [hsend] at hstep
    cases hclosed : s.closed with
    | true => simp [hclosed] at hstep
    | false =>
      simp only [hclosed, Bool.false_eq_true, if_false, Option.some.injEq] at hstep
      subst hstep
      refine ⟨?_, h2, ?_, fun _ => rfl, ?_, h6, h7⟩
      · intro a
        simpa only [count_pending, hsend] using h1 a
      · intro hflag a ha hext
        simpa only [count_pending, hsend] using h3 hflag a ha hext
      · intro hflag hdone
        have := (h5 hflag hdone).2
        rw [hclosed] at this
        cases this
  | cons table rest =>
    rw [hsend] at hstep
    simp only [Option.some.injEq] at hstep
    subst hstep
    have hopen : s.closed = false := by
      cases hclosed : s.closed with
      | false => rfl
      | true =>
        have := h4 hclosed
        rw [hsend] at this
        cases this
    refine ⟨?_, h2, ?_, ?_, ?_, h6, h7⟩
    · intro a
      have := h1 a
      rw [count_pending] at this ⊢
      simp only [hsend, List.map_cons, List.map_append, List.count_append, List.map_nil,
        List.count_cons, List.count_nil] at this ⊢
      omega
    · intro hflag a ha hext
      have := h3 hflag a ha hext
      rw [count_pending] at this ⊢
      simp only [hsend, List.map_cons, List.map_append, List.count_append, List.map_nil,
        List.count_cons, List.count_nil] at this ⊢
      omega
    · intro hclosed
      rw [hopen] at hclosed
      cases hclosed
    · intro hflag hdone
      have := (h5 hflag hdone).2
      rw [hopen] at this
      cases this

/-- A worker that is in the list after one worker was replaced is the new one or was there
before. -/
theorem done_mem_set (workers : List WorkerState) (k : Nat) (w : WorkerState)
    (hw : w ≠ .done) (h : WorkerState.done ∈ workers.set k w) : WorkerState.done ∈ workers := by
  rcases List.mem_or_eq_of_mem_set h with h | h
  · exact h
  · exact absurd h.symm hw

/-- A receive, or the return from the closed and empty channel, keeps the invariant. -/
theorem Inv_worker_waiting (env : BackupEnv) (Exec : String → Nat → Option Int)
    (NumConns : Nat) (tables : List Relation) (tableDefs : List (Nat × TableDefinition))
    (s s1 : PoolState) (k : Nat) (hinv : s.Inv NumConns tables tableDefs)
    (hk : s.workers[k]? = some .waiting)
    (hstep : s.workerStep env Exec tableDefs k .waiting = some s1) :
    s1.Inv NumConns tables tableDefs := by
  obtain ⟨h1, h2, h3, h4, h5, h6, h7⟩ := hinv
  simp only [PoolState.workerStep] at hstep
  cases htasks : s.tasks with
  | nil =>
    cases hclosed : s.closed with
    | false => simp [htasks, hclosed] at hstep
    | true =>
      simp only [htasks, hclosed, if_true, Option.some.injEq] at hstep
      subst hstep
      have hheld : ∀ a, ((s.workers.set k .done).flatMap WorkerState.held).count a
          = (s.workers.flatMap WorkerState.held).count a := by
        intro a
        have := count_flatMap_set WorkerState.held a s.workers k .waiting .done hk
        simp only [WorkerState.held, List.count_nil] at this
        omega
      refine ⟨?_, h2, ?_, ?_, ?_, ?_, h7⟩
      · intro a
        have := h1 a
        rw [count_pending] at this ⊢
        simp only [htasks, hheld] at this ⊢
        exact this
      · intro hflag a ha hext
        have := h3 hflag a ha hext
        rw [count_pending] at this ⊢
        simp only [htasks, hheld] at this ⊢
        exact this
      · intro _
        exact h4 hclosed
      · intro _ _
        exact ⟨rfl, rfl⟩
      · simpa using h6
  | cons table rest =>
    simp only [htasks, Option.some.injEq] at hstep
    subst hstep
    have hheld : ∀ a, ((s.workers.set k (.received table)).flatMap WorkerState.held).count a
        = (s.workers.flatMap WorkerState.held).count a + [table.Oid].count a := by
      intro a
      have := count_flatMap_set WorkerState.held a s.workers k .waiting (.received table) hk
      simp only [WorkerState.held, List.count_nil] at this
      omega
    refine ⟨?_, h2, ?_, h4, ?_, ?_, h7⟩
    · intro a
      have := h1 a
      rw [count_pending] at this ⊢
      simp only [htasks, hheld, List.map_cons, List.count_cons, List.count_nil] at this ⊢
      omega
    · intro hflag a ha hext
      have := h3 hflag a ha hext
      rw [count_pending] at this ⊢
      simp only [htasks, hheld, List.map_cons, List.count_cons, List.count_nil] at this ⊢
      omega
    · intro hflag hdone
      have hold := (h5 hflag (done_mem_set _ _ _ (by simp) hdone)).1
      rw [htasks] at hold
      cases hold
    · simpa using h6

/-- The test of the flag, with the `break` or without, keeps the invariant. -/
theorem Inv_worker_received (env : BackupEnv) (Exec : String → Nat → Option Int)
    (NumConns : Nat) (tables : List Relation) (tableDefs : List (Nat × TableDefinition))
    (s s1 : PoolState) (k : Nat) (table : Relation)
    (hinv : s.Inv NumConns tables tableDefs)
    (hk : s.workers[k]? = some (.received table))
    (hstep : s.workerStep env Exec tableDefs k (.received table) = some s1) :
    s1.Inv NumConns tables tableDefs := by
  obtain ⟨h1, h2, h3, h4, h5, h6, h7⟩ := hinv
  simp only [PoolState.workerStep] at hstep
  cases hflag : s.wasTerminated with
  | true =>
    simp only [hflag, if_true, Option.some.injEq] at hstep
    subst hstep
    have hheld : ∀ a, ((s.workers.set k .done).flatMap WorkerState.held).count a
        ≤ (s.workers.flatMap WorkerState.held).count a := by
      intro a
      have := count_flatMap_set WorkerState.held a s.workers k (.received table) .done hk
      simp only [WorkerState.held, List.count_nil] at this
      omega
    refine ⟨?_, h2, ?_, h4, ?_, ?_, h7⟩
    · intro a
      have := h1 a
      have := hheld a
      rw [count_pending] at *
      simp only at *
      omega
    · intro h
      cases h
    · intro h
      cases h
    · simpa using h6
  | false =>
    simp only [hflag, Bool.false_eq_true, if_false, Option.some.injEq] at hstep
    subst hstep
    have hheld : ∀ a,
        ((s.workers.set k (.backingUp table)).flatMap WorkerState.held).count a
          = (s.workers.flatMap WorkerState.held).count a := by
      intro a
      have := count_flatMap_set WorkerState.held a s.workers k (.received table)
        (.backingUp table) hk
      simp only [WorkerState.held] at this
      omega
    refine ⟨?_, h2, ?_, h4, ?_, ?_, h7⟩
    · intro a
      have := h1 a
      rw [count_pending] at this ⊢
      simp only [hheld] at this ⊢
      exact this
    · intro _ a ha hext
      have := h3 hflag a ha hext
      rw [count_pending] at this ⊢
      simp only [hheld] at this ⊢
      exact this
    · intro _ hdone
      exact h5 hflag (done_mem_set _ _ _ (by simp) hdone)
    · simpa using h6

/-- The backup of the table a worker holds keeps the invariant: the oid leaves the hands of
the worker and, unless the table is external, becomes a key of the map of the worker. -/
theorem Inv_worker_backingUp (env : BackupEnv) (Exec : String → Nat → Option Int)
    (NumConns : Nat) (tables : List Relation) (tableDefs : List (Nat × TableDefinition))
    (hnodup : (tables.map (fun table => table.Oid)).Nodup)
    (s s1 : PoolState) (k : Nat) (table : Relation)
    (hinv : s.Inv NumConns tables tableDefs)
    (hk : s.workers[k]? = some (.backingUp table))
    (hstep : s.workerStep env Exec tableDefs k (.backingUp table) = some s1) :
    s1.Inv NumConns tables tableDefs := by
  obtain ⟨h1, h2, h3, h4, h5, h6, h7⟩ := hinv
  simp only [PoolState.workerStep] at hstep
  cases hm : s.rowsCopiedMaps[k]? with
  | none => simp [hm] at hstep
  | some m =>
    cases hb : BackupSingleTableData env Exec (tableDefAt tableDefs table.Oid) table m
        s.counters k with
    | none => simp [hm, hb] at hstep
    | some result =>
      obtain ⟨m1, c1⟩ := result
      simp only [hm, hb, Option.some.injEq] at hstep
      subst hstep
      have hheld : ∀ a, ((s.workers.set k .waiting).flatMap WorkerState.held).count a
          + [table.Oid].count a = (s.workers.flatMap WorkerState.held).count a := by
        intro a
        have := count_flatMap_set WorkerState.held a s.workers k (.backingUp table)
          .waiting hk
        simp only [WorkerState.held, List.count_nil] at this
        omega
      have hkeys : ∀ a, (keysOf (s.rowsCopiedMaps.set k m1)).count a
          + (m.map Prod.fst).count a
            = (keysOf s.rowsCopiedMaps).count a + (m1.map Prod.fst).count a := by
        intro a
        exact count_flatMap_set (fun rowsCopiedMap => rowsCopiedMap.map Prod.fst) a
          s.rowsCopiedMaps k m m1 hm
      have hpart : ∀ a, (m.map Prod.fst).count a ≤ (keysOf s.rowsCopiedMaps).count a := by
        intro a
        exact count_le_flatMap (fun rowsCopiedMap => rowsCopiedMap.map Prod.fst) a
          s.rowsCopiedMaps k m hm
      have hdone : WorkerState.done ∈ s.workers.set k .waiting → WorkerState.done ∈ s.workers :=
        done_mem_set _ _ _ (by simp)
      unfold BackupSingleTableData at hb
      cases hext : (tableDefAt tableDefs table.Oid).IsExternal with
      | true =>
        simp only [hext, Bool.not_true, Bool.false_eq_true, if_false, Option.some.injEq,
          Prod.mk.injEq] at hb
        obtain ⟨hm1, _⟩ := hb
        subst hm1
        refine ⟨?_, ?_, ?_, h4, ?_, ?_, ?_⟩
        · intro a
          have := h1 a
          have := hheld a
          have := hkeys a
          rw [count_pending] at *
          simp only at *
          omega
        · intro a ha
          apply h2 a
          rw [← List.count_pos_iff] at ha ⊢
          dsimp only at ha
          have := hkeys a
          omega
        · intro hflag a ha hexta
          have := h3 hflag a ha hexta
          have := hheld a
          have := hkeys a
          have hne : [table.Oid].count a = 0 := by
            rw [List.count_eq_zero]
            intro hmem
            rw [List.mem_singleton] at hmem
            rw [hmem, hext] at hexta
            cases hexta
          rw [count_pending] at *
          simp only at *
          omega
        · intro hflag hd
          exact h5 hflag (hdone hd)
        · simpa using h6
        · simpa using h7
      | false =>
        simp only [hext, Bool.not_false, if_true] at hb
        cases hcopy : CopyTableOut env Exec table (backupFileOf env table) k with
        | none => simp [hcopy] at hb
        | some rowsCopied =>
          simp only [hcopy, Option.some.injEq, Prod.mk.injEq] at hb
          obtain ⟨hm1, _⟩ := hb
          subst hm1
          have hone : (tables.map (fun table => table.Oid)).count table.Oid ≤ 1 :=
            List.nodup_iff_count_le_one.mp hnodup table.Oid
          have hself : [table.Oid].count table.Oid = 1 := by simp
          have hfree : (m.map Prod.fst).count table.Oid = 0 := by
            have := h1 table.Oid
            have := hheld table.Oid
            have := hpart table.Oid
            rw [count_pending] at *
            omega
          have hnew : ∀ a, ((m.filter (fun binding => binding.1 != table.Oid)
                ++ [(table.Oid, rowsCopied)]).map Prod.fst).count a
              = (m.map Prod.fst).count a + [table.Oid].count a := by
            intro a
            rw [List.map_append, List.count_append, count_keys_filter]
            by_cases ha : a = table.Oid
            · subst ha
              simp only [if_true, hfree, List.map_cons, List.map_nil]
            · simp only [ha, if_false, List.map_cons, List.map_nil]
          refine ⟨?_, ?_, ?_, h4, ?_, ?_, ?_⟩
          · intro a
            have := h1 a
            have := hheld a
            have := hkeys a
            have := hnew a
            rw [count_pending] at *
            simp only at *
            omega
          · intro a ha
            rw [← List.count_pos_iff] at ha
            dsimp only at ha
            have := hkeys a
            have := hnew a
            by_cases hmem : a = table.Oid
            · rw [hmem]
              exact hext
            · apply h2 a
              rw [← List.count_pos_iff]
              have hzero : [table.Oid].count a = 0 := by
                rw [List.count_eq_zero, List.mem_singleton]
                exact hmem
              omega
          · intro hflag a ha hexta
            have := h3 hflag a ha hexta
            have := hheld a
            have := hkeys a
            have := hnew a
            rw [count_pending] at *
            simp only at *
            omega
          · intro hflag hd
            exact h5 hflag (hdone hd)
          · simpa using h6
          · simpa using h7

/-- Every move keeps the invariant. -/
theorem Inv_step (env : BackupEnv) (Exec : String → Nat → Option Int) (NumConns : Nat)
    (tables : List Relation) (tableDefs : List (Nat × TableDefinition))
    (hnodup : (tables.map (fun table => table.Oid)).Nodup)
    (s s1 : PoolState) (event : Event) (hinv : s.Inv NumConns tables tableDefs)
    (hstep : s.step env Exec tableDefs event = some s1) :
    s1.Inv NumConns tables tableDefs := by
  cases event with
  | interrupt =>
    simp only [PoolState.step, Option.some.injEq] at hstep
    subst hstep
    exact Inv_interrupt NumConns tables tableDefs s hinv
  | main => exact Inv_main env Exec NumConns tables tableDefs s s1 hinv hstep
  | worker k =>
    simp only [PoolState.step] at hstep
    cases hk : s.workers[k]? with
    | none => simp [hk] at hstep
    | some w =>
      simp only [hk] at hstep
      cases w with
      | waiting =>
        exact Inv_worker_waiting env Exec NumConns tables tableDefs s s1 k hinv hk hstep
      | received table =>
        exact Inv_worker_received env Exec NumConns tables tableDefs s s1 k table hinv hk hstep
      | backingUp table =>
        exact Inv_worker_backingUp env Exec NumConns tables tableDefs hnodup s s1 k table hinv
          hk hstep
      | done => simp [PoolState.workerStep] at hstep

/-- Every schedule keeps the invariant. -/
theorem Inv_run (env : BackupEnv) (Exec : String → Nat → Option Int) (NumConns : Nat)
    (tables : List Relation) (tableDefs : List (Nat × TableDefinition))
    (hnodup : (tables.map (fun table => table.Oid)).Nodup) (schedule : List Event) :
    ∀ (s s1 : PoolState), s.Inv NumConns tables tableDefs →
    PoolState.run env Exec tableDefs schedule s = some s1 →
    s1.Inv NumConns tables tableDefs := by
  induction schedule with
  | nil =>
    intro s s1 hinv hrun
    simp only [PoolState.run, Option.some.injEq] at hrun
    rw [← hrun]
    exact hinv
  | cons event rest ih =>
    intro s s1 hinv hrun
    simp only [PoolState.run] at hrun
    cases hstep : s.step env Exec tableDefs event with
    | none => simp [hstep] at hrun
    | some s2 =>
      simp only [hstep] at hrun
      exact ih s2 s1 (Inv_step env Exec NumConns tables tableDefs hnodup s s2 event hinv hstep)
        hrun

/-- A move changes the flag only if it is the interrupt, and the map of a connection only if it
is a move of the worker of that connection. -/
theorem step_frame (env : BackupEnv) (Exec : String → Nat → Option Int)
    (tableDefs : List (Nat × TableDefinition)) (s s1 : PoolState) (event : Event)
    (hstep : s.step env Exec tableDefs event = some s1) :
    (event ≠ .interrupt → s1.wasTerminated = s.wasTerminated) ∧
    ∀ j, event ≠ .worker j → s1.rowsCopiedMaps[j]? = s.rowsCopiedMaps[j]? := by
  cases event with
  | interrupt =>
    simp only [PoolState.step, Option.some.injEq] at hstep
    subst hstep
    exact ⟨fun h => absurd rfl h, fun _ _ => rfl⟩
  | main =>
    simp only [PoolState.step] at hstep
    split at hstep
    · simp only [Option.some.injEq] at hstep
      subst hstep
      exact ⟨fun _ => rfl, fun _ _ => rfl⟩
    · split at hstep
      · cases hstep
      · simp only [Option.some.injEq] at hstep
        subst hstep
        exact ⟨fun _ => rfl, fun _ _ => rfl⟩
  | worker k =>
    simp only [PoolState.step] at hstep
    split at hstep
    · cases hstep
    · rename_i w _
      cases w with
      | waiting =>
        simp only [PoolState.workerStep] at hstep
        split at hstep
        · simp only [Option.some.injEq] at hstep
          subst hstep
          exact ⟨fun _ => rfl, fun _ _ => rfl⟩
        · split at hstep
          · simp only [Option.some.injEq] at hstep
            subst hstep
            exact ⟨fun _ => rfl, fun _ _ => rfl⟩
          · cases hstep
      | received table =>
        simp only [PoolState.workerStep] at hstep
        split at hstep <;>
          (simp only [Option.some.injEq] at hstep
           subst hstep
           exact ⟨fun _ => rfl, fun _ _ => rfl⟩)
      | backingUp table =>
        simp only [PoolState.workerStep] at hstep
        split at hstep
        · cases hstep
        · split at hstep
          · cases hstep
          · simp only [Option.some.injEq] at hstep
            subst hstep
            refine ⟨fun _ => rfl, ?_⟩
            intro j hj
            have hne : k ≠ j := fun h => hj (by rw [h])
            simp only [List.getElem?_set, hne, if_false]
      | done => simp [PoolState.workerStep] at hstep

/-- A schedule without interrupt leaves the flag as it is. -/
theorem run_wasTerminated (env : BackupEnv) (Exec : String → Nat → Option Int)
    (tableDefs : List (Nat × TableDefinition)) (schedule : List Event) :
    ∀ (s s1 : PoolState), Event.interrupt ∉ schedule →
    PoolState.run env Exec tableDefs schedule s = some s1 →
    s1.wasTerminated = s.wasTerminated := by
  induction schedule with
  | nil =>
    intro s s1 _ hrun
    simp only [PoolState.run, Option.some.injEq] at hrun
    rw [hrun]
  | cons event rest ih =>
    intro s s1 hno hrun
    rw [List.mem_cons, not_or] at hno
    simp only [PoolState.run] at hrun
    cases hstep : s.step env Exec tableDefs event with
    | none => simp [hstep] at hrun
    | some s2 =>
      simp only [hstep] at hrun
      rw [ih s2 s1 hno.2 hrun]
      exact (step_frame env Exec tableDefs s s2 event hstep).1 (fun h => hno.1 h.symm)

/-- Two different elements of a list contribute both to the count over the flattened
images. -/
theorem count_two_le_flatMap {α : Type} (f : α → List Nat) (a : Nat) :
    ∀ (l : List α) (i j : Nat) (x y : α), l[i]? = some x → l[j]? = some y → i ≠ j →
    (f x).count a + (f y).count a ≤ (l.flatMap f).count a := by
  intro l
  induction l with
  | nil => intro i j x y h; simp at h
  | cons b rest ih =>
    intro i j x y hi hj hne
    simp only [List.flatMap_cons, List.count_append]
    cases i with
    | zero =>
      cases j with
      | zero => exact absurd rfl hne
      | succ j =>
        simp only [List.getElem?_cons_zero, Option.some.injEq] at hi
        simp only [List.getElem?_cons_succ] at hj
        subst hi
        have := count_le_flatMap f a rest j y hj
        omega
    | succ i =>
      cases j with
      | zero =>
        simp only [List.getElem?_cons_zero, Option.some.injEq] at hj
        simp only [List.getElem?_cons_succ] at hi
        subst hj
        have := count_le_flatMap f a rest i x hi
        omega
      | succ j =>
        simp only [List.getElem?_cons_succ] at hi hj
        have := ih i j x y hi hj (fun h => hne (by rw [h]))
        omega

/-- Workers that have all returned hold no oid. -/
theorem held_all_done (workers : List WorkerState)
    (h : workers.all (fun worker => worker == .done) = true) :
    workers.flatMap WorkerState.held = [] := by
  induction workers with
  | nil => rfl
  | cons w rest ih =>
    simp only [List.all_cons, Bool.and_eq_true, beq_iff_eq] at h
    rw [List.flatMap_cons, ih h.2, h.1]
    rfl

/-! ## The worker pool: the history of receives -/

/-- The history invariant holds when the workers are started. -/
theorem TakenInv_start (NumConns : Nat) (tables : List Relation)
    (tableDefs : List (Nat × TableDefinition)) :
    (PoolState.start NumConns tables tableDefs).TakenInv tables := by
  refine ⟨?_, ?_, ?_⟩
  · intro a
    simp [PoolState.start]
  · intro j m a hm ha
    simp only [PoolState.start, List.getElem?_replicate] at hm
    split at hm
    · simp only [Option.some.injEq] at hm
      subst hm
      cases ha
    · cases hm
  · intro j table h
    simp only [PoolState.start, List.getElem?_replicate] at h
    rcases h with h | h <;> (split at h <;> cases h)

/-- The worker at a position after the worker of a connection was replaced. -/
theorem getElem?_set_eq_some (workers : List WorkerState) (k j : Nat) (w x : WorkerState)
    (h : (workers.set k w)[j]? = some x) : (j = k ∧ x = w) ∨ (j ≠ k ∧ workers[j]? = some x) := by
  rw [List.getElem?_set] at h
  by_cases hkj : k = j
  · rw [if_pos hkj] at h
    split at h
    · simp only [Option.some.injEq] at h
      exact Or.inl ⟨hkj.symm, h.symm⟩
    · cases h
  · rw [if_neg hkj] at h
    exact Or.inr ⟨fun e => hkj e.symm, h⟩

/-- A move of a worker that touches neither the maps nor the history nor the channel keeps the
history invariant, if the worker does not come to hold a table it did not hold. -/
theorem TakenInv_set_worker (tables : List Relation) (s : PoolState) (k : Nat)
    (w : WorkerState) (hinv : s.TakenInv tables)
    (hw : ∀ table, w = .received table ∨ w = .backingUp table → (k, table) ∈ s.taken) :
    PoolState.TakenInv tables { s with workers := s.workers.set k w } := by
  obtain ⟨t1, t2, t3⟩ := hinv
  refine ⟨t1, t2, ?_⟩
  intro j table h
  have hcases : ∀ x, (x = WorkerState.received table ∨ x = WorkerState.backingUp table) →
      (s.workers.set k w)[j]? = some x → (j, table) ∈ s.taken := by
    intro x hx hget
    rcases getElem?_set_eq_some _ _ _ _ _ hget with ⟨hj, hxw⟩ | ⟨_, hold⟩
    · rw [hj]
      apply hw table
      rw [← hxw]
      exact hx
    · apply t3 j table
      rcases hx with hx | hx
      · exact Or.inl (hx ▸ hold)
      · exact Or.inr (hx ▸ hold)
  rcases h with h | h
  · exact hcases _ (Or.inl rfl) h
  · exact hcases _ (Or.inr rfl) h

/-- Every move keeps the history invariant. -/
theorem TakenInv_step (env : BackupEnv) (Exec : String → Nat → Option Int)
    (tables : List Relation) (tableDefs : List (Nat × TableDefinition))
    (s s1 : PoolState) (event : Event) (hinv : s.TakenInv tables)
    (hstep : s.step env Exec tableDefs event = some s1) :
    s1.TakenInv tables := by
  cases event with
  | interrupt =>
    simp only [PoolState.step, Option.some.injEq] at hstep
    subst hstep
    exact hinv
  | main =>
    obtain ⟨t1, t2, t3⟩ := hinv
    simp only [PoolState.step] at hstep
    cases hsend : s.toSend with
    | nil =>
      cases hclosed : s.closed with
      | true => simp [hsend, hclosed] at hstep
      | false =>
        simp only [hsend, hclosed, Bool.false_eq_true, if_false, Option.some.injEq] at hstep
        subst hstep
        refine ⟨?_, t2, t3⟩
        intro a
        simpa only [hsend] using t1 a
    | cons table rest =>
      simp only [hsend, Option.some.injEq] at hstep
      subst hstep
      refine ⟨?_, t2, t3⟩
      intro a
      have := t1 a
      simp only [hsend, List.map_cons, List.map_append, List.count_append, List.map_nil,
        List.count_cons, List.count_nil] at this ⊢
      omega
  | worker k =>
    simp only [PoolState.step] at hstep
    cases hk : s.workers[k]? with
    | none => simp [hk] at hstep
    | some w =>
      simp only [hk] at hstep
      cases w with
      | done => simp [PoolState.workerStep] at hstep
      | waiting =>
        simp only [PoolState.workerStep] at hstep
        cases htasks : s.tasks with
        | nil =>
          cases hclosed : s.closed with
          | false => simp [htasks, hclosed] at hstep
          | true =>
            simp only [htasks, hclosed, if_true, Option.some.injEq] at hstep
            subst hstep
            have := TakenInv_set_worker tables s k .done hinv
              (by intro table h; rcases h with h | h <;> cases h)
            simpa only [htasks] using this
        | cons table rest =>
          simp only [htasks, Option.some.injEq] at hstep
          subst hstep
          obtain ⟨t1, t2, t3⟩ := hinv
          refine ⟨?_, ?_, ?_⟩
          · intro a
            have := t1 a
            simp only [htasks, List.map_cons, List.map_append, List.count_append,
              List.map_nil, List.count_cons, List.count_nil] at this ⊢
            omega
          · intro j m a hm ha
            obtain ⟨t, ht, hoid⟩ := t2 j m a hm ha
            exact ⟨t, List.mem_append_left _ ht, hoid⟩
          · intro j t h
            have hcases : ∀ x, (x = WorkerState.received t ∨ x = WorkerState.backingUp t) →
                (s.workers.set k (.received table))[j]? = some x →
                (j, t) ∈ s.taken ++ [(k, table)] := by
              intro x hx hget
              rcases getElem?_set_eq_some _ _ _ _ _ hget with ⟨hj, hxw⟩ | ⟨_, hold⟩
              · rcases hx with hx | hx
                · rw [hx] at hxw
                  simp only [WorkerState.received.injEq] at hxw
                  rw [hj, hxw]
                  exact List.mem_append_right _ (List.mem_singleton.mpr rfl)
                · rw [hx] at hxw
                  cases hxw
              · apply List.mem_append_left
                apply t3 j t
                rcases hx with hx | hx
                · exact Or.inl (hx ▸ hold)
                · exact Or.inr (hx ▸ hold)
            rcases h with h | h
            · exact hcases _ (Or.inl rfl) h
            · exact hcases _ (Or.inr rfl) h
      | received table =>
        have hheld : (k, table) ∈ s.taken := hinv.2.2 k table (Or.inl hk)
        simp only [PoolState.workerStep] at hstep
        cases hflag : s.wasTerminated with
        | true =>
          simp only [hflag, if_true, Option.some.injEq] at hstep
          subst hstep
          have := TakenInv_set_worker tables s k .done hinv
            (by intro t h; rcases h with h | h <;> cases h)
          simpa only [hflag] using this
        | false =>
          simp only [hflag, Bool.false_eq_true, if_false, Option.some.injEq] at hstep
          subst hstep
          have := TakenInv_set_worker tables s k (.backingUp table) hinv
            (by
              intro t h
              rcases h with h | h
              · cases h
              · simp only [WorkerState.backingUp.injEq] at h
                rw [← h]
                exact hheld)
          simpa only [hflag] using this
      | backingUp table =>
        have hheld : (k, table) ∈ s.taken := hinv.2.2 k table (Or.inr hk)
        simp only [PoolState.workerStep] at hstep
        cases hm : s.rowsCopiedMaps[k]? with
        | none => simp [hm] at hstep
        | some m =>
          cases hb : BackupSingleTableData env Exec (tableDefAt tableDefs table.Oid) table m
              s.counters k with
          | none => simp [hm, hb] at hstep
          | some result =>
            obtain ⟨m1, c1⟩ := result
            simp only [hm, hb, Option.some.injEq] at hstep
            subst hstep
            have hkeys : ∀ a, a ∈ m1.map Prod.fst → a ∈ m.map Prod.fst ∨ a = table.Oid := by
              intro a ha
              unfold BackupSingleTableData at hb
              split at hb
              · cases hcopy : CopyTableOut env Exec table (backupFileOf env table) k with
                | none => simp [hcopy] at hb
                | some rowsCopied =>
                  simp only [hcopy, Option.some.injEq, Prod.mk.injEq] at hb
                  rw [← hb.1] at ha
                  simp only [List.map_append, List.mem_append, List.map_cons, List.map_nil,
                    List.mem_singleton] at ha
                  rcases ha with ha | ha
                  · left
                    obtain ⟨b, hb1, hb2⟩ := List.mem_map.mp ha
                    exact List.mem_map.mpr ⟨b, (List.mem_filter.mp hb1).1, hb2⟩
                  · exact Or.inr ha
              · simp only [Option.some.injEq, Prod.mk.injEq] at hb
                rw [← hb.1] at ha
                exact Or.inl ha
            have hrest := TakenInv_set_worker tables s k .waiting hinv
              (by intro t h; rcases h with h | h <;> cases h)
            obtain ⟨t1, t2, t3⟩ := hrest
            refine ⟨t1, ?_, t3⟩
            intro j mj a hj ha
            dsimp only at hj
            rw [List.getElem?_set] at hj
            by_cases hkj : k = j
            · rw [if_pos hkj] at hj
              split at hj
              · simp only [Option.some.injEq] at hj
                subst hj
                subst hkj
                rcases hkeys a ha with hold | hnew
                · exact t2 k m a hm hold
                · exact ⟨table, hheld, hnew.symm⟩
              · cases hj
            · rw [if_neg hkj] at hj
              exact t2 j mj a hj ha

/-- Every schedule keeps the history invariant. -/
theorem TakenInv_run (env : BackupEnv) (Exec : String → Nat → Option Int)
    (tables : List Relation) (tableDefs : List (Nat × TableDefinition))
    (schedule : List Event) :
    ∀ (s s1 : PoolState), s.TakenInv tables →
    PoolState.run env Exec tableDefs schedule s = some s1 → s1.TakenInv tables := by
  induction schedule with
  | nil =>
    intro s s1 hinv hrun
    simp only [PoolState.run, Option.some.injEq] at hrun
    rw [← hrun]
    exact hinv
  | cons event rest ih =>
    intro s s1 hinv hrun
    simp only [PoolState.run] at hrun
    cases hstep : s.step env Exec tableDefs event with
    | none => simp [hstep] at hrun
    | some s2 =>
      simp only [hstep] at hrun
      exact ih s2 s1 (TakenInv_step env Exec tables tableDefs s s2 event hinv hstep) hrun

/-- C22, as stated, fails: on one connection with two tables, the interrupt comes after the
caller has sent both tables and closed the channel; the worker receives the first table, finds
the flag set and returns; `BackupDataForAllTables` returns while the second table is still in
the channel, taken by no worker. -/
theorem BackupDataForAllTables_table_not_taken :
    ∃ final,
      PoolState.run exampleEnv exampleExec []
          [.main, .main, .main, .interrupt, .worker 0, .worker 0]
          (PoolState.start 1
            [{ Schema := "s", Name := "a", Oid := 1 }, { Schema := "s", Name := "b", Oid := 2 }]
            []) = some final ∧
      BackupDataForAllTables exampleEnv exampleExec 1
          [{ Schema := "s", Name := "a", Oid := 1 }, { Schema := "s", Name := "b", Oid := 2 }]
          [] [.main, .main, .main, .interrupt, .worker 0, .worker 0]
        = some final.rowsCopiedMaps ∧
      final.tasks = [{ Schema := "s", Name := "b", Oid := 2 }] ∧
      final.taken = [(0, { Schema := "s", Name := "a", Oid := 1 })] ∧
      final.rowsCopiedMaps = [[]] :=
  ⟨_, rfl, by decide, by decide, by decide, by decide⟩

/-- C22, amended: for a table list with pairwise distinct oids, under every schedule of the
caller, the workers and the interrupt on which `BackupDataForAllTables` returns: each table is
taken from the channel at most once, hence by at most one worker; there is one map per
connection; every oid is a key of at most one of the returned maps (and once in it); every key
of the map of a connection is the oid of a listed table that is not external and that the
worker of that connection has taken; a map is changed only by moves of the worker of its
connection; and if the flag `wasTerminated` is never set and there is a connection, every
listed table is taken exactly once and the oid of every listed table that is not external is a
key of one of the maps. -/
theorem BackupDataForAllTables_maps (env : BackupEnv) (Exec : String → Nat → Option Int)
    (NumConns : Nat) (tables : List Relation) (tableDefs : List (Nat × TableDefinition))
    (schedule : List Event) (rowsCopiedMaps : List (List (Nat × Int)))
    (hoids : (tables.map (fun table => table.Oid)).Nodup)
    (hreturn : BackupDataForAllTables env Exec NumConns tables tableDefs schedule
      = some rowsCopiedMaps) :
    ∃ final,
      PoolState.run env Exec tableDefs schedule (PoolState.start NumConns tables tableDefs)
        = some final ∧
      final.rowsCopiedMaps = rowsCopiedMaps ∧
      (final.taken.map (fun p => p.2.Oid)).Nodup ∧
      (∀ (j : Nat) (m : List (Nat × Int)) (oid : Nat),
        rowsCopiedMaps[j]? = some m → oid ∈ m.map Prod.fst →
        ∃ table, (j, table) ∈ final.taken ∧ table.Oid = oid) ∧
      rowsCopiedMaps.length = NumConns ∧
      (rowsCopiedMaps.flatten.map Prod.fst).Nodup ∧
      (∀ (i j : Nat) (mi mj : List (Nat × Int)) (oid : Nat),
        rowsCopiedMaps[i]? = some mi → rowsCopiedMaps[j]? = some mj →
        oid ∈ mi.map Prod.fst → oid ∈ mj.map Prod.fst → i = j) ∧
      (∀ m ∈ rowsCopiedMaps, ∀ kv ∈ m, ∃ table ∈ tables,
        table.Oid = kv.1 ∧ (tableDefAt tableDefs table.Oid).IsExternal = false) ∧
      (∀ (s s1 : PoolState) (event : Event) (j : Nat),
        s.step env Exec tableDefs event = some s1 → event ≠ .worker j →
        s1.rowsCopiedMaps[j]? = s.rowsCopiedMaps[j]?) ∧
      (Event.interrupt ∉ schedule → 0 < NumConns →
        (∀ table ∈ tables, (final.taken.map (fun p => p.2.Oid)).count table.Oid = 1) ∧
        ∀ table ∈ tables, (tableDefAt tableDefs table.Oid).IsExternal = false →
          ∃ m ∈ rowsCopiedMaps, table.Oid ∈ m.map Prod.fst) := by
  unfold BackupDataForAllTables at hreturn
  cases hrun : PoolState.run env Exec tableDefs schedule
      (PoolState.start NumConns tables tableDefs) with
  | none => simp [hrun] at hreturn
  | some s =>
    simp only [hrun] at hreturn
    split at hreturn
    · rename_i hfinal
      simp only [Option.some.injEq] at hreturn
      subst hreturn
      rw [Bool.and_eq_true] at hfinal
      obtain ⟨hclosed, hall⟩ := hfinal
      obtain ⟨h1, h2, h3, h4, h5, h6, h7⟩ := Inv_run env Exec NumConns tables tableDefs hoids
        schedule _ s (Inv_start NumConns tables tableDefs) hrun
      obtain ⟨t1, t2, _⟩ := TakenInv_run env Exec tables tableDefs schedule _ s
        (TakenInv_start NumConns tables tableDefs) hrun
      have hheld := held_all_done s.workers hall
      have hsent := h4 hclosed
      have hone : ∀ a, (tables.map (fun table => table.Oid)).count a ≤ 1 :=
        List.nodup_iff_count_le_one.mp hoids
      have hle : ∀ a, (keysOf s.rowsCopiedMaps).count a
          ≤ (tables.map (fun table => table.Oid)).count a := by
        intro a
        have := h1 a
        rw [count_pending, hheld, hsent] at this
        simp only [List.count_nil, List.map_nil] at this
        omega
      have hflat : s.rowsCopiedMaps.flatten.map Prod.fst = keysOf s.rowsCopiedMaps := by
        simp [keysOf, List.flatMap_def, List.map_flatten]
      have hempty : Event.interrupt ∉ schedule → 0 < NumConns → s.tasks = [] := by
        intro hno hconns
        have hflag : s.wasTerminated = false := by
          rw [run_wasTerminated env Exec tableDefs schedule _ s hno hrun]
          rfl
        have hdone : WorkerState.done ∈ s.workers := by
          cases hw : s.workers with
          | nil =>
            rw [hw] at h6
            simp only [List.length_nil] at h6
            omega
          | cons w rest =>
            rw [hw] at hall
            simp only [List.all_cons, Bool.and_eq_true, beq_iff_eq] at hall
            rw [hall.1]
            exact List.mem_cons_self _ _
        exact (h5 hflag hdone).1
      refine ⟨s, rfl, rfl, ?_, t2, h7, ?_, ?_, ?_, ?_, ?_⟩
      · rw [List.nodup_iff_count_le_one]
        intro a
        have := t1 a
        have := hone a
        omega
      · rw [hflat, List.nodup_iff_count_le_one]
        intro a
        exact le_trans (hle a) (hone a)
      · intro i j mi mj oid hi hj hmi hmj
        by_contra hne
        have htwo := count_two_le_flatMap
          (fun rowsCopiedMap : List (Nat × Int) => rowsCopiedMap.map Prod.fst) oid
          s.rowsCopiedMaps i j mi mj hi hj hne
        dsimp only at htwo
        have hci := List.count_pos_iff.mpr hmi
        have hcj := List.count_pos_iff.mpr hmj
        have := hle oid
        have := hone oid
        unfold keysOf at *
        omega
      · intro m hm kv hkv
        have hmem : kv.1 ∈ keysOf s.rowsCopiedMaps :=
          List.mem_flatMap.mpr ⟨m, hm, List.mem_map.mpr ⟨kv, hkv, rfl⟩⟩
        have hpos : 0 < (tables.map (fun table => table.Oid)).count kv.1 :=
          lt_of_lt_of_le (List.count_pos_iff.mpr hmem) (hle kv.1)
        obtain ⟨table, ht, hoid⟩ := List.mem_map.mp (List.count_pos_iff.mp hpos)
        refine ⟨table, ht, hoid, ?_⟩
        rw [hoid]
        exact h2 kv.1 hmem
      · intro s0 s1 event j hstep hevent
        exact (step_frame env Exec tableDefs s0 s1 event hstep).2 j hevent
      · intro hno hconns
        have htasks := hempty hno hconns
        have hflag : s.wasTerminated = false := by
          rw [run_wasTerminated env Exec tableDefs schedule _ s hno hrun]
          rfl
        constructor
        · intro table ht
          have := t1 table.Oid
          rw [htasks, hsent] at this
          simp only [List.map_nil, List.count_nil] at this
          have hpos : 0 < (tables.map (fun table => table.Oid)).count table.Oid :=
            List.count_pos_iff.mpr (List.mem_map.mpr ⟨table, ht, rfl⟩)
          have := hone table.Oid
          omega
        · intro table ht hext
          have hcount := h3 hflag table.Oid (List.mem_map.mpr ⟨table, ht, rfl⟩) hext
          rw [count_pending, hheld, hsent, htasks] at hcount
          simp only [List.count_nil, List.map_nil] at hcount
          have hmem : table.Oid ∈ keysOf s.rowsCopiedMaps :=
            List.count_pos_iff.mp (by omega)
          obtain ⟨m, hm, hkey⟩ := List.mem_flatMap.mp hmem
          exact ⟨m, hm, hkey⟩
    · cases hreturn

/-- C22 amended, at a complete run on two connections for three tables, the second external,
without interrupt: the tables with oids 1 and 3 are keys, each of one map. -/
theorem BackupDataForAllTables_maps_witness :
    ∃ final,
      PoolState.run exampleEnv exampleExec [(2, { IsExternal := true, ColumnDefs := [] })]
          exampleSchedule
          (PoolState.start 2
            [{ Schema := "s", Name := "a", Oid := 1 }, { Schema := "s", Name := "x", Oid := 2 },
             { Schema := "s", Name := "b", Oid := 3 }]
            [(2, { IsExternal := true, ColumnDefs := [] })]) = some final ∧
      final.rowsCopiedMaps = [[(1, 10)], [(3, 11)]] ∧
      (final.taken.map (fun p => p.2.Oid)).Nodup ∧
      (([[(1, 10)], [(3, 11)]] : List (List (Nat × Int))).flatten.map Prod.fst).Nodup :=
  match BackupDataForAllTables_maps exampleEnv exampleExec 2
      [{ Schema := "s", Name := "a", Oid := 1 }, { Schema := "s", Name := "x", Oid := 2 },
       { Schema := "s", Name := "b", Oid := 3 }]
      [(2, { IsExternal := true, ColumnDefs := [] })] exampleSchedule [[(1, 10)], [(3, 11)]]
      (by decide) (by decide) with
  | ⟨final, hrun, hmaps, htaken, _, _, hkeys, _⟩ => ⟨final, hrun, hmaps, htaken, hkeys⟩

end GpBackup
